import Mathlib

/-!
Verification of the read-capability / read-hold subsystem of the Materialize
coordinator (`src/adapter/src/coord/read_policy.rs`).

The functions under verification are monomorphic at `T = mz_repr::Timestamp`,
a 64-bit millisecond timestamp with its total order.  The claims involve no
timestamp arithmetic (only `max`, comparison and equality), so timestamps are
embedded as `Nat`.

Over a totally ordered timestamp type, a `timely::progress::Antichain` (a
finite set of mutually incomparable elements) is either the empty antichain or
a singleton `{t}`.  We therefore embed `Antichain<Timestamp>` as
`Option Timestamp`, with `none` denoting the empty antichain.

`HashMap`s keyed by antichains are embedded as association lists; `BTreeSet`s
as duplicate-free lists.  All claim statements about maps and sets are phrased
through lookup and membership, which are insensitive to the ordering artifacts
of this representation.
-/

set_option maxHeartbeats 1000000

abbrev Timestamp := Nat

/-- Embedding of `timely::progress::Antichain<Timestamp>` for the totally
ordered `Timestamp`: `none` is the empty antichain, `some t` the singleton. -/
abbrev Frontier := Option Timestamp

namespace Frontier

/-- `Antichain::from_elem(t)`: the singleton antichain. -/
def fromElem (t : Timestamp) : Frontier := some t

/-- `Lattice::join` on antichains (differential-dataflow): pairwise least
upper bounds, minimized.  For singletons over a total order this is the max;
joining with the empty antichain yields the empty antichain. -/
def join : Frontier → Frontier → Frontier
  | some a, some b => some (max a b)
  | _, _ => none

/-- `PartialOrder::less_equal` on antichains (written `le` in the source):
every element of the right antichain is greater than or equal to some element
of the left antichain. -/
def le : Frontier → Frontier → Bool
  | _, none => true
  | none, some _ => false
  | some a, some b => decide (a ≤ b)

/-- `Antichain::iter`: the elements, as a list. -/
def toList : Frontier → List Timestamp
  | none => []
  | some t => [t]

end Frontier

/-- Insertion into a `BTreeSet` embedded as a duplicate-free list. -/
def insertSet (l : List Nat) (x : Nat) : List Nat :=
  if x ∈ l then l else l ++ [x]

/-- Insertion into a `BTreeSet` of pairs embedded as a duplicate-free list. -/
def insertSetP (l : List (Nat × Nat)) (x : Nat × Nat) : List (Nat × Nat) :=
  if x ∈ l then l else l ++ [x]

/-- Modelled from the spec: `CollectionIdBundle` (coord/id_bundle.rs, which is
not under src/): "a set of storage ids plus a mapping from `InstanceId` to a
set of compute ids. Supports union (`extend`), intersection, emptiness test."
The compute side, a map from instance to a set of ids, is represented as the
set of (instance, id) pairs; sets are duplicate-free lists. -/
structure CollectionIdBundle where
  storage_ids : List Nat
  compute_ids : List (Nat × Nat)
deriving DecidableEq

namespace CollectionIdBundle

/-- The empty bundle (`CollectionIdBundle::default`). -/
def empty : CollectionIdBundle := ⟨[], []⟩

/-- Emptiness test. -/
def is_empty (b : CollectionIdBundle) : Bool :=
  b.storage_ids.isEmpty && b.compute_ids.isEmpty

/-- Union (`extend`). -/
def extend (b o : CollectionIdBundle) : CollectionIdBundle :=
  ⟨b.storage_ids ++ o.storage_ids.filter (fun i => decide (i ∉ b.storage_ids)),
   b.compute_ids ++ o.compute_ids.filter (fun p => decide (p ∉ b.compute_ids))⟩

/-- Intersection. -/
def intersection (b o : CollectionIdBundle) : CollectionIdBundle :=
  ⟨b.storage_ids.filter (fun i => decide (i ∈ o.storage_ids)),
   b.compute_ids.filter (fun p => decide (p ∈ o.compute_ids))⟩

end CollectionIdBundle

/-- Association-list lookup, standing in for `HashMap::get`. -/
def assocGet {κ α : Type} [DecidableEq κ] : List (κ × α) → κ → Option α
  | [], _ => none
  | (k, v) :: rest, k₀ => if k = k₀ then some v else assocGet rest k₀

/-- Association-list upsert, standing in for
`HashMap::entry(k).or_insert(d)` followed by a mutation `g` of the entry. -/
def assocUpsert {κ α : Type} [DecidableEq κ] (m : List (κ × α)) (k₀ : κ) (d : α)
    (g : α → α) : List (κ × α) :=
  match m with
  | [] => [(k₀, g d)]
  | (k, v) :: rest =>
      if k = k₀ then (k, g v) :: rest else (k, v) :: assocUpsert rest k₀ d g

/-- Association-list overwrite at a key known to be present (otherwise
append), standing in for writing through `HashMap::get_mut`. -/
def assocSet {κ α : Type} [DecidableEq κ] (m : List (κ × α)) (k₀ : κ) (v₀ : α) :
    List (κ × α) :=
  assocUpsert m k₀ v₀ (fun _ => v₀)

/-- The map underlying both `TimelineReadHolds` and `ReadHoldsInner`:
`HashMap<Antichain<Timestamp>, CollectionIdBundle>`. -/
abbrev HoldsMap := List (Frontier × CollectionIdBundle)

/-- Bundle stored at a frontier, empty if the entry is absent. -/
def bundleAt (m : HoldsMap) (f : Frontier) : CollectionIdBundle :=
  (assocGet m f).getD CollectionIdBundle.empty

/-- `TimelineReadHolds<Timestamp>`: the per-timeline backstop read holds. -/
structure TimelineReadHolds where
  holds : HoldsMap
deriving DecidableEq

namespace TimelineReadHolds

/-- `TimelineReadHolds::new`. -/
def new : TimelineReadHolds := ⟨[]⟩

/-- `TimelineReadHolds::is_empty`. -/
def is_empty (r : TimelineReadHolds) : Bool := r.holds.isEmpty

/-- One step of `extend_with_new`: `self.holds.entry(time).or_default()`,
the assertion that the existing bundle at `time` and the incoming bundle do
not intersect (`none` models the panic), then `extend`. -/
def extendOne (m : HoldsMap) (f : Frontier) (ob : CollectionIdBundle) :
    Option HoldsMap :=
  if ((bundleAt m f).intersection ob).is_empty
  then some (assocUpsert m f CollectionIdBundle.empty (fun b => b.extend ob))
  else none

/-- Inner loop of `TimelineReadHolds::extend_with_new` over the drained
entries of `other`.  `none` models the `assert!` panic. -/
def extendLoop : HoldsMap → HoldsMap → Option HoldsMap
  | m, [] => some m
  | m, (f, ob) :: rest =>
      match extendOne m f ob with
      | none => none
      | some m₂ => extendLoop m₂ rest

/-- `TimelineReadHolds::extend_with_new`. -/
def extend_with_new (r other : TimelineReadHolds) : Option TimelineReadHolds :=
  (extendLoop r.holds other.holds).map (fun m => ⟨m⟩)

/-- `TimelineReadHolds::remove_storage_id`: scrub the id from every entry,
then `retain` only non-empty bundles. -/
def remove_storage_id (r : TimelineReadHolds) (id : Nat) : TimelineReadHolds :=
  ⟨(r.holds.map (fun fb =>
      (fb.1, { fb.2 with storage_ids := fb.2.storage_ids.filter (fun x => decide (x ≠ id)) }))).filter
    (fun fb => !fb.2.is_empty)⟩

/-- `TimelineReadHolds::remove_compute_id`: scrub the (instance, id) pair from
every entry (the source removes the id from the instance's set and drops the
instance entry if it empties, which is exactly pair removal in the pair-set
representation), then `retain` only non-empty bundles. -/
def remove_compute_id (r : TimelineReadHolds) (inst : Nat) (id : Nat) :
    TimelineReadHolds :=
  ⟨(r.holds.map (fun fb =>
      (fb.1, { fb.2 with compute_ids := fb.2.compute_ids.filter (fun p => decide (p ≠ (inst, id))) }))).filter
    (fun fb => !fb.2.is_empty)⟩

end TimelineReadHolds

/-- `ReadHoldsInner<Timestamp>`: the inner state of short-lived read holds. -/
structure ReadHoldsInner where
  holds : HoldsMap
deriving DecidableEq

namespace ReadHoldsInner

/-- `ReadHoldsInner::storage_ids`: all (time, storage id) pairs. -/
def storagePairs (m : HoldsMap) : List (Frontier × Nat) :=
  m.flatMap (fun fb => fb.2.storage_ids.map (fun id => (fb.1, id)))

/-- `ReadHoldsInner::compute_ids`, flattened: all (instance, time, id)
triples.  The source groups them per instance; per-capability effects and
per-instance batch contents are insensitive to the grouping. -/
def computePairs (m : HoldsMap) : List (Nat × Frontier × Nat) :=
  m.flatMap (fun fb => fb.2.compute_ids.map (fun p => (p.1, fb.1, p.2)))

end ReadHoldsInner

/-- Modelled from the spec: `ReadPolicy` (mz_storage_types::read_policy, not
under src/) — the base-policy variants the claims exercise: "never compact
below frontier F" (`ValidFrom`) and "never compact within window W of the
upper frontier" (`lag_writes_by`, the image of a `CompactionWindow`). -/
inductive ReadPolicy where
  | validFrom (frontier : Frontier)
  | lagWrites (window : Nat)
deriving DecidableEq

/-- Modelled from the spec: `CompactionWindow` (mz_adapter_types, not under
src/), a retention window; its `Into<ReadPolicy>` conversion yields the
lag-writes policy for that window. -/
abbrev CompactionWindow := Nat

/-- The `Into<ReadPolicy>` conversion of a `CompactionWindow`. -/
def CompactionWindow.intoPolicy (w : CompactionWindow) : ReadPolicy :=
  ReadPolicy.lagWrites w

/-- Modelled from the spec: `ReadCapability` (mz_adapter_types::compaction,
not under src/) — "a reference-counted multiset over frontier times (each
entry: a time, a signed integer net count of holds at/above that time), and a
`base_policy`".  The multiset (`MutableAntichain`) is represented as the log
of (time, delta) updates fed to `update_iter`; its net count at a time is the
sum of the deltas at that time. -/
structure ReadCapability where
  holds : List (Timestamp × Int)
  base_policy : ReadPolicy
deriving DecidableEq

namespace ReadCapability

/-- `ReadCapability::from(policy)`: empty hold multiset, given base policy. -/
def ofPolicy (p : ReadPolicy) : ReadCapability := ⟨[], p⟩

/-- Net hold count at a time: the sum of the logged deltas at that time. -/
def count (c : ReadCapability) (t : Timestamp) : Int :=
  ((c.holds.filter (fun p => decide (p.1 = t))).map (fun p => p.2)).sum

/-- `MutableAntichain::frontier()`: the minimal times with positive net
count; over the total order this is the least such time, or the empty
antichain when there is none. -/
def holdsFrontier (c : ReadCapability) : Frontier :=
  ((c.holds.map (fun p => p.1)).filter (fun t => decide (0 < c.count t))).min?

/-- Modelled from the spec: `ReadCapability::policy()` — "the meet of (a) the
least frontier dominating every time with positive net count, and (b) the
floor implied by `base_policy`".  The spec leaves the combining function open
(§9, "pluggable"), so the policy value is represented symbolically as the
pair of its two inputs. -/
def policy (c : ReadCapability) : Frontier × ReadPolicy :=
  (c.holdsFrontier, c.base_policy)

/-- `capability.holds.update_iter(frontier.iter().map(|t| (*t, delta)))`. -/
def update (c : ReadCapability) (f : Frontier) (delta : Int) : ReadCapability :=
  { c with holds := c.holds ++ f.toList.map (fun t => (t, delta)) }

end ReadCapability

/-- The policy value pushed per collection to a controller. -/
abbrev PolicyVal := Frontier × ReadPolicy

/-- The coordinator state the claims touch.  `storage_collections` and
`compute_collections` are modelled from the spec: the storage and compute
controllers (external collaborators, not under src/) expose
"`current_lower(id) -> Frontier` (read-only snapshot)" — respectively the
storage collection's `implied_capability` and the compute collection's
`read_capability()`.  `storage_read_capabilities` and
`compute_read_capabilities` are the coordinator's capability tables (spec §9:
coordinator-owned maps keyed by collection id; the compute table is keyed by
`GlobalId` alone, as in the source). -/
structure Coordinator where
  storage_collections : List (Nat × Frontier)
  compute_collections : List ((Nat × Nat) × Frontier)
  storage_read_capabilities : List (Nat × ReadCapability)
  compute_read_capabilities : List (Nat × ReadCapability)
deriving DecidableEq

namespace Coordinator

/-- `Coordinator::ensure_storage_capability` (read_policy.rs:519-554).  If a
capability exists: an explicit compaction window overwrites `base_policy`, no
window changes nothing.  If absent: initialize from the window's policy, or
from `ReadPolicy::ValidFrom` of the collection's `implied_capability`;
`none` models the `expect` panic when that collection does not exist. -/
def ensure_storage_capability (c : Coordinator) (id : Nat)
    (compaction_window : Option CompactionWindow) : Option Coordinator :=
  match assocGet c.storage_read_capabilities id with
  | some cap =>
      match compaction_window with
      | some w =>
          let cap₂ := { cap with base_policy := w.intoPolicy }
          some { c with storage_read_capabilities :=
                   assocSet c.storage_read_capabilities id cap₂ }
      | none => some c
  | none =>
      let pol? : Option ReadPolicy :=
        match compaction_window with
        | some w => some w.intoPolicy
        | none => (assocGet c.storage_collections id).map ReadPolicy.validFrom
      pol?.map (fun p =>
        { c with storage_read_capabilities :=
          assocSet c.storage_read_capabilities id (ReadCapability.ofPolicy p) })

/-- `Coordinator::ensure_compute_capability` (read_policy.rs:477-512), the
compute twin of `ensure_storage_capability`: the absent-and-no-window default
reads the compute collection's `read_capability()` for `ValidFrom`. -/
def ensure_compute_capability (c : Coordinator) (instance_id : Nat) (id : Nat)
    (compaction_window : Option CompactionWindow) : Option Coordinator :=
  match assocGet c.compute_read_capabilities id with
  | some cap =>
      match compaction_window with
      | some w =>
          let cap₂ := { cap with base_policy := w.intoPolicy }
          some { c with compute_read_capabilities :=
                   assocSet c.compute_read_capabilities id cap₂ }
      | none => some c
  | none =>
      let pol? : Option ReadPolicy :=
        match compaction_window with
        | some w => some w.intoPolicy
        | none =>
            (assocGet c.compute_collections (instance_id, id)).map ReadPolicy.validFrom
      pol?.map (fun p =>
        { c with compute_read_capabilities :=
          assocSet c.compute_read_capabilities id (ReadCapability.ofPolicy p) })

/-- One storage iteration of the hold-building loop of
`acquire_read_holds` (read_policy.rs:642-656): look up the collection
(`none` models the `expect` panic), join the requested time with its
`implied_capability`, and insert the id into the entry at that frontier. -/
def insertStorageHold (c : Coordinator) (time_antichain : Frontier)
    (m : HoldsMap) (id : Nat) : Option HoldsMap :=
  (assocGet c.storage_collections id).map (fun read_frontier =>
    assocUpsert m (time_antichain.join read_frontier) CollectionIdBundle.empty
      (fun b => { b with storage_ids := insertSet b.storage_ids id }))

/-- The storage hold-building loop of `acquire_read_holds`. -/
def buildStorageHolds (c : Coordinator) (time_antichain : Frontier) :
    HoldsMap → List Nat → Option HoldsMap
  | m, [] => some m
  | m, id :: rest =>
      match insertStorageHold c time_antichain m id with
      | none => none
      | some m₂ => buildStorageHolds c time_antichain m₂ rest

/-- One compute iteration of the hold-building loop of `acquire_read_holds`
(read_policy.rs:657-674), on an (instance, id) pair. -/
def insertComputeHold (c : Coordinator) (time_antichain : Frontier)
    (m : HoldsMap) (p : Nat × Nat) : Option HoldsMap :=
  (assocGet c.compute_collections p).map (fun read_frontier =>
    assocUpsert m (time_antichain.join read_frontier) CollectionIdBundle.empty
      (fun b => { b with compute_ids := insertSetP b.compute_ids p }))

/-- The compute hold-building loop of `acquire_read_holds`. -/
def buildComputeHolds (c : Coordinator) (time_antichain : Frontier) :
    HoldsMap → List (Nat × Nat) → Option HoldsMap
  | m, [] => some m
  | m, p :: rest =>
      match insertComputeHold c time_antichain m p with
      | none => none
      | some m₂ => buildComputeHolds c time_antichain m₂ rest

/-- The hold map built by `acquire_read_holds` before the precise check. -/
def buildReadHolds (c : Coordinator) (time : Timestamp)
    (id_bundle : CollectionIdBundle) : Option HoldsMap :=
  match buildStorageHolds c (Frontier.fromElem time) [] id_bundle.storage_ids with
  | none => none
  | some m => buildComputeHolds c (Frontier.fromElem time) m id_bundle.compute_ids

/-- The `too_late` filter of the precise check (read_policy.rs:676-692): the
entries whose frontier has an element different from the requested time
(`filter_map` keeping those where `iter().all(== time)` fails). -/
def tooLate (time : Timestamp) (m : HoldsMap) : HoldsMap :=
  m.filter (fun fb => !(fb.1.toList.all (fun t => decide (t = time))))

/-- One storage iteration of the apply phase of `acquire_read_holds`
(read_policy.rs:694-700): ensure the capability, add a +1 hold at the entry's
frontier, record the recomputed policy for the batch. -/
def applyStorageHold (c : Coordinator) (f : Frontier) (id : Nat) :
    Option (Coordinator × (Nat × PolicyVal)) :=
  match ensure_storage_capability c id none with
  | none => none
  | some c₁ =>
      match assocGet c₁.storage_read_capabilities id with
      | none => none
      | some cap =>
          let cap₂ := cap.update f 1
          some ({ c₁ with storage_read_capabilities :=
                    assocSet c₁.storage_read_capabilities id cap₂ },
                (id, cap₂.policy))

/-- The storage apply loop of `acquire_read_holds`, collecting the policy
batch pushed in one `set_read_policy` call. -/
def applyStorageHolds (c : Coordinator) :
    List (Frontier × Nat) → Option (Coordinator × List (Nat × PolicyVal))
  | [] => some (c, [])
  | (f, id) :: rest =>
      match applyStorageHold c f id with
      | none => none
      | some (c₁, pe) =>
          match applyStorageHolds c₁ rest with
          | none => none
          | some (c₂, batch) => some (c₂, pe :: batch)

/-- One compute iteration of the apply phase of `acquire_read_holds`
(read_policy.rs:702-714). -/
def applyComputeHold (c : Coordinator) (instance_id : Nat) (f : Frontier)
    (id : Nat) : Option (Coordinator × ((Nat × Nat) × PolicyVal)) :=
  match ensure_compute_capability c instance_id id none with
  | none => none
  | some c₁ =>
      match assocGet c₁.compute_read_capabilities id with
      | none => none
      | some cap =>
          let cap₂ := cap.update f 1
          some ({ c₁ with compute_read_capabilities :=
                    assocSet c₁.compute_read_capabilities id cap₂ },
                ((instance_id, id), cap₂.policy))

/-- The compute apply loop of `acquire_read_holds`; batch entries carry their
instance, matching the per-instance `set_read_policy` grouping. -/
def applyComputeHolds (c : Coordinator) :
    List (Nat × Frontier × Nat) → Option (Coordinator × List ((Nat × Nat) × PolicyVal))
  | [] => some (c, [])
  | (i, f, id) :: rest =>
      match applyComputeHold c i f id with
      | none => none
      | some (c₁, pe) =>
          match applyComputeHolds c₁ rest with
          | none => none
          | some (c₂, batch) => some (c₂, pe :: batch)

/-- `Coordinator::acquire_read_holds` (read_policy.rs:627-718).  The outer
`none` models the `expect` panics (a collection that does not exist); the
`Except.error` arm is the precise-acquisition failure, returned before any
state change (the build phase only reads controller state), so it carries the
untouched input coordinator.  The ok arm carries the returned
`ReadHoldsInner`, the updated coordinator, and the storage and compute policy
batches pushed to the controllers. -/
def acquire_read_holds (c : Coordinator) (time : Timestamp)
    (id_bundle : CollectionIdBundle) (precise : Bool) :
    Option (Coordinator ×
      Except (List (Frontier × CollectionIdBundle))
        (ReadHoldsInner × List (Nat × PolicyVal) × List ((Nat × Nat) × PolicyVal))) :=
  match buildReadHolds c time id_bundle with
  | none => none
  | some m =>
      if precise && !(tooLate time m).isEmpty then
        some (c, Except.error (tooLate time m))
      else
        match applyStorageHolds c (ReadHoldsInner.storagePairs m) with
        | none => none
        | some (c₁, sb) =>
            match applyComputeHolds c₁ (ReadHoldsInner.computePairs m) with
            | none => none
            | some (c₂, cb) => some (c₂, Except.ok (⟨m⟩, sb, cb))

end Coordinator

namespace Coordinator

/-- One storage id of a changed entry in `update_read_holds`
(read_policy.rs:772-796): look up the collection (`none` models the `expect`
panic), assert its `implied_capability` is less-equal the joined new time
(`none` models the `assert!` panic), then add a +1 hold at the new time and a
-1 hold at the old time on the capability (`none` models the `expect` panic if
it is missing) and record the recomputed policy. -/
def downgradeStorageId (c : Coordinator) (old_time new_time : Frontier)
    (id : Nat) : Option (Coordinator × (Nat × PolicyVal)) :=
  match assocGet c.storage_collections id with
  | none => none
  | some implied_capability =>
      if implied_capability.le new_time then
        match assocGet c.storage_read_capabilities id with
        | none => none
        | some cap =>
            let cap₂ := (cap.update new_time 1).update old_time (-1)
            some ({ c with storage_read_capabilities :=
                      assocSet c.storage_read_capabilities id cap₂ },
                  (id, cap₂.policy))
      else none

/-- The storage loop over one changed entry of `update_read_holds`. -/
def downgradeStorageIds (c : Coordinator) (old_time new_time : Frontier) :
    List Nat → Option (Coordinator × List (Nat × PolicyVal))
  | [] => some (c, [])
  | id :: rest =>
      match downgradeStorageId c old_time new_time id with
      | none => none
      | some (c₁, pe) =>
          match downgradeStorageIds c₁ old_time new_time rest with
          | none => none
          | some (c₂, batch) => some (c₂, pe :: batch)

/-- One compute pair of a changed entry in `update_read_holds`
(read_policy.rs:798-827), the compute twin of `downgradeStorageId`. -/
def downgradeComputeId (c : Coordinator) (old_time new_time : Frontier)
    (p : Nat × Nat) : Option (Coordinator × ((Nat × Nat) × PolicyVal)) :=
  match assocGet c.compute_collections p with
  | none => none
  | some read_capability =>
      if read_capability.le new_time then
        match assocGet c.compute_read_capabilities p.2 with
        | none => none
        | some cap =>
            let cap₂ := (cap.update new_time 1).update old_time (-1)
            some ({ c with compute_read_capabilities :=
                      assocSet c.compute_read_capabilities p.2 cap₂ },
                  (p, cap₂.policy))
      else none

/-- The compute loop over one changed entry of `update_read_holds`. -/
def downgradeComputeIds (c : Coordinator) (old_time new_time : Frontier) :
    List (Nat × Nat) → Option (Coordinator × List ((Nat × Nat) × PolicyVal))
  | [] => some (c, [])
  | p :: rest =>
      match downgradeComputeId c old_time new_time p with
      | none => none
      | some (c₁, pe) =>
          match downgradeComputeIds c₁ old_time new_time rest with
          | none => none
          | some (c₂, batch) => some (c₂, pe :: batch)

/-- One entry of the main loop of `update_read_holds` (read_policy.rs:764-835)
on the accumulated (result map, coordinator, storage batch, compute batch):
join the entry's old time with the new time; an unchanged entry is re-filed
under its old time with no capability adjustment; a changed entry is re-filed
under the joined time and every id of its bundle is downgraded. -/
def updateEntry (new_time : Frontier)
    (st : HoldsMap × Coordinator × List (Nat × PolicyVal) × List ((Nat × Nat) × PolicyVal))
    (e : Frontier × CollectionIdBundle) :
    Option (HoldsMap × Coordinator × List (Nat × PolicyVal) × List ((Nat × Nat) × PolicyVal)) :=
  let (acc, c, sb, cb) := st
  let old_time := e.1
  let nt := old_time.join new_time
  if old_time ≠ nt then
    let acc₂ := assocUpsert acc nt CollectionIdBundle.empty (fun b => b.extend e.2)
    match downgradeStorageIds c old_time nt e.2.storage_ids with
    | none => none
    | some (c₁, sb₂) =>
        match downgradeComputeIds c₁ old_time nt e.2.compute_ids with
        | none => none
        | some (c₂, cb₂) => some (acc₂, c₂, sb ++ sb₂, cb ++ cb₂)
  else
    some (assocUpsert acc old_time CollectionIdBundle.empty (fun b => b.extend e.2),
          c, sb, cb)

/-- The main loop of `update_read_holds` over the drained old entries. -/
def updateLoop (new_time : Frontier) :
    (HoldsMap × Coordinator × List (Nat × PolicyVal) × List ((Nat × Nat) × PolicyVal)) →
    HoldsMap →
    Option (HoldsMap × Coordinator × List (Nat × PolicyVal) × List ((Nat × Nat) × PolicyVal))
  | st, [] => some st
  | st, e :: rest =>
      match updateEntry new_time st e with
      | none => none
      | some st₂ => updateLoop new_time st₂ rest

/-- `Coordinator::update_read_holds` (read_policy.rs:752-851): move every
entry of `read_holds` from its old time to the join of that time with
`new_time`, adjusting hold counts for changed entries and collecting the
policy batches pushed to the controllers.  `none` models the panics
(missing collection or capability, or the domination `assert!`). -/
def update_read_holds (c : Coordinator) (read_holds : TimelineReadHolds)
    (new_time : Timestamp) :
    Option (TimelineReadHolds × Coordinator × List (Nat × PolicyVal) × List ((Nat × Nat) × PolicyVal)) :=
  (updateLoop (Frontier.fromElem new_time) ([], c, [], []) read_holds.holds).map
    (fun st => (⟨st.1⟩, st.2.1, st.2.2.1, st.2.2.2))

/-- The storage loop of `release_read_holds` (read_policy.rs:860-873) over
all (time, id) pairs of the released hold sets: a missing capability (a
collection concurrently dropped) is skipped silently; otherwise a -1 hold is
logged at the pair's frontier and the recomputed policy recorded for the
batch.  Total: release never fails. -/
def releaseStoragePairs (c : Coordinator) :
    List (Frontier × Nat) → Coordinator × List (Nat × PolicyVal)
  | [] => (c, [])
  | (f, id) :: rest =>
      match assocGet c.storage_read_capabilities id with
      | none => releaseStoragePairs c rest
      | some cap =>
          let cap₂ := cap.update f (-1)
          let c₁ := { c with storage_read_capabilities :=
                        assocSet c.storage_read_capabilities id cap₂ }
          let (c₂, batch) := releaseStoragePairs c₁ rest
          (c₂, (id, cap₂.policy) :: batch)

/-- The compute loop of `release_read_holds` (read_policy.rs:874-890), the
compute twin of `releaseStoragePairs`; batch entries carry their instance,
matching the per-instance grouping of the pushed batches. -/
def releaseComputePairs (c : Coordinator) :
    List (Nat × Frontier × Nat) → Coordinator × List ((Nat × Nat) × PolicyVal)
  | [] => (c, [])
  | (i, f, id) :: rest =>
      match assocGet c.compute_read_capabilities id with
      | none => releaseComputePairs c rest
      | some cap =>
          let cap₂ := cap.update f (-1)
          let c₁ := { c with compute_read_capabilities :=
                        assocSet c.compute_read_capabilities id cap₂ }
          let (c₂, batch) := releaseComputePairs c₁ rest
          (c₂, ((i, id), cap₂.policy) :: batch)

/-- `Coordinator::release_read_holds` (read_policy.rs:859-898): decrement the
hold count for every (time, id) pair of every released hold set, skipping ids
whose capability has already been removed, and collect the storage and
compute policy batches pushed to the controllers. -/
def release_read_holds (c : Coordinator) (read_holdses : List ReadHoldsInner) :
    Coordinator × List (Nat × PolicyVal) × List ((Nat × Nat) × PolicyVal) :=
  let spairs := read_holdses.flatMap (fun r => ReadHoldsInner.storagePairs r.holds)
  let (c₁, sb) := releaseStoragePairs c spairs
  let cpairs := read_holdses.flatMap (fun r => ReadHoldsInner.computePairs r.holds)
  let (c₂, cb) := releaseComputePairs c₁ cpairs
  (c₂, sb, cb)

end Coordinator

/-! ## Generic lemmas about the association-list embedding of maps -/

theorem assocGet_upsert {κ α : Type} [DecidableEq κ] (m : List (κ × α)) (k₀ k : κ)
    (d : α) (g : α → α) :
    assocGet (assocUpsert m k₀ d g) k =
      if k₀ = k then some (g ((assocGet m k₀).getD d)) else assocGet m k := by
  induction m with
  | nil =>
      by_cases h : k₀ = k <;> simp [assocUpsert, assocGet, h]
  | cons hd tl ih =>
      obtain ⟨k₁, v₁⟩ := hd
      by_cases h1 : k₁ = k₀
      · subst h1
        by_cases h2 : k₁ = k <;> simp [assocUpsert, assocGet, h2]
      · by_cases h2 : k₁ = k
        · subst h2
          have : ¬ k₀ = k₁ := fun h => h1 h.symm
          simp [assocUpsert, assocGet, h1, this]
        · simp [assocUpsert, assocGet, h1, h2, ih]

theorem assocGet_set {κ α : Type} [DecidableEq κ] (m : List (κ × α)) (k₀ k : κ) (v : α) :
    assocGet (assocSet m k₀ v) k = if k₀ = k then some v else assocGet m k := by
  simp [assocSet, assocGet_upsert]

theorem bundleAt_upsert (m : HoldsMap) (f₀ f : Frontier)
    (g : CollectionIdBundle → CollectionIdBundle) :
    bundleAt (assocUpsert m f₀ CollectionIdBundle.empty g) f =
      if f₀ = f then g (bundleAt m f₀) else bundleAt m f := by
  by_cases h : f₀ = f <;> simp [bundleAt, assocGet_upsert, h]

/-! ## Lemmas about `CollectionIdBundle` -/

theorem mem_extend_storage (b o : CollectionIdBundle) (x : Nat) :
    x ∈ (b.extend o).storage_ids ↔ x ∈ b.storage_ids ∨ x ∈ o.storage_ids := by
  simp only [CollectionIdBundle.extend, List.mem_append, List.mem_filter,
    decide_eq_true_eq]
  by_cases h : x ∈ b.storage_ids <;> simp [h]

theorem mem_extend_compute (b o : CollectionIdBundle) (p : Nat × Nat) :
    p ∈ (b.extend o).compute_ids ↔ p ∈ b.compute_ids ∨ p ∈ o.compute_ids := by
  simp only [CollectionIdBundle.extend, List.mem_append, List.mem_filter,
    decide_eq_true_eq]
  by_cases h : p ∈ b.compute_ids <;> simp [h]

theorem intersection_is_empty_iff (a b : CollectionIdBundle) :
    (a.intersection b).is_empty = true ↔
      (∀ x ∈ a.storage_ids, x ∉ b.storage_ids) ∧
      (∀ p ∈ a.compute_ids, p ∉ b.compute_ids) := by
  simp [CollectionIdBundle.intersection, CollectionIdBundle.is_empty,
    List.isEmpty_iff, List.filter_eq_nil_iff]

theorem empty_intersection (b : CollectionIdBundle) :
    (CollectionIdBundle.empty.intersection b).is_empty = true := by
  simp [CollectionIdBundle.intersection, CollectionIdBundle.empty,
    CollectionIdBundle.is_empty]

theorem assocGet_eq_none {κ α : Type} [DecidableEq κ] (m : List (κ × α)) (k : κ)
    (h : k ∉ m.map Prod.fst) : assocGet m k = none := by
  induction m with
  | nil => rfl
  | cons hd tl ih =>
      simp only [List.map_cons, List.mem_cons] at h
      push_neg at h
      simp only [assocGet]
      rw [if_neg (fun he => h.1 he.symm), ih h.2]

/-! ## Lemmas about `extend_with_new` -/

namespace TimelineReadHolds

theorem extendLoop_none_iff (other : HoldsMap) :
    ∀ m : HoldsMap, (other.map Prod.fst).Nodup →
      (extendLoop m other = none ↔
        ∃ fb ∈ other, ¬((bundleAt m fb.1).intersection fb.2).is_empty = true) := by
  induction other with
  | nil => intro m _; simp [extendLoop]
  | cons hd rest ih =>
      intro m hnd
      obtain ⟨f₀, ob⟩ := hd
      simp only [List.map_cons, List.nodup_cons] at hnd
      by_cases hok : ((bundleAt m f₀).intersection ob).is_empty = true
      · have hstep : extendOne m f₀ ob =
            some (assocUpsert m f₀ CollectionIdBundle.empty (fun b => b.extend ob)) := by
          simp [extendOne, hok]
        have hpres : ∀ fb ∈ rest,
            bundleAt (assocUpsert m f₀ CollectionIdBundle.empty (fun b => b.extend ob)) fb.1 =
              bundleAt m fb.1 := by
          intro fb hfb
          have hne : f₀ ≠ fb.1 := by
            intro h
            exact hnd.1 (h ▸ List.mem_map_of_mem Prod.fst hfb)
          simp [bundleAt_upsert, hne]
        rw [show extendLoop m ((f₀, ob) :: rest) =
              extendLoop (assocUpsert m f₀ CollectionIdBundle.empty (fun b => b.extend ob)) rest by
            simp [extendLoop, hstep]]
        rw [ih _ hnd.2]
        constructor
        · rintro ⟨fb, hfb, hbad⟩
          refine ⟨fb, List.mem_cons_of_mem _ hfb, ?_⟩
          rwa [hpres fb hfb] at hbad
        · rintro ⟨fb, hfb, hbad⟩
          rcases List.mem_cons.mp hfb with h | h
          · exact absurd hok (by rw [h] at hbad; exact hbad)
          · exact ⟨fb, h, by rwa [hpres fb h]⟩
      · have hstep : extendOne m f₀ ob = none := by simp [extendOne, hok]
        constructor
        · intro _
          exact ⟨(f₀, ob), List.mem_cons_self _ _, hok⟩
        · intro _
          simp [extendLoop, hstep]

theorem extendLoop_some_mem (other : HoldsMap) :
    ∀ m m₂ : HoldsMap, (other.map Prod.fst).Nodup →
      extendLoop m other = some m₂ →
      ∀ f : Frontier,
        (∀ x, x ∈ (bundleAt m₂ f).storage_ids ↔
          x ∈ (bundleAt m f).storage_ids ∨ x ∈ (bundleAt other f).storage_ids) ∧
        (∀ p, p ∈ (bundleAt m₂ f).compute_ids ↔
          p ∈ (bundleAt m f).compute_ids ∨ p ∈ (bundleAt other f).compute_ids) := by
  induction other with
  | nil =>
      intro m m₂ _ h f
      simp only [extendLoop, Option.some.injEq] at h
      subst h
      simp [bundleAt, assocGet, CollectionIdBundle.empty]
  | cons hd rest ih =>
      intro m m₂ hnd h f
      obtain ⟨f₀, ob⟩ := hd
      simp only [List.map_cons, List.nodup_cons] at hnd
      match hstep : extendOne m f₀ ob with
      | none => rw [extendLoop, hstep] at h; exact absurd h (by simp)
      | some m₁ =>
          rw [extendLoop, hstep] at h
          have hm₁ : m₁ = assocUpsert m f₀ CollectionIdBundle.empty (fun b => b.extend ob) := by
            by_cases hok : ((bundleAt m f₀).intersection ob).is_empty = true
            · simpa [extendOne, hok] using hstep.symm
            · simp [extendOne, hok] at hstep
          subst hm₁
          have hrest : bundleAt rest f₀ = CollectionIdBundle.empty := by
            simp [bundleAt, assocGet_eq_none rest f₀ hnd.1]
          have hmain := ih _ m₂ hnd.2 h f
          have hhd : bundleAt ((f₀, ob) :: rest) f₀ = ob := by
            simp [bundleAt, assocGet]
          by_cases hf : f₀ = f
          · subst hf
            constructor
            · intro x
              rw [(hmain).1 x, bundleAt_upsert, if_pos rfl, hrest, hhd,
                mem_extend_storage]
              simp [CollectionIdBundle.empty]
            · intro p
              rw [(hmain).2 p, bundleAt_upsert, if_pos rfl, hrest, hhd,
                mem_extend_compute]
              simp [CollectionIdBundle.empty]
          · have htl : bundleAt ((f₀, ob) :: rest) f = bundleAt rest f := by
              simp [bundleAt, assocGet, hf]
            constructor
            · intro x
              rw [(hmain).1 x, bundleAt_upsert, if_neg hf, htl]
            · intro p
              rw [(hmain).2 p, bundleAt_upsert, if_neg hf, htl]

end TimelineReadHolds

theorem assocGet_mem {κ α : Type} [DecidableEq κ] (m : List (κ × α)) (k : κ) (v : α)
    (h : assocGet m k = some v) : (k, v) ∈ m := by
  induction m with
  | nil => simp [assocGet] at h
  | cons hd tl ih =>
      simp only [assocGet] at h
      by_cases he : hd.1 = k
      · rw [if_pos he] at h
        obtain rfl : hd.2 = v := by injection h
        subst he
        exact List.mem_cons_self _ _
      · rw [if_neg he] at h
        exact List.mem_cons_of_mem _ (ih h)

/-- C2, counterexample to the claim as stated: id 0 is held in `self` at time
{1}, and `other` inserts it at the different time {2}.  The claim requires
`extend_with_new` to fail fatally, but it succeeds: the source assertion
(read_policy.rs:139-142) only intersects the two bundles stored at an equal
time, so a duplicate id at distinct times is merged silently. -/
theorem claim_C2_counterexample :
    (TimelineReadHolds.extend_with_new ⟨[(some 1, ⟨[0], []⟩)]⟩
        ⟨[(some 2, ⟨[0], []⟩)]⟩).isSome = true := by
  rfl

/-- C2 (amended): for `other` with distinct entry times (a `HashMap` drain),
`extend_with_new self other` fails fatally if and only if some entry
`(t, b)` of `other` carries an id already present in `self`'s entry at the
same time `t`; and when no id of `other` occurs anywhere in `self`, the call
succeeds and the result maps every time to the union of `self`'s and
`other`'s bundles at that time. -/
theorem claim_C2_extend_with_new (self other : TimelineReadHolds)
    (hnd : (other.holds.map Prod.fst).Nodup) :
    (self.extend_with_new other = none ↔
      ∃ fb ∈ other.holds,
        ¬((bundleAt self.holds fb.1).intersection fb.2).is_empty = true) ∧
    ((∀ fb ∈ other.holds, ∀ gb ∈ self.holds,
        (gb.2.intersection fb.2).is_empty = true) →
      ∃ res : TimelineReadHolds, self.extend_with_new other = some res ∧
        ∀ f : Frontier,
          (∀ x, x ∈ (bundleAt res.holds f).storage_ids ↔
            x ∈ (bundleAt self.holds f).storage_ids ∨
            x ∈ (bundleAt other.holds f).storage_ids) ∧
          (∀ p, p ∈ (bundleAt res.holds f).compute_ids ↔
            p ∈ (bundleAt self.holds f).compute_ids ∨
            p ∈ (bundleAt other.holds f).compute_ids)) := by
  constructor
  · rw [show (self.extend_with_new other = none) ↔
        (TimelineReadHolds.extendLoop self.holds other.holds = none) by
      simp [TimelineReadHolds.extend_with_new]]
    exact TimelineReadHolds.extendLoop_none_iff other.holds self.holds hnd
  · intro hdisj
    have hnone : ¬ TimelineReadHolds.extendLoop self.holds other.holds = none := by
      rw [TimelineReadHolds.extendLoop_none_iff other.holds self.holds hnd]
      rintro ⟨fb, hfb, hbad⟩
      apply hbad
      rcases hget : assocGet self.holds fb.1 with _ | b
      · simpa [bundleAt, hget] using empty_intersection fb.2
      · have := hdisj fb hfb (fb.1, b) (assocGet_mem _ _ _ hget)
        simpa [bundleAt, hget] using this
    rcases hres : TimelineReadHolds.extendLoop self.holds other.holds with _ | m₂
    · exact absurd hres hnone
    · refine ⟨⟨m₂⟩, by simp [TimelineReadHolds.extend_with_new, hres], ?_⟩
      exact TimelineReadHolds.extendLoop_some_mem other.holds self.holds m₂ hnd hres

/-- C2, witness: the amended theorem applied at `self` holding id 0 at time
{1} and `other` bringing id 1 at time {2}. -/
theorem claim_C2_witness :
    ((([(some 2, ⟨[1], []⟩)] : HoldsMap)).map Prod.fst).Nodup ∧
    (((⟨[(some 1, ⟨[0], []⟩)]⟩ : TimelineReadHolds).extend_with_new
          ⟨[(some 2, ⟨[1], []⟩)]⟩ = none ↔
      ∃ fb ∈ ([(some 2, ⟨[1], []⟩)] : HoldsMap),
        ¬((bundleAt [(some 1, ⟨[0], []⟩)] fb.1).intersection fb.2).is_empty = true) ∧
    ((∀ fb ∈ ([(some 2, ⟨[1], []⟩)] : HoldsMap),
        ∀ gb ∈ ([(some 1, ⟨[0], []⟩)] : HoldsMap),
        (gb.2.intersection fb.2).is_empty = true) →
      ∃ res : TimelineReadHolds,
        (⟨[(some 1, ⟨[0], []⟩)]⟩ : TimelineReadHolds).extend_with_new
          ⟨[(some 2, ⟨[1], []⟩)]⟩ = some res ∧
        ∀ f : Frontier,
          (∀ x, x ∈ (bundleAt res.holds f).storage_ids ↔
            x ∈ (bundleAt [(some 1, ⟨[0], []⟩)] f).storage_ids ∨
            x ∈ (bundleAt [(some 2, ⟨[1], []⟩)] f).storage_ids) ∧
          (∀ p, p ∈ (bundleAt res.holds f).compute_ids ↔
            p ∈ (bundleAt [(some 1, ⟨[0], []⟩)] f).compute_ids ∨
            p ∈ (bundleAt [(some 2, ⟨[1], []⟩)] f).compute_ids))) :=
  ⟨by decide, claim_C2_extend_with_new ⟨[(some 1, ⟨[0], []⟩)]⟩ ⟨[(some 2, ⟨[1], []⟩)]⟩
    (by decide)⟩

theorem map_filter_eq_self {α : Type} (l : List α) (f : α → α) (p : α → Bool)
    (h : ∀ a ∈ l, f a = a ∧ p (f a) = true) : (l.map f).filter p = l := by
  induction l with
  | nil => rfl
  | cons hd tl ih =>
      have hfx : f hd = hd := (h hd (List.mem_cons_self _ _)).1
      have hpx : p hd = true := by
        rw [← hfx]; exact (h hd (List.mem_cons_self _ _)).2
      simp [List.map_cons, List.filter_cons, hfx, hpx,
        ih (fun a ha => h a (List.mem_cons_of_mem _ ha))]

/-- C9, counterexample to the claim as stated: a `TimelineReadHolds` holding
one entry with an empty bundle.  Id 0 is absent from every entry, yet
`remove_storage_id` does not leave the structure unchanged: the `retain` pass
(read_policy.rs:153) prunes the already-empty entry. -/
theorem claim_C9_counterexample :
    (0 ∉ CollectionIdBundle.empty.storage_ids) ∧
    (⟨[(some 1, CollectionIdBundle.empty)]⟩ : TimelineReadHolds).remove_storage_id 0 ≠
      ⟨[(some 1, CollectionIdBundle.empty)]⟩ := by
  decide

/-- C9 (amended): `remove_storage_id` (and `remove_compute_id`, per instance)
removes the id from every entry's bundle, removes every entry whose bundle is
empty after the removal (including entries that were already empty), keeps
every other entry with the id scrubbed, and leaves the structure entirely
unchanged when the id is absent from every entry and no entry's bundle is
empty — as is the case for every reachable `TimelineReadHolds`. -/
theorem claim_C9_remove_ids (r : TimelineReadHolds) (id inst cid : Nat) :
    (∀ fb ∈ (r.remove_storage_id id).holds, id ∉ fb.2.storage_ids) ∧
    (∀ fb ∈ (r.remove_storage_id id).holds, fb.2.is_empty = false) ∧
    (∀ fb ∈ r.holds,
        ((∃ x ∈ fb.2.storage_ids, x ≠ id) ∨ fb.2.compute_ids ≠ []) →
        ∃ b₂, (fb.1, b₂) ∈ (r.remove_storage_id id).holds ∧
          (∀ x, x ∈ b₂.storage_ids ↔ x ∈ fb.2.storage_ids ∧ x ≠ id) ∧
          b₂.compute_ids = fb.2.compute_ids) ∧
    ((∀ fb ∈ r.holds, id ∉ fb.2.storage_ids ∧ fb.2.is_empty = false) →
        r.remove_storage_id id = r) ∧
    (∀ fb ∈ (r.remove_compute_id inst cid).holds, (inst, cid) ∉ fb.2.compute_ids) ∧
    (∀ fb ∈ (r.remove_compute_id inst cid).holds, fb.2.is_empty = false) ∧
    (∀ fb ∈ r.holds,
        ((∃ p ∈ fb.2.compute_ids, p ≠ (inst, cid)) ∨ fb.2.storage_ids ≠ []) →
        ∃ b₂, (fb.1, b₂) ∈ (r.remove_compute_id inst cid).holds ∧
          (∀ p, p ∈ b₂.compute_ids ↔ p ∈ fb.2.compute_ids ∧ p ≠ (inst, cid)) ∧
          b₂.storage_ids = fb.2.storage_ids) ∧
    ((∀ fb ∈ r.holds, (inst, cid) ∉ fb.2.compute_ids ∧ fb.2.is_empty = false) →
        r.remove_compute_id inst cid = r) := by
  refine ⟨?_, ?_, ?_, ?_, ?_, ?_, ?_, ?_⟩
  · intro fb hfb
    simp only [TimelineReadHolds.remove_storage_id, List.mem_filter,
      List.mem_map] at hfb
    obtain ⟨⟨fb₀, _, rfl⟩, _⟩ := hfb
    simp [List.mem_filter]
  · intro fb hfb
    simp only [TimelineReadHolds.remove_storage_id, List.mem_filter] at hfb
    simpa using hfb.2
  · intro fb hfb hne
    have hemp : ({ fb.2 with
        storage_ids := fb.2.storage_ids.filter (fun y => decide (y ≠ id)) } :
          CollectionIdBundle).is_empty = false := by
      rcases hne with ⟨x, hx, hxne⟩ | hc
      · have hxm : x ∈ fb.2.storage_ids.filter (fun y => decide (y ≠ id)) :=
          List.mem_filter.mpr ⟨hx, by simpa using hxne⟩
        cases hl : fb.2.storage_ids.filter (fun y => decide (y ≠ id)) with
        | nil => rw [hl] at hxm; cases hxm
        | cons a as => simp [CollectionIdBundle.is_empty, hl]
      · cases hl : fb.2.compute_ids with
        | nil => exact absurd hl hc
        | cons a as => simp [CollectionIdBundle.is_empty, hl]
    refine ⟨{ fb.2 with storage_ids := fb.2.storage_ids.filter (fun y => decide (y ≠ id)) },
      ?_, ?_, rfl⟩
    · simp only [TimelineReadHolds.remove_storage_id, List.mem_filter, List.mem_map]
      exact ⟨⟨fb, hfb, rfl⟩, by simpa using hemp⟩
    · intro x
      simp [List.mem_filter]
  · intro hno
    show TimelineReadHolds.mk _ = r
    have hself : ((r.holds.map (fun fb =>
        (fb.1, { fb.2 with
          storage_ids := fb.2.storage_ids.filter (fun x => decide (x ≠ id)) }))).filter
          (fun fb => !fb.2.is_empty)) = r.holds := by
      apply map_filter_eq_self
      intro fb hfb
      have hfix : fb.2.storage_ids.filter (fun x => decide (x ≠ id)) = fb.2.storage_ids := by
        apply List.filter_eq_self.mpr
        intro x hx
        simp only [decide_eq_true_eq]
        intro hxe
        exact (hno fb hfb).1 (hxe ▸ hx)
      constructor
      · rw [hfix]
      · rw [hfix]
        simp [(hno fb hfb).2]
    rw [hself]
  · intro fb hfb
    simp only [TimelineReadHolds.remove_compute_id, List.mem_filter,
      List.mem_map] at hfb
    obtain ⟨⟨fb₀, _, rfl⟩, _⟩ := hfb
    simp [List.mem_filter]
  · intro fb hfb
    simp only [TimelineReadHolds.remove_compute_id, List.mem_filter] at hfb
    simpa using hfb.2
  · intro fb hfb hne
    have hemp : ({ fb.2 with
        compute_ids := fb.2.compute_ids.filter (fun q => decide (q ≠ (inst, cid))) } :
          CollectionIdBundle).is_empty = false := by
      rcases hne with ⟨p, hp, hpne⟩ | hs
      · have hpm : p ∈ fb.2.compute_ids.filter (fun q => decide (q ≠ (inst, cid))) :=
          List.mem_filter.mpr ⟨hp, by simpa using hpne⟩
        cases hl : fb.2.compute_ids.filter (fun q => decide (q ≠ (inst, cid))) with
        | nil => rw [hl] at hpm; cases hpm
        | cons a as => simp [CollectionIdBundle.is_empty, hl]
      · cases hl : fb.2.storage_ids with
        | nil => exact absurd hl hs
        | cons a as => simp [CollectionIdBundle.is_empty, hl]
    refine ⟨{ fb.2 with
        compute_ids := fb.2.compute_ids.filter (fun q => decide (q ≠ (inst, cid))) },
      ?_, ?_, rfl⟩
    · simp only [TimelineReadHolds.remove_compute_id, List.mem_filter, List.mem_map]
      exact ⟨⟨fb, hfb, rfl⟩, by simpa using hemp⟩
    · intro p
      simp [List.mem_filter]
  · intro hno
    show TimelineReadHolds.mk _ = r
    have hself : ((r.holds.map (fun fb =>
        (fb.1, { fb.2 with
          compute_ids := fb.2.compute_ids.filter (fun p => decide (p ≠ (inst, cid))) }))).filter
          (fun fb => !fb.2.is_empty)) = r.holds := by
      apply map_filter_eq_self
      intro fb hfb
      have hfix : fb.2.compute_ids.filter (fun p => decide (p ≠ (inst, cid))) =
          fb.2.compute_ids := by
        apply List.filter_eq_self.mpr
        intro p hp
        simp only [decide_eq_true_eq]
        intro hpe
        exact (hno fb hfb).1 (hpe ▸ hp)
      constructor
      · rw [hfix]
      · rw [hfix]
        simp [(hno fb hfb).2]
    rw [hself]

/-- C6: for an id with an existing `ReadCapability`, `ensure` with an
explicit compaction window overwrites only `base_policy`, leaving the hold
counts (and every other id, and the rest of the state) untouched; for an id
with no capability and no explicit window, a new capability is created whose
base policy is the static `ValidFrom` frontier equal to the collection's
current lower frontier.  Both the storage and the compute variant. -/
theorem claim_C6_ensure (c : Coordinator) (id iid : Nat) (w : CompactionWindow) :
    (∀ cap, assocGet c.storage_read_capabilities id = some cap →
      ∃ c₂, c.ensure_storage_capability id (some w) = some c₂ ∧
        assocGet c₂.storage_read_capabilities id =
          some { holds := cap.holds, base_policy := w.intoPolicy } ∧
        (∀ id₂, id₂ ≠ id → assocGet c₂.storage_read_capabilities id₂ =
          assocGet c.storage_read_capabilities id₂) ∧
        c₂.storage_collections = c.storage_collections ∧
        c₂.compute_collections = c.compute_collections ∧
        c₂.compute_read_capabilities = c.compute_read_capabilities) ∧
    (∀ lower, assocGet c.storage_read_capabilities id = none →
      assocGet c.storage_collections id = some lower →
      ∃ c₂, c.ensure_storage_capability id none = some c₂ ∧
        assocGet c₂.storage_read_capabilities id =
          some { holds := [], base_policy := ReadPolicy.validFrom lower }) ∧
    (∀ cap, assocGet c.compute_read_capabilities id = some cap →
      ∃ c₂, c.ensure_compute_capability iid id (some w) = some c₂ ∧
        assocGet c₂.compute_read_capabilities id =
          some { holds := cap.holds, base_policy := w.intoPolicy } ∧
        (∀ id₂, id₂ ≠ id → assocGet c₂.compute_read_capabilities id₂ =
          assocGet c.compute_read_capabilities id₂) ∧
        c₂.storage_collections = c.storage_collections ∧
        c₂.compute_collections = c.compute_collections ∧
        c₂.storage_read_capabilities = c.storage_read_capabilities) ∧
    (∀ lower, assocGet c.compute_read_capabilities id = none →
      assocGet c.compute_collections (iid, id) = some lower →
      ∃ c₂, c.ensure_compute_capability iid id none = some c₂ ∧
        assocGet c₂.compute_read_capabilities id =
          some { holds := [], base_policy := ReadPolicy.validFrom lower }) := by
  refine ⟨?_, ?_, ?_, ?_⟩
  · intro cap hcap
    refine ⟨⟨c.storage_collections, c.compute_collections,
             assocSet c.storage_read_capabilities id ⟨cap.holds, w.intoPolicy⟩,
             c.compute_read_capabilities⟩, ?_, ?_, ?_, rfl, rfl, rfl⟩
    · simp [Coordinator.ensure_storage_capability, hcap]
    · simp [assocGet_set]
    · intro id₂ hne
      simp only [assocGet_set]
      rw [if_neg (fun h : id = id₂ => hne h.symm)]
  · intro lower hnone hcol
    refine ⟨⟨c.storage_collections, c.compute_collections,
             assocSet c.storage_read_capabilities id ⟨[], ReadPolicy.validFrom lower⟩,
             c.compute_read_capabilities⟩, ?_, ?_⟩
    · simp [Coordinator.ensure_storage_capability, hnone, hcol, ReadCapability.ofPolicy]
    · simp [assocGet_set]
  · intro cap hcap
    refine ⟨⟨c.storage_collections, c.compute_collections,
             c.storage_read_capabilities,
             assocSet c.compute_read_capabilities id ⟨cap.holds, w.intoPolicy⟩⟩,
            ?_, ?_, ?_, rfl, rfl, rfl⟩
    · simp [Coordinator.ensure_compute_capability, hcap]
    · simp [assocGet_set]
    · intro id₂ hne
      simp only [assocGet_set]
      rw [if_neg (fun h : id = id₂ => hne h.symm)]
  · intro lower hnone hcol
    refine ⟨⟨c.storage_collections, c.compute_collections,
             c.storage_read_capabilities,
             assocSet c.compute_read_capabilities id ⟨[], ReadPolicy.validFrom lower⟩⟩,
            ?_, ?_⟩
    · simp [Coordinator.ensure_compute_capability, hnone, hcol, ReadCapability.ofPolicy]
    · simp [assocGet_set]

theorem assocUpsert_keys {κ α : Type} [DecidableEq κ] (m : List (κ × α)) (k₀ : κ)
    (d : α) (g : α → α) (k : κ) :
    k ∈ (assocUpsert m k₀ d g).map Prod.fst ↔ k ∈ m.map Prod.fst ∨ k = k₀ := by
  induction m with
  | nil => simp [assocUpsert]
  | cons hd tl ih =>
      obtain ⟨k₁, v₁⟩ := hd
      by_cases h : k₁ = k₀
      · subst h
        simp only [assocUpsert, eq_self_iff_true, if_true, List.map_cons, List.mem_cons]
        tauto
      · simp only [assocUpsert, if_neg h, List.map_cons, List.mem_cons, ih]
        tauto

theorem assocUpsert_keys_nodup {κ α : Type} [DecidableEq κ] (m : List (κ × α)) (k₀ : κ)
    (d : α) (g : α → α) (h : (m.map Prod.fst).Nodup) :
    ((assocUpsert m k₀ d g).map Prod.fst).Nodup := by
  induction m with
  | nil => simp [assocUpsert]
  | cons hd tl ih =>
      obtain ⟨k₁, v₁⟩ := hd
      simp only [List.map_cons, List.nodup_cons] at h
      by_cases hk : k₁ = k₀
      · subst hk
        simp only [assocUpsert, eq_self_iff_true, if_true, List.map_cons, List.nodup_cons]
        exact h
      · simp only [assocUpsert, if_neg hk, List.map_cons, List.nodup_cons]
        refine ⟨?_, ih h.2⟩
        rw [assocUpsert_keys]
        rintro (hmem | heq)
        · exact h.1 hmem
        · exact hk heq

theorem insertSet_mem (l : List Nat) (y x : Nat) :
    x ∈ insertSet l y ↔ x ∈ l ∨ x = y := by
  by_cases h : y ∈ l
  · simp only [insertSet, if_pos h]
    constructor
    · exact Or.inl
    · rintro (hx | rfl)
      · exact hx
      · exact h
  · simp [insertSet, if_neg h]

theorem insertSetP_mem (l : List (Nat × Nat)) (y x : Nat × Nat) :
    x ∈ insertSetP l y ↔ x ∈ l ∨ x = y := by
  by_cases h : y ∈ l
  · simp only [insertSetP, if_pos h]
    constructor
    · exact Or.inl
    · rintro (hx | rfl)
      · exact hx
      · exact h
  · simp [insertSetP, if_neg h]

namespace Coordinator

theorem buildStorageHolds_some (c : Coordinator) (ta : Frontier) :
    ∀ (ids : List Nat) (m : HoldsMap),
      (∀ id ∈ ids, (assocGet c.storage_collections id).isSome = true) →
      ∃ m₂, buildStorageHolds c ta m ids = some m₂ := by
  intro ids
  induction ids with
  | nil => intro m _; exact ⟨m, rfl⟩
  | cons id rest ih =>
      intro m hall
      rcases hlow : assocGet c.storage_collections id with _ | lower
      · have := hall id (List.mem_cons_self _ _)
        rw [hlow] at this
        cases this
      · obtain ⟨m₂, hm₂⟩ :=
          ih (assocUpsert m (ta.join lower) CollectionIdBundle.empty
              (fun b => { b with storage_ids := insertSet b.storage_ids id }))
            (fun i hi => hall i (List.mem_cons_of_mem _ hi))
        exact ⟨m₂, by simp [buildStorageHolds, insertStorageHold, hlow, hm₂]⟩

theorem buildComputeHolds_some (c : Coordinator) (ta : Frontier) :
    ∀ (ps : List (Nat × Nat)) (m : HoldsMap),
      (∀ p ∈ ps, (assocGet c.compute_collections p).isSome = true) →
      ∃ m₂, buildComputeHolds c ta m ps = some m₂ := by
  intro ps
  induction ps with
  | nil => intro m _; exact ⟨m, rfl⟩
  | cons p rest ih =>
      intro m hall
      rcases hlow : assocGet c.compute_collections p with _ | lower
      · have := hall p (List.mem_cons_self _ _)
        rw [hlow] at this
        cases this
      · obtain ⟨m₂, hm₂⟩ :=
          ih (assocUpsert m (ta.join lower) CollectionIdBundle.empty
              (fun b => { b with compute_ids := insertSetP b.compute_ids p }))
            (fun q hq => hall q (List.mem_cons_of_mem _ hq))
        exact ⟨m₂, by simp [buildComputeHolds, insertComputeHold, hlow, hm₂]⟩

theorem buildStorageHolds_spec (c : Coordinator) (ta : Frontier) :
    ∀ (ids : List Nat) (m m₂ : HoldsMap),
      buildStorageHolds c ta m ids = some m₂ →
      (∀ f x, x ∈ (bundleAt m₂ f).storage_ids ↔
          (x ∈ (bundleAt m f).storage_ids ∨
           (x ∈ ids ∧ ∃ lower, assocGet c.storage_collections x = some lower ∧
              ta.join lower = f))) ∧
      (∀ f p, p ∈ (bundleAt m₂ f).compute_ids ↔ p ∈ (bundleAt m f).compute_ids) ∧
      (∀ f, f ∈ m₂.map Prod.fst ↔ (f ∈ m.map Prod.fst ∨
          ∃ id, id ∈ ids ∧ ∃ lower, assocGet c.storage_collections id = some lower ∧
            ta.join lower = f)) ∧
      ((m.map Prod.fst).Nodup → (m₂.map Prod.fst).Nodup) := by
  intro ids
  induction ids with
  | nil =>
      intro m m₂ h
      obtain rfl : m = m₂ := by simpa [buildStorageHolds] using h
      simp
  | cons id rest ih =>
      intro m m₂ h
      rcases hlow : assocGet c.storage_collections id with _ | lower
      · rw [buildStorageHolds, show insertStorageHold c ta m id = none by
          simp [insertStorageHold, hlow]] at h
        exact absurd h (by simp)
      · set m₁ := assocUpsert m (ta.join lower) CollectionIdBundle.empty
          (fun b => { b with storage_ids := insertSet b.storage_ids id }) with hm₁
        rw [buildStorageHolds, show insertStorageHold c ta m id = some m₁ by
          simp [insertStorageHold, hlow, hm₁]] at h
        obtain ⟨ih1, ih2, ih3, ih4⟩ := ih m₁ m₂ h
        have hx : ∀ f x, x ∈ (bundleAt m₁ f).storage_ids ↔
            (x ∈ (bundleAt m f).storage_ids ∨ (x = id ∧ ta.join lower = f)) := by
          intro f x
          rw [hm₁, bundleAt_upsert]
          by_cases hf : ta.join lower = f
          · rw [if_pos hf, ← hf]
            simp only [insertSet_mem]
            constructor
            · rintro (hm | rfl)
              · exact Or.inl hm
              · exact Or.inr ⟨rfl, by trivial⟩
            · rintro (hm | ⟨rfl, _⟩)
              · exact Or.inl hm
              · exact Or.inr rfl
          · rw [if_neg hf]
            constructor
            · exact Or.inl
            · rintro (hm | ⟨_, hbad⟩)
              · exact hm
              · exact absurd hbad hf
        have hcx : ∀ f p, p ∈ (bundleAt m₁ f).compute_ids ↔ p ∈ (bundleAt m f).compute_ids := by
          intro f p
          rw [hm₁, bundleAt_upsert]
          by_cases hf : ta.join lower = f
          · rw [if_pos hf, ← hf]
          · rw [if_neg hf]
        refine ⟨?_, ?_, ?_, ?_⟩
        · intro f x
          rw [ih1 f x, hx f x]
          constructor
          · rintro ((hm | ⟨rfl, hf⟩) | ⟨hr, hE⟩)
            · exact Or.inl hm
            · exact Or.inr ⟨List.mem_cons_self _ _, lower, hlow, hf⟩
            · exact Or.inr ⟨List.mem_cons_of_mem _ hr, hE⟩
          · rintro (hm | ⟨hmem, l₂, hl₂, hf⟩)
            · exact Or.inl (Or.inl hm)
            · rcases List.mem_cons.mp hmem with rfl | hr
              · rw [hlow] at hl₂
                obtain rfl : lower = l₂ := by injection hl₂
                exact Or.inl (Or.inr ⟨rfl, hf⟩)
              · exact Or.inr ⟨hr, l₂, hl₂, hf⟩
        · intro f p
          rw [ih2 f p, hcx f p]
        · intro f
          rw [ih3 f, hm₁, assocUpsert_keys]
          constructor
          · rintro ((hm | rfl) | ⟨i, hi, hE⟩)
            · exact Or.inl hm
            · exact Or.inr ⟨id, List.mem_cons_self _ _, lower, hlow, rfl⟩
            · exact Or.inr ⟨i, List.mem_cons_of_mem _ hi, hE⟩
          · rintro (hm | ⟨i, hi, l₂, hl₂, hf⟩)
            · exact Or.inl (Or.inl hm)
            · rcases List.mem_cons.mp hi with rfl | hr
              · rw [hlow] at hl₂
                obtain rfl : lower = l₂ := by injection hl₂
                exact Or.inl (Or.inr hf.symm)
              · exact Or.inr ⟨i, hr, l₂, hl₂, hf⟩
        · intro hnd
          exact ih4 (hm₁ ▸ assocUpsert_keys_nodup m _ _ _ hnd)

end Coordinator

namespace Coordinator

theorem buildComputeHolds_spec (c : Coordinator) (ta : Frontier) :
    ∀ (ps : List (Nat × Nat)) (m m₂ : HoldsMap),
      buildComputeHolds c ta m ps = some m₂ →
      (∀ f p, p ∈ (bundleAt m₂ f).compute_ids ↔
          (p ∈ (bundleAt m f).compute_ids ∨
           (p ∈ ps ∧ ∃ lower, assocGet c.compute_collections p = some lower ∧
              ta.join lower = f))) ∧
      (∀ f x, x ∈ (bundleAt m₂ f).storage_ids ↔ x ∈ (bundleAt m f).storage_ids) ∧
      (∀ f, f ∈ m₂.map Prod.fst ↔ (f ∈ m.map Prod.fst ∨
          ∃ p, p ∈ ps ∧ ∃ lower, assocGet c.compute_collections p = some lower ∧
            ta.join lower = f)) ∧
      ((m.map Prod.fst).Nodup → (m₂.map Prod.fst).Nodup) := by
  intro ps
  induction ps with
  | nil =>
      intro m m₂ h
      obtain rfl : m = m₂ := by simpa [buildComputeHolds] using h
      simp
  | cons p rest ih =>
      intro m m₂ h
      rcases hlow : assocGet c.compute_collections p with _ | lower
      · rw [buildComputeHolds, show insertComputeHold c ta m p = none by
          simp [insertComputeHold, hlow]] at h
        exact absurd h (by simp)
      · set m₁ := assocUpsert m (ta.join lower) CollectionIdBundle.empty
          (fun b => { b with compute_ids := insertSetP b.compute_ids p }) with hm₁
        rw [buildComputeHolds, show insertComputeHold c ta m p = some m₁ by
          simp [insertComputeHold, hlow, hm₁]] at h
        obtain ⟨ih1, ih2, ih3, ih4⟩ := ih m₁ m₂ h
        have hx : ∀ f q, q ∈ (bundleAt m₁ f).compute_ids ↔
            (q ∈ (bundleAt m f).compute_ids ∨ (q = p ∧ ta.join lower = f)) := by
          intro f q
          rw [hm₁, bundleAt_upsert]
          by_cases hf : ta.join lower = f
          · rw [if_pos hf, ← hf]
            simp only [insertSetP_mem]
            constructor
            · rintro (hm | rfl)
              · exact Or.inl hm
              · exact Or.inr ⟨rfl, by trivial⟩
            · rintro (hm | ⟨rfl, _⟩)
              · exact Or.inl hm
              · exact Or.inr rfl
          · rw [if_neg hf]
            constructor
            · exact Or.inl
            · rintro (hm | ⟨_, hbad⟩)
              · exact hm
              · exact absurd hbad hf
        have hsx : ∀ f x, x ∈ (bundleAt m₁ f).storage_ids ↔ x ∈ (bundleAt m f).storage_ids := by
          intro f x
          rw [hm₁, bundleAt_upsert]
          by_cases hf : ta.join lower = f
          · rw [if_pos hf, ← hf]
          · rw [if_neg hf]
        refine ⟨?_, ?_, ?_, ?_⟩
        · intro f q
          rw [ih1 f q, hx f q]
          constructor
          · rintro ((hm | ⟨rfl, hf⟩) | ⟨hr, hE⟩)
            · exact Or.inl hm
            · exact Or.inr ⟨List.mem_cons_self _ _, lower, hlow, hf⟩
            · exact Or.inr ⟨List.mem_cons_of_mem _ hr, hE⟩
          · rintro (hm | ⟨hmem, l₂, hl₂, hf⟩)
            · exact Or.inl (Or.inl hm)
            · rcases List.mem_cons.mp hmem with rfl | hr
              · rw [hlow] at hl₂
                obtain rfl : lower = l₂ := by injection hl₂
                exact Or.inl (Or.inr ⟨rfl, hf⟩)
              · exact Or.inr ⟨hr, l₂, hl₂, hf⟩
        · intro f x
          rw [ih2 f x, hsx f x]
        · intro f
          rw [ih3 f, hm₁, assocUpsert_keys]
          constructor
          · rintro ((hm | rfl) | ⟨q, hq, hE⟩)
            · exact Or.inl hm
            · exact Or.inr ⟨p, List.mem_cons_self _ _, lower, hlow, rfl⟩
            · exact Or.inr ⟨q, List.mem_cons_of_mem _ hq, hE⟩
          · rintro (hm | ⟨q, hq, l₂, hl₂, hf⟩)
            · exact Or.inl (Or.inl hm)
            · rcases List.mem_cons.mp hq with rfl | hr
              · rw [hlow] at hl₂
                obtain rfl : lower = l₂ := by injection hl₂
                exact Or.inl (Or.inr hf.symm)
              · exact Or.inr ⟨q, hr, l₂, hl₂, hf⟩
        · intro hnd
          exact ih4 (hm₁ ▸ assocUpsert_keys_nodup m _ _ _ hnd)

/-- Full characterization of the hold map built by `acquire_read_holds`:
every id lands in the entry keyed by the join of the requested time with its
current lower frontier, entries contain exactly those ids, keys are the
effective frontiers, and keys are distinct (one entry per frontier). -/
theorem buildReadHolds_spec (c : Coordinator) (time : Timestamp)
    (bundle : CollectionIdBundle) (m : HoldsMap)
    (h : buildReadHolds c time bundle = some m) :
    (∀ f x, x ∈ (bundleAt m f).storage_ids ↔
        (x ∈ bundle.storage_ids ∧ ∃ lower,
          assocGet c.storage_collections x = some lower ∧
          (Frontier.fromElem time).join lower = f)) ∧
    (∀ f p, p ∈ (bundleAt m f).compute_ids ↔
        (p ∈ bundle.compute_ids ∧ ∃ lower,
          assocGet c.compute_collections p = some lower ∧
          (Frontier.fromElem time).join lower = f)) ∧
    (∀ f, f ∈ m.map Prod.fst ↔
        ((∃ id, id ∈ bundle.storage_ids ∧ ∃ lower,
            assocGet c.storage_collections id = some lower ∧
            (Frontier.fromElem time).join lower = f) ∨
         (∃ p, p ∈ bundle.compute_ids ∧ ∃ lower,
            assocGet c.compute_collections p = some lower ∧
            (Frontier.fromElem time).join lower = f))) ∧
    (m.map Prod.fst).Nodup := by
  rcases hs : buildStorageHolds c (Frontier.fromElem time) [] bundle.storage_ids with _ | m₀
  · rw [buildReadHolds, hs] at h
    exact absurd h (by simp)
  · rw [buildReadHolds, hs] at h
    obtain ⟨s1, s2, s3, s4⟩ := buildStorageHolds_spec c _ bundle.storage_ids [] m₀ hs
    obtain ⟨c1, c2, c3, c4⟩ := buildComputeHolds_spec c _ bundle.compute_ids m₀ m h
    have hempty : ∀ f, bundleAt ([] : HoldsMap) f = CollectionIdBundle.empty := by
      intro f; rfl
    refine ⟨?_, ?_, ?_, ?_⟩
    · intro f x
      rw [c2 f x, s1 f x, hempty f]
      simp [CollectionIdBundle.empty]
    · intro f p
      rw [c1 f p, s2 f p, hempty f]
      simp [CollectionIdBundle.empty]
    · intro f
      rw [c3 f, s3 f]
      simp only [List.map_nil, List.not_mem_nil, false_or]
    · exact c4 (s4 (by simp))

/-- Success of the build phase when every collection exists. -/
theorem buildReadHolds_some (c : Coordinator) (time : Timestamp)
    (bundle : CollectionIdBundle)
    (hs : ∀ id ∈ bundle.storage_ids, (assocGet c.storage_collections id).isSome = true)
    (hc : ∀ p ∈ bundle.compute_ids, (assocGet c.compute_collections p).isSome = true) :
    ∃ m, buildReadHolds c time bundle = some m := by
  obtain ⟨m₀, hm₀⟩ := buildStorageHolds_some c (Frontier.fromElem time) bundle.storage_ids [] hs
  obtain ⟨m, hm⟩ := buildComputeHolds_some c (Frontier.fromElem time) bundle.compute_ids m₀ hc
  exact ⟨m, by simp [buildReadHolds, hm₀, hm]⟩

end Coordinator

namespace Coordinator

/-- Inversion: a successful `acquire_read_holds` returns exactly the hold map
assembled by the build phase. -/
theorem acquire_ok_build (c : Coordinator) (time : Timestamp)
    (bundle : CollectionIdBundle) (precise : Bool) (c₂ : Coordinator)
    (inner : ReadHoldsInner) (sb : List (Nat × PolicyVal))
    (cb : List ((Nat × Nat) × PolicyVal))
    (h : acquire_read_holds c time bundle precise =
      some (c₂, Except.ok (inner, sb, cb))) :
    buildReadHolds c time bundle = some inner.holds := by
  rcases hb : buildReadHolds c time bundle with _ | m
  · rw [acquire_read_holds, hb] at h
    exact absurd h (by simp)
  · simp only [acquire_read_holds, hb] at h
    by_cases hp : (precise && !(tooLate time m).isEmpty) = true
    · rw [if_pos hp] at h
      simp at h
    · rw [if_neg hp] at h
      rcases ha : applyStorageHolds c (ReadHoldsInner.storagePairs m) with _ | cs
      · rw [ha] at h
        exact absurd h (by simp)
      · obtain ⟨c₁, sb₁⟩ := cs
        simp only [ha] at h
        rcases hb₂ : applyComputeHolds c₁ (ReadHoldsInner.computePairs m) with _ | cc
        · simp only [hb₂] at h
          exact absurd h (by simp)
        · obtain ⟨c₃, cb₁⟩ := cc
          simp only [hb₂] at h
          simp only [Option.some.injEq, Prod.mk.injEq] at h
          obtain ⟨-, h2⟩ := h
          have : inner = ⟨m⟩ := by
            have := congrArg (fun e => match e with
              | Except.ok (i, _, _) => i
              | Except.error _ => inner) h2
            simpa using this.symm
          rw [this]

end Coordinator

/-- C7: every id of a bundle acquired by a successful `acquire_read_holds`
is placed in the returned hold map under the key
`join(Antichain::from_elem(time), current_lower(id))` — its effective
frontier; entries contain exactly the ids with that effective frontier, and
keys are distinct, so ids sharing an effective frontier share one entry. -/
theorem claim_C7_acquire_groups (c : Coordinator) (time : Timestamp)
    (bundle : CollectionIdBundle) (precise : Bool) (c₂ : Coordinator)
    (inner : ReadHoldsInner) (sb : List (Nat × PolicyVal))
    (cb : List ((Nat × Nat) × PolicyVal))
    (hacq : Coordinator.acquire_read_holds c time bundle precise =
      some (c₂, Except.ok (inner, sb, cb))) :
    (∀ id lower, id ∈ bundle.storage_ids →
      assocGet c.storage_collections id = some lower →
      id ∈ (bundleAt inner.holds ((Frontier.fromElem time).join lower)).storage_ids) ∧
    (∀ p lower, p ∈ bundle.compute_ids →
      assocGet c.compute_collections p = some lower →
      p ∈ (bundleAt inner.holds ((Frontier.fromElem time).join lower)).compute_ids) ∧
    (∀ f x, x ∈ (bundleAt inner.holds f).storage_ids ↔
        (x ∈ bundle.storage_ids ∧ ∃ lower,
          assocGet c.storage_collections x = some lower ∧
          (Frontier.fromElem time).join lower = f)) ∧
    (∀ f p, p ∈ (bundleAt inner.holds f).compute_ids ↔
        (p ∈ bundle.compute_ids ∧ ∃ lower,
          assocGet c.compute_collections p = some lower ∧
          (Frontier.fromElem time).join lower = f)) ∧
    (inner.holds.map Prod.fst).Nodup := by
  have hb := Coordinator.acquire_ok_build c time bundle precise c₂ inner sb cb hacq
  obtain ⟨h1, h2, _, h4⟩ := Coordinator.buildReadHolds_spec c time bundle inner.holds hb
  refine ⟨?_, ?_, h1, h2, h4⟩
  · intro id lower hmem hlow
    exact (h1 _ id).mpr ⟨hmem, lower, hlow, rfl⟩
  · intro p lower hmem hlow
    exact (h2 _ p).mpr ⟨hmem, lower, hlow, rfl⟩

theorem le_fromElem_join (t : Timestamp) (l : Frontier) :
    Frontier.le (Frontier.fromElem t) ((Frontier.fromElem t).join l) = true := by
  cases l with
  | none => rfl
  | some l₂ => simp [Frontier.le, Frontier.join, Frontier.fromElem]

/-- C10: every frontier key of the hold map returned by a successful
`acquire_read_holds` dominates the requested time:
`Antichain::from_elem(time).le(key)` holds for every key, each key being the
join of the requested time with a collection's current lower frontier. -/
theorem claim_C10_keys_dominate (c : Coordinator) (time : Timestamp)
    (bundle : CollectionIdBundle) (precise : Bool) (c₂ : Coordinator)
    (inner : ReadHoldsInner) (sb : List (Nat × PolicyVal))
    (cb : List ((Nat × Nat) × PolicyVal))
    (hacq : Coordinator.acquire_read_holds c time bundle precise =
      some (c₂, Except.ok (inner, sb, cb))) :
    ∀ f ∈ inner.holds.map Prod.fst,
      Frontier.le (Frontier.fromElem time) f = true := by
  have hb := Coordinator.acquire_ok_build c time bundle precise c₂ inner sb cb hacq
  obtain ⟨-, -, h3, -⟩ := Coordinator.buildReadHolds_spec c time bundle inner.holds hb
  intro f hf
  rcases (h3 f).mp hf with ⟨i, -, lower, -, rfl⟩ | ⟨p, -, lower, -, rfl⟩
  · exact le_fromElem_join time lower
  · exact le_fromElem_join time lower

/-- C1, counterexample to the claim as stated: a storage collection whose
current lower frontier is the empty antichain (a closed collection).  The
effective frontier `join({5}, {}) = {}` strictly differs from the requested
time `{5}`, so the claim requires an `Err`; but the precise check
(read_policy.rs:682, `antichain.iter().all(..)`) is vacuously true on the
empty frontier, and the call succeeds. -/
theorem claim_C1_counterexample :
    ((Frontier.fromElem 5).join Option.none ≠ Frontier.fromElem 5) ∧
    Coordinator.acquire_read_holds ⟨[(0, Option.none)], [], [], []⟩ 5 ⟨[0], []⟩ true =
      some (⟨[(0, Option.none)], [],
              [(0, ⟨[], ReadPolicy.validFrom Option.none⟩)], []⟩,
        Except.ok (⟨[(Option.none, ⟨[0], []⟩)]⟩,
          [(0, (Option.none, ReadPolicy.validFrom Option.none))], [])) :=
  ⟨by decide, rfl⟩

/-- C1 (amended): with `precise = true`, if any id's effective frontier
`join(time, current_lower)` has an element different from the requested time
(in particular whenever it is a non-empty frontier different from `{time}`),
the call returns `Err` carrying exactly the entries of the built hold map
whose frontier has an element different from `time`, each entry grouping the
ids sharing that effective frontier — and the coordinator state is returned
unchanged, with no policy batch (a group with the *empty* effective frontier
is not treated as an error). -/
theorem claim_C1_precise_error (c : Coordinator) (time : Timestamp)
    (bundle : CollectionIdBundle)
    (hs : ∀ id ∈ bundle.storage_ids, (assocGet c.storage_collections id).isSome = true)
    (hc : ∀ p ∈ bundle.compute_ids, (assocGet c.compute_collections p).isSome = true) :
    ∃ m, Coordinator.buildReadHolds c time bundle = some m ∧
      ((∃ fb ∈ m, ∃ t₂ ∈ fb.1.toList, t₂ ≠ time) →
        Coordinator.acquire_read_holds c time bundle true =
          some (c, Except.error (Coordinator.tooLate time m))) ∧
      (∀ fb, fb ∈ Coordinator.tooLate time m ↔
        (fb ∈ m ∧ ∃ t₂ ∈ fb.1.toList, t₂ ≠ time)) ∧
      (∀ f x, x ∈ (bundleAt m f).storage_ids ↔
        (x ∈ bundle.storage_ids ∧ ∃ lower,
          assocGet c.storage_collections x = some lower ∧
          (Frontier.fromElem time).join lower = f)) ∧
      (∀ f p, p ∈ (bundleAt m f).compute_ids ↔
        (p ∈ bundle.compute_ids ∧ ∃ lower,
          assocGet c.compute_collections p = some lower ∧
          (Frontier.fromElem time).join lower = f)) := by
  obtain ⟨m, hm⟩ := Coordinator.buildReadHolds_some c time bundle hs hc
  obtain ⟨h1, h2, -, -⟩ := Coordinator.buildReadHolds_spec c time bundle m hm
  have hmem : ∀ fb : Frontier × CollectionIdBundle,
      fb ∈ Coordinator.tooLate time m ↔ (fb ∈ m ∧ ∃ t₂ ∈ fb.1.toList, t₂ ≠ time) := by
    intro fb
    rw [Coordinator.tooLate, List.mem_filter]
    rcases fb with ⟨f, b⟩
    cases f with
    | none => simp [Frontier.toList]
    | some t => simp [Frontier.toList]
  refine ⟨m, hm, ?_, hmem, h1, h2⟩
  rintro ⟨fb, hfb, t₂, ht₂, hne⟩
  have htl : fb ∈ Coordinator.tooLate time m := (hmem fb).mpr ⟨hfb, t₂, ht₂, hne⟩
  have hne₂ : (Coordinator.tooLate time m).isEmpty = false := by
    cases h : Coordinator.tooLate time m with
    | nil => rw [h] at htl; cases htl
    | cons a as => rfl
  simp [Coordinator.acquire_read_holds, hm, hne₂]

/-- C1, witness: the amended theorem applied to the spec example — a single
storage collection with current lower frontier {8} and a precise request at
time 5. -/
theorem claim_C1_witness :
    (∀ id ∈ ([0] : List Nat),
      (assocGet ([(0, some 8)] : List (Nat × Frontier)) id).isSome = true) ∧
    (∃ m, Coordinator.buildReadHolds ⟨[(0, some 8)], [], [], []⟩ 5 ⟨[0], []⟩ = some m ∧
      ((∃ fb ∈ m, ∃ t₂ ∈ fb.1.toList, t₂ ≠ 5) →
        Coordinator.acquire_read_holds ⟨[(0, some 8)], [], [], []⟩ 5 ⟨[0], []⟩ true =
          some (⟨[(0, some 8)], [], [], []⟩,
            Except.error (Coordinator.tooLate 5 m))) ∧
      (∀ fb, fb ∈ Coordinator.tooLate 5 m ↔
        (fb ∈ m ∧ ∃ t₂ ∈ fb.1.toList, t₂ ≠ 5)) ∧
      (∀ f x, x ∈ (bundleAt m f).storage_ids ↔
        (x ∈ ([0] : List Nat) ∧ ∃ lower,
          assocGet ([(0, some 8)] : List (Nat × Frontier)) x = some lower ∧
          (Frontier.fromElem 5).join lower = f)) ∧
      (∀ f p, p ∈ (bundleAt m f).compute_ids ↔
        (p ∈ ([] : List (Nat × Nat)) ∧ ∃ lower,
          assocGet ([] : List ((Nat × Nat) × Frontier)) p = some lower ∧
          (Frontier.fromElem 5).join lower = f))) :=
  ⟨by decide, claim_C1_precise_error ⟨[(0, some 8)], [], [], []⟩ 5 ⟨[0], []⟩
    (by decide) (by decide)⟩

/-- C7, witness: the grouping theorem applied to a concrete acquisition with
one storage collection (lower {8}) and one compute collection (lower {3}) at
requested time 5. -/
theorem claim_C7_witness :
    (Coordinator.acquire_read_holds ⟨[(0, some 8)], [((1, 2), some 3)], [], []⟩ 5
        ⟨[0], [(1, 2)]⟩ false =
      some (⟨[(0, some 8)], [((1, 2), some 3)],
              [(0, ⟨[(8, 1)], ReadPolicy.validFrom (some 8)⟩)],
              [(2, ⟨[(5, 1)], ReadPolicy.validFrom (some 3)⟩)]⟩,
        Except.ok (⟨[(some 8, ⟨[0], []⟩), (some 5, ⟨[], [(1, 2)]⟩)]⟩,
          [(0, (some 8, ReadPolicy.validFrom (some 8)))],
          [((1, 2), (some 5, ReadPolicy.validFrom (some 3)))]))) ∧
    ((∀ id lower, id ∈ ([0] : List Nat) →
      assocGet ([(0, some 8)] : List (Nat × Frontier)) id = some lower →
      id ∈ (bundleAt [(some 8, ⟨[0], []⟩), (some 5, ⟨[], [(1, 2)]⟩)]
        ((Frontier.fromElem 5).join lower)).storage_ids) ∧
    (∀ p lower, p ∈ ([(1, 2)] : List (Nat × Nat)) →
      assocGet ([((1, 2), some 3)] : List ((Nat × Nat) × Frontier)) p = some lower →
      p ∈ (bundleAt [(some 8, ⟨[0], []⟩), (some 5, ⟨[], [(1, 2)]⟩)]
        ((Frontier.fromElem 5).join lower)).compute_ids) ∧
    (∀ f x, x ∈ (bundleAt [(some 8, ⟨[0], []⟩), (some 5, ⟨[], [(1, 2)]⟩)] f).storage_ids ↔
        (x ∈ ([0] : List Nat) ∧ ∃ lower,
          assocGet ([(0, some 8)] : List (Nat × Frontier)) x = some lower ∧
          (Frontier.fromElem 5).join lower = f)) ∧
    (∀ f p, p ∈ (bundleAt [(some 8, ⟨[0], []⟩), (some 5, ⟨[], [(1, 2)]⟩)] f).compute_ids ↔
        (p ∈ ([(1, 2)] : List (Nat × Nat)) ∧ ∃ lower,
          assocGet ([((1, 2), some 3)] : List ((Nat × Nat) × Frontier)) p = some lower ∧
          (Frontier.fromElem 5).join lower = f)) ∧
    (([(some 8, (⟨[0], []⟩ : CollectionIdBundle)),
       (some 5, ⟨[], [(1, 2)]⟩)].map Prod.fst).Nodup)) :=
  ⟨rfl, claim_C7_acquire_groups ⟨[(0, some 8)], [((1, 2), some 3)], [], []⟩ 5
    ⟨[0], [(1, 2)]⟩ false
    ⟨[(0, some 8)], [((1, 2), some 3)],
      [(0, ⟨[(8, 1)], ReadPolicy.validFrom (some 8)⟩)],
      [(2, ⟨[(5, 1)], ReadPolicy.validFrom (some 3)⟩)]⟩
    ⟨[(some 8, ⟨[0], []⟩), (some 5, ⟨[], [(1, 2)]⟩)]⟩
    [(0, (some 8, ReadPolicy.validFrom (some 8)))]
    [((1, 2), (some 5, ReadPolicy.validFrom (some 3)))] rfl⟩

/-- C10, witness: the key-domination theorem applied to the same concrete
acquisition as the C7 witness. -/
theorem claim_C10_witness :
    (Coordinator.acquire_read_holds ⟨[(0, some 8)], [((1, 2), some 3)], [], []⟩ 5
        ⟨[0], [(1, 2)]⟩ false =
      some (⟨[(0, some 8)], [((1, 2), some 3)],
              [(0, ⟨[(8, 1)], ReadPolicy.validFrom (some 8)⟩)],
              [(2, ⟨[(5, 1)], ReadPolicy.validFrom (some 3)⟩)]⟩,
        Except.ok (⟨[(some 8, ⟨[0], []⟩), (some 5, ⟨[], [(1, 2)]⟩)]⟩,
          [(0, (some 8, ReadPolicy.validFrom (some 8)))],
          [((1, 2), (some 5, ReadPolicy.validFrom (some 3)))]))) ∧
    (∀ f ∈ ([(some 8, (⟨[0], []⟩ : CollectionIdBundle)),
        (some 5, ⟨[], [(1, 2)]⟩)] : HoldsMap).map Prod.fst,
      Frontier.le (Frontier.fromElem 5) f = true) :=
  ⟨rfl, claim_C10_keys_dominate ⟨[(0, some 8)], [((1, 2), some 3)], [], []⟩ 5
    ⟨[0], [(1, 2)]⟩ false
    ⟨[(0, some 8)], [((1, 2), some 3)],
      [(0, ⟨[(8, 1)], ReadPolicy.validFrom (some 8)⟩)],
      [(2, ⟨[(5, 1)], ReadPolicy.validFrom (some 3)⟩)]⟩
    ⟨[(some 8, ⟨[0], []⟩), (some 5, ⟨[], [(1, 2)]⟩)]⟩
    [(0, (some 8, ReadPolicy.validFrom (some 8)))]
    [((1, 2), (some 5, ReadPolicy.validFrom (some 3)))] rfl⟩

namespace Coordinator

theorem downgradeStorageIds_pres (old nt : Frontier) :
    ∀ (ids : List Nat) (c c₂ : Coordinator) (batch : List (Nat × PolicyVal)),
      downgradeStorageIds c old nt ids = some (c₂, batch) →
      c₂.storage_collections = c.storage_collections ∧
      c₂.compute_collections = c.compute_collections ∧
      c₂.compute_read_capabilities = c.compute_read_capabilities ∧
      ∀ id, (assocGet c₂.storage_read_capabilities id).isSome =
        (assocGet c.storage_read_capabilities id).isSome := by
  intro ids
  induction ids with
  | nil =>
      intro c c₂ batch h
      obtain ⟨rfl, -⟩ : c = c₂ ∧ batch = [] := by
        simpa [downgradeStorageIds] using h
      exact ⟨rfl, rfl, rfl, fun _ => rfl⟩
  | cons id rest ih =>
      intro c c₂ batch h
      rcases hlow : assocGet c.storage_collections id with _ | lower
      · rw [downgradeStorageIds, show downgradeStorageId c old nt id = none by
          simp [downgradeStorageId, hlow]] at h
        exact absurd h (by simp)
      · by_cases hle : lower.le nt = true
        · rcases hcap : assocGet c.storage_read_capabilities id with _ | cap
          · rw [downgradeStorageIds, show downgradeStorageId c old nt id = none by
              simp [downgradeStorageId, hlow, hle, hcap]] at h
            exact absurd h (by simp)
          · set cap₂ := (cap.update nt 1).update old (-1) with hcap₂
            set c₁ : Coordinator := { c with storage_read_capabilities := assocSet c.storage_read_capabilities id cap₂ } with hc₁
            have hstep : downgradeStorageId c old nt id = some (c₁, (id, cap₂.policy)) := by
              simp [downgradeStorageId, hlow, hle, hcap, hcap₂, hc₁]
            simp only [downgradeStorageIds, hstep] at h
            rcases hrest : downgradeStorageIds c₁ old nt rest with _ | cs
            · simp only [hrest] at h
              exact absurd h (by simp)
            · obtain ⟨c₃, batch₃⟩ := cs
              simp only [hrest] at h
              obtain ⟨rfl, -⟩ : c₃ = c₂ ∧ (id, cap₂.policy) :: batch₃ = batch := by
                simpa using h
              obtain ⟨p1, p2, p3, p4⟩ := ih _ _ _ hrest
              refine ⟨p1, p2, p3, ?_⟩
              intro id₂
              rw [p4 id₂, hc₁]
              show (assocGet (assocSet c.storage_read_capabilities id cap₂) id₂).isSome = _
              rw [assocGet_set]
              by_cases he : id = id₂
              · subst he
                simp [hcap]
              · rw [if_neg he]
        · rw [downgradeStorageIds, show downgradeStorageId c old nt id = none by
            simp [downgradeStorageId, hlow, hle]] at h
          exact absurd h (by simp)

theorem downgradeComputeIds_pres (old nt : Frontier) :
    ∀ (ps : List (Nat × Nat)) (c c₂ : Coordinator) (batch : List ((Nat × Nat) × PolicyVal)),
      downgradeComputeIds c old nt ps = some (c₂, batch) →
      c₂.storage_collections = c.storage_collections ∧
      c₂.compute_collections = c.compute_collections ∧
      c₂.storage_read_capabilities = c.storage_read_capabilities ∧
      ∀ id, (assocGet c₂.compute_read_capabilities id).isSome =
        (assocGet c.compute_read_capabilities id).isSome := by
  intro ps
  induction ps with
  | nil =>
      intro c c₂ batch h
      obtain ⟨rfl, -⟩ : c = c₂ ∧ batch = [] := by
        simpa [downgradeComputeIds] using h
      exact ⟨rfl, rfl, rfl, fun _ => rfl⟩
  | cons p rest ih =>
      intro c c₂ batch h
      rcases hlow : assocGet c.compute_collections p with _ | lower
      · rw [downgradeComputeIds, show downgradeComputeId c old nt p = none by
          simp [downgradeComputeId, hlow]] at h
        exact absurd h (by simp)
      · by_cases hle : lower.le nt = true
        · rcases hcap : assocGet c.compute_read_capabilities p.2 with _ | cap
          · rw [downgradeComputeIds, show downgradeComputeId c old nt p = none by
              simp [downgradeComputeId, hlow, hle, hcap]] at h
            exact absurd h (by simp)
          · set cap₂ := (cap.update nt 1).update old (-1) with hcap₂
            set c₁ : Coordinator := { c with compute_read_capabilities := assocSet c.compute_read_capabilities p.2 cap₂ } with hc₁
            have hstep : downgradeComputeId c old nt p = some (c₁, (p, cap₂.policy)) := by
              simp [downgradeComputeId, hlow, hle, hcap, hcap₂, hc₁]
            simp only [downgradeComputeIds, hstep] at h
            rcases hrest : downgradeComputeIds c₁ old nt rest with _ | cs
            · simp only [hrest] at h
              exact absurd h (by simp)
            · obtain ⟨c₃, batch₃⟩ := cs
              simp only [hrest] at h
              obtain ⟨rfl, -⟩ : c₃ = c₂ ∧ (p, cap₂.policy) :: batch₃ = batch := by
                simpa using h
              obtain ⟨p1, p2, p3, p4⟩ := ih _ _ _ hrest
              refine ⟨p1, p2, p3, ?_⟩
              intro id₂
              rw [p4 id₂, hc₁]
              show (assocGet (assocSet c.compute_read_capabilities p.2 cap₂) id₂).isSome = _
              rw [assocGet_set]
              by_cases he : p.2 = id₂
              · subst he
                simp [hcap]
              · rw [if_neg he]
        · rw [downgradeComputeIds, show downgradeComputeId c old nt p = none by
            simp [downgradeComputeId, hlow, hle]] at h
          exact absurd h (by simp)

end Coordinator

namespace Coordinator

theorem downgradeStorageIds_none_iff (old nt : Frontier) :
    ∀ (ids : List Nat) (c : Coordinator),
      (∀ id ∈ ids, (assocGet c.storage_collections id).isSome = true ∧
        (assocGet c.storage_read_capabilities id).isSome = true) →
      (downgradeStorageIds c old nt ids = none ↔
        ∃ id ∈ ids, ∃ lower, assocGet c.storage_collections id = some lower ∧
          lower.le nt = false) := by
  intro ids
  induction ids with
  | nil =>
      intro c _
      simp [downgradeStorageIds]
  | cons id rest ih =>
      intro c hex
      obtain ⟨hlow₀, hcap₀⟩ := hex id (List.mem_cons_self _ _)
      rcases hlow : assocGet c.storage_collections id with _ | lower
      · rw [hlow] at hlow₀; cases hlow₀
      · rcases hcap : assocGet c.storage_read_capabilities id with _ | cap
        · rw [hcap] at hcap₀; cases hcap₀
        · by_cases hle : lower.le nt = true
          · set cap₂ := (cap.update nt 1).update old (-1) with hcap₂
            set c₁ : Coordinator := { c with storage_read_capabilities := assocSet c.storage_read_capabilities id cap₂ } with hc₁
            have hstep : downgradeStorageId c old nt id = some (c₁, (id, cap₂.policy)) := by
              simp [downgradeStorageId, hlow, hle, hcap, hcap₂, hc₁]
            have hex₂ : ∀ id₂ ∈ rest, (assocGet c₁.storage_collections id₂).isSome = true ∧
                (assocGet c₁.storage_read_capabilities id₂).isSome = true := by
              intro id₂ hmem
              obtain ⟨h1, h2⟩ := hex id₂ (List.mem_cons_of_mem _ hmem)
              refine ⟨h1, ?_⟩
              show (assocGet (assocSet c.storage_read_capabilities id cap₂) id₂).isSome = true
              rw [assocGet_set]
              by_cases he : id = id₂
              · simp [he]
              · rw [if_neg he]; exact h2
            have hcol : c₁.storage_collections = c.storage_collections := rfl
            constructor
            · intro hnone
              simp only [downgradeStorageIds, hstep] at hnone
              rcases hrest : downgradeStorageIds c₁ old nt rest with _ | cs
              · obtain ⟨id₂, hmem, lower₂, hl₂, hv⟩ := (ih c₁ hex₂).mp hrest
                rw [hcol] at hl₂
                exact ⟨id₂, List.mem_cons_of_mem _ hmem, lower₂, hl₂, hv⟩
              · rw [hrest] at hnone
                obtain ⟨c₃, b₃⟩ := cs
                simp at hnone
            · rintro ⟨id₂, hmem, lower₂, hl₂, hv⟩
              simp only [downgradeStorageIds, hstep]
              rcases List.mem_cons.mp hmem with rfl | hr
              · rw [hlow] at hl₂
                obtain rfl : lower = lower₂ := by injection hl₂
                rw [hle] at hv
                cases hv
              · have : downgradeStorageIds c₁ old nt rest = none := by
                  rw [ih c₁ hex₂]
                  exact ⟨id₂, hr, lower₂, by rw [hcol]; exact hl₂, hv⟩
                rw [this]
          · have hstep : downgradeStorageId c old nt id = none := by
              simp [downgradeStorageId, hlow, hle]
            simp only [downgradeStorageIds, hstep]
            constructor
            · intro _
              exact ⟨id, List.mem_cons_self _ _, lower, hlow,
                Bool.not_eq_true _ ▸ Bool.of_not_eq_true hle⟩
            · intro _
              trivial

theorem downgradeComputeIds_none_iff (old nt : Frontier) :
    ∀ (ps : List (Nat × Nat)) (c : Coordinator),
      (∀ p ∈ ps, (assocGet c.compute_collections p).isSome = true ∧
        (assocGet c.compute_read_capabilities p.2).isSome = true) →
      (downgradeComputeIds c old nt ps = none ↔
        ∃ p ∈ ps, ∃ lower, assocGet c.compute_collections p = some lower ∧
          lower.le nt = false) := by
  intro ps
  induction ps with
  | nil =>
      intro c _
      simp [downgradeComputeIds]
  | cons p rest ih =>
      intro c hex
      obtain ⟨hlow₀, hcap₀⟩ := hex p (List.mem_cons_self _ _)
      rcases hlow : assocGet c.compute_collections p with _ | lower
      · rw [hlow] at hlow₀; cases hlow₀
      · rcases hcap : assocGet c.compute_read_capabilities p.2 with _ | cap
        · rw [hcap] at hcap₀; cases hcap₀
        · by_cases hle : lower.le nt = true
          · set cap₂ := (cap.update nt 1).update old (-1) with hcap₂
            set c₁ : Coordinator := { c with compute_read_capabilities := assocSet c.compute_read_capabilities p.2 cap₂ } with hc₁
            have hstep : downgradeComputeId c old nt p = some (c₁, (p, cap₂.policy)) := by
              simp [downgradeComputeId, hlow, hle, hcap, hcap₂, hc₁]
            have hex₂ : ∀ q ∈ rest, (assocGet c₁.compute_collections q).isSome = true ∧
                (assocGet c₁.compute_read_capabilities q.2).isSome = true := by
              intro q hmem
              obtain ⟨h1, h2⟩ := hex q (List.mem_cons_of_mem _ hmem)
              refine ⟨h1, ?_⟩
              show (assocGet (assocSet c.compute_read_capabilities p.2 cap₂) q.2).isSome = true
              rw [assocGet_set]
              by_cases he : p.2 = q.2
              · simp [he]
              · rw [if_neg he]; exact h2
            have hcol : c₁.compute_collections = c.compute_collections := rfl
            constructor
            · intro hnone
              simp only [downgradeComputeIds, hstep] at hnone
              rcases hrest : downgradeComputeIds c₁ old nt rest with _ | cs
              · obtain ⟨q, hmem, lower₂, hl₂, hv⟩ := (ih c₁ hex₂).mp hrest
                rw [hcol] at hl₂
                exact ⟨q, List.mem_cons_of_mem _ hmem, lower₂, hl₂, hv⟩
              · rw [hrest] at hnone
                obtain ⟨c₃, b₃⟩ := cs
                simp at hnone
            · rintro ⟨q, hmem, lower₂, hl₂, hv⟩
              simp only [downgradeComputeIds, hstep]
              rcases List.mem_cons.mp hmem with rfl | hr
              · rw [hlow] at hl₂
                obtain rfl : lower = lower₂ := by injection hl₂
                rw [hle] at hv
                cases hv
              · have : downgradeComputeIds c₁ old nt rest = none := by
                  rw [ih c₁ hex₂]
                  exact ⟨q, hr, lower₂, by rw [hcol]; exact hl₂, hv⟩
                rw [this]
          · have hstep : downgradeComputeId c old nt p = none := by
              simp [downgradeComputeId, hlow, hle]
            simp only [downgradeComputeIds, hstep]
            constructor
            · intro _
              exact ⟨p, List.mem_cons_self _ _, lower, hlow,
                Bool.not_eq_true _ ▸ Bool.of_not_eq_true hle⟩
            · intro _
              trivial

end Coordinator

namespace Coordinator

/-- The condition under which the domination `assert!` of `update_read_holds`
fires for an entry: the entry is moved (its join with the new time differs
from its old time) and some id of its bundle has a live lower frontier that
is not less-equal the joined time. -/
def entryViol (c : Coordinator) (new_time : Frontier)
    (e : Frontier × CollectionIdBundle) : Prop :=
  e.1.join new_time ≠ e.1 ∧
  ((∃ id ∈ e.2.storage_ids, ∃ lower,
      assocGet c.storage_collections id = some lower ∧
      lower.le (e.1.join new_time) = false) ∨
   (∃ p ∈ e.2.compute_ids, ∃ lower,
      assocGet c.compute_collections p = some lower ∧
      lower.le (e.1.join new_time) = false))

/-- Existence side-condition for an entry of `update_read_holds`: when the
entry is moved, each of its ids has a live collection and a capability (the
other `expect` panics of the function). -/
def entryExists (c : Coordinator) (new_time : Frontier)
    (e : Frontier × CollectionIdBundle) : Prop :=
  e.1.join new_time ≠ e.1 →
  ((∀ id ∈ e.2.storage_ids, (assocGet c.storage_collections id).isSome = true ∧
      (assocGet c.storage_read_capabilities id).isSome = true) ∧
   (∀ p ∈ e.2.compute_ids, (assocGet c.compute_collections p).isSome = true ∧
      (assocGet c.compute_read_capabilities p.2).isSome = true))

theorem entryViol_congr (c₁ c₂ : Coordinator) (nt : Frontier)
    (e : Frontier × CollectionIdBundle)
    (h1 : c₁.storage_collections = c₂.storage_collections)
    (h2 : c₁.compute_collections = c₂.compute_collections) :
    entryViol c₁ nt e ↔ entryViol c₂ nt e := by
  rw [entryViol, entryViol, h1, h2]

theorem entryExists_congr (c₁ c₂ : Coordinator) (nt : Frontier)
    (e : Frontier × CollectionIdBundle)
    (h1 : c₁.storage_collections = c₂.storage_collections)
    (h2 : c₁.compute_collections = c₂.compute_collections)
    (h3 : ∀ id, (assocGet c₁.storage_read_capabilities id).isSome =
      (assocGet c₂.storage_read_capabilities id).isSome)
    (h4 : ∀ id, (assocGet c₁.compute_read_capabilities id).isSome =
      (assocGet c₂.compute_read_capabilities id).isSome) :
    entryExists c₁ nt e ↔ entryExists c₂ nt e := by
  rw [entryExists, entryExists, h1, h2]
  constructor
  · intro h hch
    obtain ⟨ha, hb⟩ := h hch
    exact ⟨fun id hid => ⟨(ha id hid).1, (h3 id) ▸ (ha id hid).2⟩,
           fun p hp => ⟨(hb p hp).1, (h4 p.2) ▸ (hb p hp).2⟩⟩
  · intro h hch
    obtain ⟨ha, hb⟩ := h hch
    exact ⟨fun id hid => ⟨(ha id hid).1, (h3 id) ▸ (ha id hid).2⟩,
           fun p hp => ⟨(hb p hp).1, (h4 p.2) ▸ (hb p hp).2⟩⟩

theorem updateEntry_pres (nt₀ : Frontier)
    (st st₂ : HoldsMap × Coordinator × List (Nat × PolicyVal) × List ((Nat × Nat) × PolicyVal))
    (e : Frontier × CollectionIdBundle)
    (h : updateEntry nt₀ st e = some st₂) :
    st₂.2.1.storage_collections = st.2.1.storage_collections ∧
    st₂.2.1.compute_collections = st.2.1.compute_collections ∧
    (∀ id, (assocGet st₂.2.1.storage_read_capabilities id).isSome =
      (assocGet st.2.1.storage_read_capabilities id).isSome) ∧
    (∀ id, (assocGet st₂.2.1.compute_read_capabilities id).isSome =
      (assocGet st.2.1.compute_read_capabilities id).isSome) := by
  obtain ⟨acc, c, sb, cb⟩ := st
  rw [updateEntry] at h
  by_cases hch : e.1 ≠ e.1.join nt₀
  · rw [if_pos hch] at h
    rcases hs : downgradeStorageIds c e.1 (e.1.join nt₀) e.2.storage_ids with _ | cs
    · rw [hs] at h
      exact absurd h (by simp)
    · obtain ⟨c₁, sb₂⟩ := cs
      simp only [hs] at h
      rcases hcc : downgradeComputeIds c₁ e.1 (e.1.join nt₀) e.2.compute_ids with _ | cc
      · simp only [hcc] at h
        exact absurd h (by simp)
      · obtain ⟨c₂, cb₂⟩ := cc
        simp only [hcc, Option.some.injEq] at h
        obtain ⟨s1, s2, s3, s4⟩ := downgradeStorageIds_pres _ _ _ _ _ _ hs
        obtain ⟨t1, t2, t3, t4⟩ := downgradeComputeIds_pres _ _ _ _ _ _ hcc
        subst h
        refine ⟨t1.trans s1, t2.trans s2, ?_, ?_⟩
        · intro id
          show (assocGet c₂.storage_read_capabilities id).isSome = _
          rw [t3]
          exact s4 id
        · intro id
          show (assocGet c₂.compute_read_capabilities id).isSome = _
          rw [t4 id, s3]
  · rw [if_neg hch] at h
    simp only [Option.some.injEq] at h
    subst h
    exact ⟨rfl, rfl, fun _ => rfl, fun _ => rfl⟩

theorem updateEntry_none_iff (nt₀ : Frontier)
    (st : HoldsMap × Coordinator × List (Nat × PolicyVal) × List ((Nat × Nat) × PolicyVal))
    (e : Frontier × CollectionIdBundle)
    (hex : entryExists st.2.1 nt₀ e) :
    (updateEntry nt₀ st e = none ↔ entryViol st.2.1 nt₀ e) := by
  obtain ⟨acc, c, sb, cb⟩ := st
  rw [updateEntry]
  by_cases hch : e.1 ≠ e.1.join nt₀
  · have hch₂ : e.1.join nt₀ ≠ e.1 := Ne.symm hch
    obtain ⟨hexS, hexC⟩ := hex hch₂
    rw [if_pos hch]
    rcases hs : downgradeStorageIds c e.1 (e.1.join nt₀) e.2.storage_ids with _ | cs
    · simp only [hs]
      constructor
      · intro _
        exact ⟨hch₂, Or.inl ((downgradeStorageIds_none_iff e.1 (e.1.join nt₀)
          e.2.storage_ids c hexS).mp hs)⟩
      · intro _
        trivial
    · obtain ⟨c₁, sb₂⟩ := cs
      simp only [hs]
      obtain ⟨s1, s2, s3, s4⟩ := downgradeStorageIds_pres _ _ _ _ _ _ hs
      have hexC₁ : ∀ p ∈ e.2.compute_ids,
          (assocGet c₁.compute_collections p).isSome = true ∧
          (assocGet c₁.compute_read_capabilities p.2).isSome = true := by
        intro p hp
        rw [s2, s3]
        exact hexC p hp
      rcases hcc : downgradeComputeIds c₁ e.1 (e.1.join nt₀) e.2.compute_ids with _ | cc
      · simp only [hcc]
        constructor
        · intro _
          have := (downgradeComputeIds_none_iff e.1 (e.1.join nt₀)
            e.2.compute_ids c₁ hexC₁).mp hcc
          rw [s2] at this
          exact ⟨hch₂, Or.inr this⟩
        · intro _
          trivial
      · obtain ⟨c₂, cb₂⟩ := cc
        simp only [hcc]
        constructor
        · intro hbad
          simp at hbad
        · rintro ⟨-, hv | hv⟩
          · have : downgradeStorageIds c e.1 (e.1.join nt₀) e.2.storage_ids = none :=
              (downgradeStorageIds_none_iff e.1 (e.1.join nt₀)
                e.2.storage_ids c hexS).mpr hv
            rw [this] at hs
            cases hs
          · have hv₁ : ∃ p ∈ e.2.compute_ids, ∃ lower,
                assocGet c₁.compute_collections p = some lower ∧
                lower.le (e.1.join nt₀) = false := by
              rw [s2]
              exact hv
            have : downgradeComputeIds c₁ e.1 (e.1.join nt₀) e.2.compute_ids = none :=
              (downgradeComputeIds_none_iff e.1 (e.1.join nt₀)
                e.2.compute_ids c₁ hexC₁).mpr hv₁
            rw [this] at hcc
            cases hcc
  · rw [if_neg hch]
    constructor
    · intro hbad
      simp at hbad
    · rintro ⟨hbad, -⟩
      exact absurd (Ne.symm hbad) hch

theorem updateLoop_none_iff (nt₀ : Frontier) :
    ∀ (entries : HoldsMap)
      (st : HoldsMap × Coordinator × List (Nat × PolicyVal) × List ((Nat × Nat) × PolicyVal)),
      (∀ e ∈ entries, entryExists st.2.1 nt₀ e) →
      (updateLoop nt₀ st entries = none ↔ ∃ e ∈ entries, entryViol st.2.1 nt₀ e) := by
  intro entries
  induction entries with
  | nil =>
      intro st _
      simp [updateLoop]
  | cons e rest ih =>
      intro st hex
      rcases hstep : updateEntry nt₀ st e with _ | st₂
      · simp only [updateLoop, hstep]
        constructor
        · intro _
          exact ⟨e, List.mem_cons_self _ _,
            (updateEntry_none_iff nt₀ st e (hex e (List.mem_cons_self _ _))).mp hstep⟩
        · intro _
          trivial
      · simp only [updateLoop, hstep]
        obtain ⟨p1, p2, p3, p4⟩ := updateEntry_pres nt₀ st st₂ e hstep
        have hex₂ : ∀ e₂ ∈ rest, entryExists st₂.2.1 nt₀ e₂ := by
          intro e₂ he₂
          rw [entryExists_congr st₂.2.1 st.2.1 nt₀ e₂ p1 p2 p3 p4]
          exact hex e₂ (List.mem_cons_of_mem _ he₂)
        rw [ih st₂ hex₂]
        constructor
        · rintro ⟨e₂, he₂, hv⟩
          refine ⟨e₂, List.mem_cons_of_mem _ he₂, ?_⟩
          rwa [entryViol_congr st₂.2.1 st.2.1 nt₀ e₂ p1 p2] at hv
        · rintro ⟨e₂, he₂, hv⟩
          rcases List.mem_cons.mp he₂ with rfl | hr
          · have : updateEntry nt₀ st e₂ = none :=
              (updateEntry_none_iff nt₀ st e₂ (hex e₂ (List.mem_cons_self _ _))).mpr hv
            rw [this] at hstep
            cases hstep
          · refine ⟨e₂, hr, ?_⟩
            rwa [entryViol_congr st₂.2.1 st.2.1 nt₀ e₂ p1 p2]

end Coordinator

/-- C3: `update_read_holds` panics exactly when some moved entry (one whose
joined time differs from its old time) contains an id whose collection's live
lower frontier is not less-equal the joined new time — the domination
`assert!` — provided every id of a moved entry has a live collection and a
capability (the separate `expect` panics). -/
theorem claim_C3_update_assert (c : Coordinator) (rh : TimelineReadHolds)
    (new_time : Timestamp)
    (hex : ∀ e ∈ rh.holds, e.1.join (Frontier.fromElem new_time) ≠ e.1 →
      ((∀ id ∈ e.2.storage_ids, (assocGet c.storage_collections id).isSome = true ∧
          (assocGet c.storage_read_capabilities id).isSome = true) ∧
       (∀ p ∈ e.2.compute_ids, (assocGet c.compute_collections p).isSome = true ∧
          (assocGet c.compute_read_capabilities p.2).isSome = true))) :
    (Coordinator.update_read_holds c rh new_time = none ↔
      ∃ e ∈ rh.holds, e.1.join (Frontier.fromElem new_time) ≠ e.1 ∧
        ((∃ id ∈ e.2.storage_ids, ∃ lower,
            assocGet c.storage_collections id = some lower ∧
            lower.le (e.1.join (Frontier.fromElem new_time)) = false) ∨
         (∃ p ∈ e.2.compute_ids, ∃ lower,
            assocGet c.compute_collections p = some lower ∧
            lower.le (e.1.join (Frontier.fromElem new_time)) = false))) := by
  have hloop := Coordinator.updateLoop_none_iff (Frontier.fromElem new_time) rh.holds
    ([], c, [], []) (fun e he => hex e he)
  rw [Coordinator.update_read_holds, Option.map_eq_none']
  exact hloop

/-- C3, witness: the spec §8 example — a hold at {5} on a collection whose
live lower frontier is {7}, downgraded to time 6: the assertion
`{7}.le({6})` fails, so the operation panics. -/
theorem claim_C3_witness :
    (∀ e ∈ ([(some 5, ⟨[0], []⟩)] : HoldsMap),
      e.1.join (Frontier.fromElem 6) ≠ e.1 →
      ((∀ id ∈ e.2.storage_ids,
          (assocGet ([(0, some 7)] : List (Nat × Frontier)) id).isSome = true ∧
          (assocGet ([(0, ⟨[(5, 1)], ReadPolicy.lagWrites 1⟩)] :
            List (Nat × ReadCapability)) id).isSome = true) ∧
       (∀ p ∈ e.2.compute_ids,
          (assocGet ([] : List ((Nat × Nat) × Frontier)) p).isSome = true ∧
          (assocGet ([] : List (Nat × ReadCapability)) p.2).isSome = true))) ∧
    (Coordinator.update_read_holds
        ⟨[(0, some 7)], [], [(0, ⟨[(5, 1)], ReadPolicy.lagWrites 1⟩)], []⟩
        ⟨[(some 5, ⟨[0], []⟩)]⟩ 6 = none ↔
      ∃ e ∈ ([(some 5, ⟨[0], []⟩)] : HoldsMap),
        e.1.join (Frontier.fromElem 6) ≠ e.1 ∧
        ((∃ id ∈ e.2.storage_ids, ∃ lower,
            assocGet ([(0, some 7)] : List (Nat × Frontier)) id = some lower ∧
            lower.le (e.1.join (Frontier.fromElem 6)) = false) ∨
         (∃ p ∈ e.2.compute_ids, ∃ lower,
            assocGet ([] : List ((Nat × Nat) × Frontier)) p = some lower ∧
            lower.le (e.1.join (Frontier.fromElem 6)) = false))) :=
  ⟨by decide, claim_C3_update_assert
    ⟨[(0, some 7)], [], [(0, ⟨[(5, 1)], ReadPolicy.lagWrites 1⟩)], []⟩
    ⟨[(some 5, ⟨[0], []⟩)]⟩ 6 (by decide)⟩

namespace Coordinator

theorem downgradeStorageIds_caps (old nt : Frontier) :
    ∀ (ids : List Nat) (c c₂ : Coordinator) (batch : List (Nat × PolicyVal)),
      downgradeStorageIds c old nt ids = some (c₂, batch) →
      (∀ id, id ∉ ids →
        assocGet c₂.storage_read_capabilities id =
          assocGet c.storage_read_capabilities id) ∧
      (ids.Nodup → ∀ id ∈ ids, ∃ cap,
        assocGet c.storage_read_capabilities id = some cap ∧
        assocGet c₂.storage_read_capabilities id =
          some ((cap.update nt 1).update old (-1))) := by
  intro ids
  induction ids with
  | nil =>
      intro c c₂ batch h
      obtain ⟨rfl, -⟩ : c = c₂ ∧ batch = [] := by
        simpa [downgradeStorageIds] using h
      exact ⟨fun _ _ => rfl, fun _ id hid => absurd hid (List.not_mem_nil id)⟩
  | cons id₀ rest ih =>
      intro c c₂ batch h
      rcases hlow : assocGet c.storage_collections id₀ with _ | lower
      · rw [downgradeStorageIds, show downgradeStorageId c old nt id₀ = none by
          simp [downgradeStorageId, hlow]] at h
        exact absurd h (by simp)
      · by_cases hle : lower.le nt = true
        · rcases hcap : assocGet c.storage_read_capabilities id₀ with _ | cap
          · rw [downgradeStorageIds, show downgradeStorageId c old nt id₀ = none by
              simp [downgradeStorageId, hlow, hle, hcap]] at h
            exact absurd h (by simp)
          · set cap₂ := (cap.update nt 1).update old (-1) with hcap₂
            set c₁ : Coordinator := { c with storage_read_capabilities := assocSet c.storage_read_capabilities id₀ cap₂ } with hc₁
            have hstep : downgradeStorageId c old nt id₀ = some (c₁, (id₀, cap₂.policy)) := by
              simp [downgradeStorageId, hlow, hle, hcap, hcap₂, hc₁]
            simp only [downgradeStorageIds, hstep] at h
            rcases hrest : downgradeStorageIds c₁ old nt rest with _ | cs
            · simp only [hrest] at h
              exact absurd h (by simp)
            · obtain ⟨c₃, batch₃⟩ := cs
              simp only [hrest] at h
              obtain ⟨rfl, -⟩ : c₃ = c₂ ∧ (id₀, cap₂.policy) :: batch₃ = batch := by
                simpa using h
              obtain ⟨f₁, f₂⟩ := ih _ _ _ hrest
              have hc₁get : ∀ id₂, assocGet c₁.storage_read_capabilities id₂ =
                  if id₀ = id₂ then some cap₂ else assocGet c.storage_read_capabilities id₂ := by
                intro id₂
                show assocGet (assocSet c.storage_read_capabilities id₀ cap₂) id₂ = _
                rw [assocGet_set]
              constructor
              · intro id₂ hid₂
                simp only [List.mem_cons, not_or] at hid₂
                rw [f₁ id₂ hid₂.2, hc₁get id₂, if_neg (fun he => hid₂.1 he.symm)]
              · intro hnd id₂ hid₂
                simp only [List.nodup_cons] at hnd
                rcases List.mem_cons.mp hid₂ with rfl | hr
                · refine ⟨cap, hcap, ?_⟩
                  rw [f₁ id₂ hnd.1, hc₁get id₂, if_pos rfl, hcap₂]
                · obtain ⟨cap₃, hg₁, hg₂⟩ := f₂ hnd.2 id₂ hr
                  have hne : id₀ ≠ id₂ := by
                    intro he
                    exact hnd.1 (he ▸ hr)
                  rw [hc₁get id₂, if_neg hne] at hg₁
                  exact ⟨cap₃, hg₁, hg₂⟩
        · rw [downgradeStorageIds, show downgradeStorageId c old nt id₀ = none by
            simp [downgradeStorageId, hlow, hle]] at h
          exact absurd h (by simp)

theorem downgradeComputeIds_caps (old nt : Frontier) :
    ∀ (ps : List (Nat × Nat)) (c c₂ : Coordinator) (batch : List ((Nat × Nat) × PolicyVal)),
      downgradeComputeIds c old nt ps = some (c₂, batch) →
      (∀ id, (∀ p ∈ ps, p.2 ≠ id) →
        assocGet c₂.compute_read_capabilities id =
          assocGet c.compute_read_capabilities id) ∧
      ((ps.map Prod.snd).Nodup → ∀ p ∈ ps, ∃ cap,
        assocGet c.compute_read_capabilities p.2 = some cap ∧
        assocGet c₂.compute_read_capabilities p.2 =
          some ((cap.update nt 1).update old (-1))) := by
  intro ps
  induction ps with
  | nil =>
      intro c c₂ batch h
      obtain ⟨rfl, -⟩ : c = c₂ ∧ batch = [] := by
        simpa [downgradeComputeIds] using h
      exact ⟨fun _ _ => rfl, fun _ p hp => absurd hp (List.not_mem_nil p)⟩
  | cons p₀ rest ih =>
      intro c c₂ batch h
      rcases hlow : assocGet c.compute_collections p₀ with _ | lower
      · rw [downgradeComputeIds, show downgradeComputeId c old nt p₀ = none by
          simp [downgradeComputeId, hlow]] at h
        exact absurd h (by simp)
      · by_cases hle : lower.le nt = true
        · rcases hcap : assocGet c.compute_read_capabilities p₀.2 with _ | cap
          · rw [downgradeComputeIds, show downgradeComputeId c old nt p₀ = none by
              simp [downgradeComputeId, hlow, hle, hcap]] at h
            exact absurd h (by simp)
          · set cap₂ := (cap.update nt 1).update old (-1) with hcap₂
            set c₁ : Coordinator := { c with compute_read_capabilities := assocSet c.compute_read_capabilities p₀.2 cap₂ } with hc₁
            have hstep : downgradeComputeId c old nt p₀ = some (c₁, (p₀, cap₂.policy)) := by
              simp [downgradeComputeId, hlow, hle, hcap, hcap₂, hc₁]
            simp only [downgradeComputeIds, hstep] at h
            rcases hrest : downgradeComputeIds c₁ old nt rest with _ | cs
            · simp only [hrest] at h
              exact absurd h (by simp)
            · obtain ⟨c₃, batch₃⟩ := cs
              simp only [hrest] at h
              obtain ⟨rfl, -⟩ : c₃ = c₂ ∧ (p₀, cap₂.policy) :: batch₃ = batch := by
                simpa using h
              obtain ⟨f₁, f₂⟩ := ih _ _ _ hrest
              have hc₁get : ∀ id₂, assocGet c₁.compute_read_capabilities id₂ =
                  if p₀.2 = id₂ then some cap₂ else assocGet c.compute_read_capabilities id₂ := by
                intro id₂
                show assocGet (assocSet c.compute_read_capabilities p₀.2 cap₂) id₂ = _
                rw [assocGet_set]
              constructor
              · intro id₂ hid₂
                have hres : ∀ p ∈ rest, p.2 ≠ id₂ :=
                  fun p hp => hid₂ p (List.mem_cons_of_mem _ hp)
                have hp₀ : p₀.2 ≠ id₂ := hid₂ p₀ (List.mem_cons_self _ _)
                rw [f₁ id₂ hres, hc₁get id₂, if_neg hp₀]
              · intro hnd p hp
                simp only [List.map_cons, List.nodup_cons] at hnd
                rcases List.mem_cons.mp hp with rfl | hr
                · refine ⟨cap, hcap, ?_⟩
                  have hnot : ∀ q ∈ rest, q.2 ≠ p.2 := by
                    intro q hq he
                    exact hnd.1 (he ▸ List.mem_map_of_mem Prod.snd hq)
                  rw [f₁ p.2 hnot, hc₁get p.2, if_pos rfl, hcap₂]
                · obtain ⟨cap₃, hg₁, hg₂⟩ := f₂ hnd.2 p hr
                  have hne : p₀.2 ≠ p.2 := by
                    intro he
                    exact hnd.1 (he ▸ List.mem_map_of_mem Prod.snd hr)
                  rw [hc₁get p.2, if_neg hne] at hg₁
                  exact ⟨cap₃, hg₁, hg₂⟩
        · rw [downgradeComputeIds, show downgradeComputeId c old nt p₀ = none by
            simp [downgradeComputeId, hlow, hle]] at h
          exact absurd h (by simp)

end Coordinator

namespace Coordinator

theorem updateEntry_some_spec (nt₀ : Frontier)
    (st st₂ : HoldsMap × Coordinator × List (Nat × PolicyVal) × List ((Nat × Nat) × PolicyVal))
    (e : Frontier × CollectionIdBundle)
    (h : updateEntry nt₀ st e = some st₂) :
    (st₂.1 = assocUpsert st.1 (e.1.join nt₀) CollectionIdBundle.empty
      (fun b => b.extend e.2)) ∧
    (e.1.join nt₀ = e.1 → st₂.2.1 = st.2.1) ∧
    (∀ id, id ∉ e.2.storage_ids →
      assocGet st₂.2.1.storage_read_capabilities id =
        assocGet st.2.1.storage_read_capabilities id) ∧
    (∀ id, (∀ p ∈ e.2.compute_ids, p.2 ≠ id) →
      assocGet st₂.2.1.compute_read_capabilities id =
        assocGet st.2.1.compute_read_capabilities id) ∧
    (e.1.join nt₀ ≠ e.1 → e.2.storage_ids.Nodup → ∀ id ∈ e.2.storage_ids, ∃ cap,
      assocGet st.2.1.storage_read_capabilities id = some cap ∧
      assocGet st₂.2.1.storage_read_capabilities id =
        some ((cap.update (e.1.join nt₀) 1).update e.1 (-1))) ∧
    (e.1.join nt₀ ≠ e.1 → (e.2.compute_ids.map Prod.snd).Nodup →
      ∀ p ∈ e.2.compute_ids, ∃ cap,
      assocGet st.2.1.compute_read_capabilities p.2 = some cap ∧
      assocGet st₂.2.1.compute_read_capabilities p.2 =
        some ((cap.update (e.1.join nt₀) 1).update e.1 (-1))) := by
  obtain ⟨acc, c, sb, cb⟩ := st
  rw [updateEntry] at h
  by_cases hch : e.1 ≠ e.1.join nt₀
  · rw [if_pos hch] at h
    rcases hs : downgradeStorageIds c e.1 (e.1.join nt₀) e.2.storage_ids with _ | cs
    · rw [hs] at h
      exact absurd h (by simp)
    · obtain ⟨c₁, sb₂⟩ := cs
      simp only [hs] at h
      rcases hcc : downgradeComputeIds c₁ e.1 (e.1.join nt₀) e.2.compute_ids with _ | cc
      · simp only [hcc] at h
        exact absurd h (by simp)
      · obtain ⟨c₂, cb₂⟩ := cc
        simp only [hcc, Option.some.injEq] at h
        subst h
        obtain ⟨s1, s2, s3, s4⟩ := downgradeStorageIds_pres _ _ _ _ _ _ hs
        obtain ⟨t1, t2, t3, t4⟩ := downgradeComputeIds_pres _ _ _ _ _ _ hcc
        obtain ⟨sf, se⟩ := downgradeStorageIds_caps _ _ _ _ _ _ hs
        obtain ⟨cf, ce⟩ := downgradeComputeIds_caps _ _ _ _ _ _ hcc
        refine ⟨rfl, ?_, ?_, ?_, ?_, ?_⟩
        · intro hbad
          exact absurd hbad.symm hch
        · intro id hid
          show assocGet c₂.storage_read_capabilities id = _
          rw [t3]
          exact sf id hid
        · intro id hid
          show assocGet c₂.compute_read_capabilities id = _
          rw [cf id hid, s3]
        · intro _ hnd id hid
          obtain ⟨cap, hg₁, hg₂⟩ := se hnd id hid
          refine ⟨cap, hg₁, ?_⟩
          show assocGet c₂.storage_read_capabilities id = _
          rw [t3]
          exact hg₂
        · intro _ hnd p hp
          obtain ⟨cap, hg₁, hg₂⟩ := ce hnd p hp
          refine ⟨cap, ?_, hg₂⟩
          rw [s3] at hg₁
          exact hg₁
  · rw [if_neg hch] at h
    simp only [Option.some.injEq] at h
    subst h
    have heq : e.1.join nt₀ = e.1 := by
      by_contra hne
      exact hch (Ne.symm hne)
    rw [show assocUpsert acc (e.1.join nt₀) CollectionIdBundle.empty
        (fun b => b.extend e.2) = assocUpsert acc e.1 CollectionIdBundle.empty
        (fun b => b.extend e.2) by rw [heq]]
    refine ⟨rfl, fun _ => rfl, fun _ _ => rfl, fun _ _ => rfl, ?_, ?_⟩
    · intro hbad
      exact absurd heq hbad
    · intro hbad
      exact absurd heq hbad

end Coordinator

namespace Coordinator

theorem updateLoop_some_spec (nt₀ : Frontier) :
    ∀ (entries : HoldsMap)
      (st st₂ : HoldsMap × Coordinator × List (Nat × PolicyVal) × List ((Nat × Nat) × PolicyVal)),
      updateLoop nt₀ st entries = some st₂ →
      (entries.flatMap (fun e => e.2.storage_ids)).Nodup →
      (entries.flatMap (fun e => e.2.compute_ids.map Prod.snd)).Nodup →
      (∀ id, (∀ e ∈ entries, id ∈ e.2.storage_ids → e.1.join nt₀ = e.1) →
        assocGet st₂.2.1.storage_read_capabilities id =
          assocGet st.2.1.storage_read_capabilities id) ∧
      (∀ id, (∀ e ∈ entries, ∀ p ∈ e.2.compute_ids, p.2 = id → e.1.join nt₀ = e.1) →
        assocGet st₂.2.1.compute_read_capabilities id =
          assocGet st.2.1.compute_read_capabilities id) ∧
      (∀ e ∈ entries, e.1.join nt₀ ≠ e.1 → ∀ id ∈ e.2.storage_ids, ∃ cap,
        assocGet st.2.1.storage_read_capabilities id = some cap ∧
        assocGet st₂.2.1.storage_read_capabilities id =
          some ((cap.update (e.1.join nt₀) 1).update e.1 (-1))) ∧
      (∀ e ∈ entries, e.1.join nt₀ ≠ e.1 → ∀ p ∈ e.2.compute_ids, ∃ cap,
        assocGet st.2.1.compute_read_capabilities p.2 = some cap ∧
        assocGet st₂.2.1.compute_read_capabilities p.2 =
          some ((cap.update (e.1.join nt₀) 1).update e.1 (-1))) ∧
      (∀ f x, x ∈ (bundleAt st.1 f).storage_ids → x ∈ (bundleAt st₂.1 f).storage_ids) ∧
      (∀ f p, p ∈ (bundleAt st.1 f).compute_ids → p ∈ (bundleAt st₂.1 f).compute_ids) ∧
      (∀ e ∈ entries, ∀ id ∈ e.2.storage_ids,
        id ∈ (bundleAt st₂.1 (e.1.join nt₀)).storage_ids) ∧
      (∀ e ∈ entries, ∀ p ∈ e.2.compute_ids,
        p ∈ (bundleAt st₂.1 (e.1.join nt₀)).compute_ids) := by
  intro entries
  induction entries with
  | nil =>
      intro st st₂ h _ _
      obtain rfl : st = st₂ := by simpa [updateLoop] using h
      exact ⟨fun _ _ => rfl, fun _ _ => rfl, by simp, by simp,
        fun _ _ hx => hx, fun _ _ hp => hp, by simp, by simp⟩
  | cons e rest ih =>
      intro st st₂ h hnds hndc
      rcases hstep : updateEntry nt₀ st e with _ | st₁
      · simp only [updateLoop, hstep] at h
        exact absurd h (by simp)
      · simp only [updateLoop, hstep] at h
        rw [List.flatMap_cons, List.nodup_append] at hnds hndc
        obtain ⟨hnds₁, hnds₂, hdisjs⟩ := hnds
        obtain ⟨hndc₁, hndc₂, hdisjc⟩ := hndc
        obtain ⟨emap, euc, efs, efc, ees, eec⟩ := updateEntry_some_spec nt₀ st st₁ e hstep
        obtain ⟨r1, r2, r3, r4, r5, r6, r7, r8⟩ := ih st₁ st₂ h hnds₂ hndc₂
        have hstep_s : ∀ id, id ∉ e.2.storage_ids ∨ e.1.join nt₀ = e.1 →
            assocGet st₁.2.1.storage_read_capabilities id =
              assocGet st.2.1.storage_read_capabilities id := by
          rintro id (hid | hunch)
          · exact efs id hid
          · rw [euc hunch]
        have hstep_c : ∀ id, (∀ p ∈ e.2.compute_ids, p.2 ≠ id) ∨ e.1.join nt₀ = e.1 →
            assocGet st₁.2.1.compute_read_capabilities id =
              assocGet st.2.1.compute_read_capabilities id := by
          rintro id (hid | hunch)
          · exact efc id hid
          · rw [euc hunch]
        have hmono_s : ∀ f x, x ∈ (bundleAt st.1 f).storage_ids →
            x ∈ (bundleAt st₁.1 f).storage_ids := by
          intro f x hx
          rw [emap, bundleAt_upsert]
          by_cases hf : e.1.join nt₀ = f
          · rw [if_pos hf]
            rw [← hf] at hx
            exact (mem_extend_storage _ _ _).mpr (Or.inl hx)
          · rw [if_neg hf]
            exact hx
        have hmono_c : ∀ f p, p ∈ (bundleAt st.1 f).compute_ids →
            p ∈ (bundleAt st₁.1 f).compute_ids := by
          intro f p hp
          rw [emap, bundleAt_upsert]
          by_cases hf : e.1.join nt₀ = f
          · rw [if_pos hf]
            rw [← hf] at hp
            exact (mem_extend_compute _ _ _).mpr (Or.inl hp)
          · rw [if_neg hf]
            exact hp
        refine ⟨?_, ?_, ?_, ?_, ?_, ?_, ?_, ?_⟩
        · intro id hcond
          rw [r1 id (fun e₂ he₂ hid => hcond e₂ (List.mem_cons_of_mem _ he₂) hid)]
          by_cases hid : id ∈ e.2.storage_ids
          · exact hstep_s id (Or.inr (hcond e (List.mem_cons_self _ _) hid))
          · exact hstep_s id (Or.inl hid)
        · intro id hcond
          rw [r2 id (fun e₂ he₂ p hp hpid => hcond e₂ (List.mem_cons_of_mem _ he₂) p hp hpid)]
          by_cases hid : ∀ p ∈ e.2.compute_ids, p.2 ≠ id
          · exact hstep_c id (Or.inl hid)
          · push_neg at hid
            obtain ⟨p, hp, hpid⟩ := hid
            exact hstep_c id (Or.inr (hcond e (List.mem_cons_self _ _) p hp hpid))
        · intro e₂ he₂ hch id hid
          rcases List.mem_cons.mp he₂ with rfl | hr
          · obtain ⟨cap, hg₁, hg₂⟩ := ees hch hnds₁ id hid
            refine ⟨cap, hg₁, ?_⟩
            rw [r1 id ?_, hg₂]
            intro e₃ he₃ hid₃
            exact (hdisjs hid (List.mem_flatMap.mpr ⟨e₃, he₃, hid₃⟩)).elim
          · have hnot : id ∉ e.2.storage_ids := by
              intro hin
              exact hdisjs hin (List.mem_flatMap.mpr ⟨e₂, hr, hid⟩)
            obtain ⟨cap, hg₁, hg₂⟩ := r3 e₂ hr hch id hid
            refine ⟨cap, ?_, hg₂⟩
            rw [hstep_s id (Or.inl hnot)] at hg₁
            exact hg₁
        · intro e₂ he₂ hch p hp
          rcases List.mem_cons.mp he₂ with rfl | hr
          · obtain ⟨cap, hg₁, hg₂⟩ := eec hch hndc₁ p hp
            refine ⟨cap, hg₁, ?_⟩
            rw [r2 p.2 ?_, hg₂]
            intro e₃ he₃ q hq hqid
            refine ((hdisjc (List.mem_map_of_mem Prod.snd hp)) ?_).elim
            refine List.mem_flatMap.mpr ⟨e₃, he₃, ?_⟩
            rw [← hqid]
            exact List.mem_map_of_mem Prod.snd hq
          · have hnot : ∀ q ∈ e.2.compute_ids, q.2 ≠ p.2 := by
              intro q hq he
              exact hdisjc (he ▸ List.mem_map_of_mem Prod.snd hq)
                (List.mem_flatMap.mpr ⟨e₂, hr, List.mem_map_of_mem Prod.snd hp⟩)
            obtain ⟨cap, hg₁, hg₂⟩ := r4 e₂ hr hch p hp
            refine ⟨cap, ?_, hg₂⟩
            rw [hstep_c p.2 (Or.inl hnot)] at hg₁
            exact hg₁
        · intro f x hx
          exact r5 f x (hmono_s f x hx)
        · intro f p hp
          exact r6 f p (hmono_c f p hp)
        · intro e₂ he₂ id hid
          rcases List.mem_cons.mp he₂ with rfl | hr
          · refine r5 _ id ?_
            rw [emap, bundleAt_upsert, if_pos rfl]
            exact (mem_extend_storage _ _ _).mpr (Or.inr hid)
          · exact r7 e₂ hr id hid
        · intro e₂ he₂ p hp
          rcases List.mem_cons.mp he₂ with rfl | hr
          · refine r6 _ p ?_
            rw [emap, bundleAt_upsert, if_pos rfl]
            exact (mem_extend_compute _ _ _).mpr (Or.inr hp)
          · exact r8 e₂ hr p hp

end Coordinator

theorem count_update (cap : ReadCapability) (f : Frontier) (δ : Int) (t : Timestamp) :
    (cap.update f δ).count t = cap.count t + (if f = some t then δ else 0) := by
  cases f with
  | none => simp [ReadCapability.update, Frontier.toList, ReadCapability.count]
  | some s =>
      by_cases hs : s = t
      · subst hs
        simp [ReadCapability.update, Frontier.toList, ReadCapability.count,
          List.filter_append, List.sum_append]
      · simp [ReadCapability.update, Frontier.toList, ReadCapability.count,
          List.filter_append, List.sum_append, hs,
          show (some s = some t) = False by simp [hs]]

theorem flatMap_nodup_unique {α β : Type} (f : α → List β) :
    ∀ (l : List α), (l.flatMap f).Nodup →
      ∀ x ∈ l, ∀ y ∈ l, ∀ b, b ∈ f x → b ∈ f y → x = y := by
  intro l
  induction l with
  | nil => intro _ x hx; cases hx
  | cons z rest ih =>
      intro hnd x hx y hy b hbx hby
      rw [List.flatMap_cons, List.nodup_append] at hnd
      obtain ⟨h₁, h₂, hdisj⟩ := hnd
      rcases List.mem_cons.mp hx with rfl | hx₂
      · rcases List.mem_cons.mp hy with rfl | hy₂
        · rfl
        · exact (hdisj hbx (List.mem_flatMap.mpr ⟨y, hy₂, hby⟩)).elim
      · rcases List.mem_cons.mp hy with rfl | hy₂
        · exact (hdisj hby (List.mem_flatMap.mpr ⟨x, hx₂, hbx⟩)).elim
        · exact ih h₂ x hx₂ y hy₂ b hbx hby

/-- C4: on success, `update_read_holds` moves every entry from its old time
to the join of that time with the new time.  Entries whose join equals their
old time cause no capability change for their ids; for moved entries, each
id's capability receives a +1 hold at the joined time and a -1 hold at the
old time (so its net count rises by one at the joined time's element and
falls by one at the old time's element), and the returned map files each id's
bundle under the joined time.  Ids are assumed not duplicated across entries,
the documented invariant of `TimelineReadHolds`. -/
theorem claim_C4_update_moves (c : Coordinator) (rh : TimelineReadHolds)
    (new_time : Timestamp) (rh₂ : TimelineReadHolds) (c₂ : Coordinator)
    (sb : List (Nat × PolicyVal)) (cb : List ((Nat × Nat) × PolicyVal))
    (hupd : Coordinator.update_read_holds c rh new_time = some (rh₂, c₂, sb, cb))
    (hnds : (rh.holds.flatMap (fun e => e.2.storage_ids)).Nodup)
    (hndc : (rh.holds.flatMap (fun e => e.2.compute_ids.map Prod.snd)).Nodup) :
    (∀ e ∈ rh.holds, e.1.join (Frontier.fromElem new_time) = e.1 →
      (∀ id ∈ e.2.storage_ids, assocGet c₂.storage_read_capabilities id =
        assocGet c.storage_read_capabilities id) ∧
      (∀ p ∈ e.2.compute_ids, assocGet c₂.compute_read_capabilities p.2 =
        assocGet c.compute_read_capabilities p.2)) ∧
    (∀ e ∈ rh.holds, e.1.join (Frontier.fromElem new_time) ≠ e.1 →
      (∀ id ∈ e.2.storage_ids, ∃ cap,
        assocGet c.storage_read_capabilities id = some cap ∧
        assocGet c₂.storage_read_capabilities id =
          some ((cap.update (e.1.join (Frontier.fromElem new_time)) 1).update e.1 (-1)) ∧
        (∀ t, ((cap.update (e.1.join (Frontier.fromElem new_time)) 1).update e.1 (-1)).count t =
          cap.count t + (if e.1.join (Frontier.fromElem new_time) = some t then 1 else 0) +
            (if e.1 = some t then -1 else 0))) ∧
      (∀ p ∈ e.2.compute_ids, ∃ cap,
        assocGet c.compute_read_capabilities p.2 = some cap ∧
        assocGet c₂.compute_read_capabilities p.2 =
          some ((cap.update (e.1.join (Frontier.fromElem new_time)) 1).update e.1 (-1)) ∧
        (∀ t, ((cap.update (e.1.join (Frontier.fromElem new_time)) 1).update e.1 (-1)).count t =
          cap.count t + (if e.1.join (Frontier.fromElem new_time) = some t then 1 else 0) +
            (if e.1 = some t then -1 else 0)))) ∧
    (∀ e ∈ rh.holds, ∀ id ∈ e.2.storage_ids,
      id ∈ (bundleAt rh₂.holds (e.1.join (Frontier.fromElem new_time))).storage_ids) ∧
    (∀ e ∈ rh.holds, ∀ p ∈ e.2.compute_ids,
      p ∈ (bundleAt rh₂.holds (e.1.join (Frontier.fromElem new_time))).compute_ids) := by
  rcases hloop : Coordinator.updateLoop (Frontier.fromElem new_time) ([], c, [], [])
      rh.holds with _ | st₂
  · rw [Coordinator.update_read_holds, hloop] at hupd
    exact absurd hupd (by simp)
  · rw [Coordinator.update_read_holds, hloop] at hupd
    simp only [Option.map_some', Option.some.injEq, Prod.mk.injEq] at hupd
    obtain ⟨hh, hc, hsb, hcb⟩ := hupd
    obtain ⟨l1, l2, l3, l4, -, -, l7, l8⟩ :=
      Coordinator.updateLoop_some_spec (Frontier.fromElem new_time) rh.holds
        ([], c, [], []) st₂ hloop hnds hndc
    have hholds : st₂.1 = rh₂.holds := by
      rw [← hh]
    have hcoord : st₂.2.1 = c₂ := hc
    refine ⟨?_, ?_, ?_, ?_⟩
    · intro e he hunch
      constructor
      · intro id hid
        rw [← hcoord]
        refine l1 id ?_
        intro e₂ he₂ hid₂
        rw [flatMap_nodup_unique _ rh.holds hnds e₂ he₂ e he id hid₂ hid]
        exact hunch
      · intro p hp
        rw [← hcoord]
        refine l2 p.2 ?_
        intro e₂ he₂ q hq hqp
        rw [flatMap_nodup_unique _ rh.holds hndc e₂ he₂ e he p.2
          (by rw [← hqp]; exact List.mem_map_of_mem Prod.snd hq)
          (List.mem_map_of_mem Prod.snd hp)]
        exact hunch
    · intro e he hch
      constructor
      · intro id hid
        obtain ⟨cap, hg₁, hg₂⟩ := l3 e he hch id hid
        refine ⟨cap, hg₁, by rw [← hcoord]; exact hg₂, ?_⟩
        intro t
        rw [count_update, count_update]
      · intro p hp
        obtain ⟨cap, hg₁, hg₂⟩ := l4 e he hch p hp
        refine ⟨cap, hg₁, by rw [← hcoord]; exact hg₂, ?_⟩
        intro t
        rw [count_update, count_update]
    · intro e he id hid
      rw [← hholds]
      exact l7 e he id hid
    · intro e he p hp
      rw [← hholds]
      exact l8 e he p hp

/-- C4, witness: the spec §8 downgrade example — a hold at {5} on a
collection with live lower frontier {7}, moved to `join({5},{10}) = {10}`:
+1 at 10, -1 at 5, and the returned map files the id under {10}. -/
theorem claim_C4_witness :
    (Coordinator.update_read_holds
        ⟨[(0, some 7)], [], [(0, ⟨[(5, 1)], ReadPolicy.lagWrites 1⟩)], []⟩
        ⟨[(some 5, ⟨[0], []⟩)]⟩ 10 =
      some (⟨[(some 10, ⟨[0], []⟩)]⟩,
        ⟨[(0, some 7)], [],
          [(0, ⟨[(5, 1), (10, 1), (5, -1)], ReadPolicy.lagWrites 1⟩)], []⟩,
        [(0, (some 10, ReadPolicy.lagWrites 1))], [])) ∧
    (([(some 5, (⟨[0], []⟩ : CollectionIdBundle))].flatMap
        (fun e => e.2.storage_ids)).Nodup) ∧
    (∀ e ∈ ([(some 5, ⟨[0], []⟩)] : HoldsMap),
      e.1.join (Frontier.fromElem 10) ≠ e.1 →
      (∀ id ∈ e.2.storage_ids, ∃ cap,
        assocGet ([(0, ⟨[(5, 1)], ReadPolicy.lagWrites 1⟩)] :
          List (Nat × ReadCapability)) id = some cap ∧
        assocGet ([(0, ⟨[(5, 1), (10, 1), (5, -1)], ReadPolicy.lagWrites 1⟩)] :
          List (Nat × ReadCapability)) id =
          some ((cap.update (e.1.join (Frontier.fromElem 10)) 1).update e.1 (-1)) ∧
        (∀ t, ((cap.update (e.1.join (Frontier.fromElem 10)) 1).update e.1 (-1)).count t =
          cap.count t + (if e.1.join (Frontier.fromElem 10) = some t then 1 else 0) +
            (if e.1 = some t then -1 else 0))) ∧
      (∀ p ∈ e.2.compute_ids, ∃ cap,
        assocGet ([] : List (Nat × ReadCapability)) p.2 = some cap ∧
        assocGet ([] : List (Nat × ReadCapability)) p.2 =
          some ((cap.update (e.1.join (Frontier.fromElem 10)) 1).update e.1 (-1)) ∧
        (∀ t, ((cap.update (e.1.join (Frontier.fromElem 10)) 1).update e.1 (-1)).count t =
          cap.count t + (if e.1.join (Frontier.fromElem 10) = some t then 1 else 0) +
            (if e.1 = some t then -1 else 0)))) ∧
    (∀ e ∈ ([(some 5, ⟨[0], []⟩)] : HoldsMap), ∀ id ∈ e.2.storage_ids,
      id ∈ (bundleAt [(some 10, ⟨[0], []⟩)]
        (e.1.join (Frontier.fromElem 10))).storage_ids) := by
  have h := claim_C4_update_moves
    ⟨[(0, some 7)], [], [(0, ⟨[(5, 1)], ReadPolicy.lagWrites 1⟩)], []⟩
    ⟨[(some 5, ⟨[0], []⟩)]⟩ 10
    ⟨[(some 10, ⟨[0], []⟩)]⟩
    ⟨[(0, some 7)], [], [(0, ⟨[(5, 1), (10, 1), (5, -1)], ReadPolicy.lagWrites 1⟩)], []⟩
    [(0, (some 10, ReadPolicy.lagWrites 1))] [] rfl (by decide) (by decide)
  exact ⟨rfl, by decide, h.2.1, h.2.2.1⟩

namespace Coordinator

theorem releaseStoragePairs_spec :
    ∀ (pairs : List (Frontier × Nat)) (c c₂ : Coordinator)
      (batch : List (Nat × PolicyVal)),
      releaseStoragePairs c pairs = (c₂, batch) →
      c₂.storage_collections = c.storage_collections ∧
      c₂.compute_collections = c.compute_collections ∧
      c₂.compute_read_capabilities = c.compute_read_capabilities ∧
      (∀ id, (∀ fp ∈ pairs, fp.2 ≠ id) →
        assocGet c₂.storage_read_capabilities id =
          assocGet c.storage_read_capabilities id) ∧
      (∀ pv ∈ batch, pv.1 ∈ pairs.map Prod.snd) ∧
      ((pairs.map Prod.snd).Nodup → ∀ fp ∈ pairs,
        (assocGet c.storage_read_capabilities fp.2 = none →
          assocGet c₂.storage_read_capabilities fp.2 = none ∧
          ∀ pv ∈ batch, pv.1 ≠ fp.2) ∧
        (∀ cap, assocGet c.storage_read_capabilities fp.2 = some cap →
          assocGet c₂.storage_read_capabilities fp.2 = some (cap.update fp.1 (-1)) ∧
          (fp.2, (cap.update fp.1 (-1)).policy) ∈ batch)) := by
  intro pairs
  induction pairs with
  | nil =>
      intro c c₂ batch h
      obtain ⟨rfl, rfl⟩ : c = c₂ ∧ [] = batch := by
        simpa [releaseStoragePairs] using h
      exact ⟨rfl, rfl, rfl, fun _ _ => rfl, by simp, fun _ fp hfp => absurd hfp (by simp)⟩
  | cons fp₀ rest ih =>
      intro c c₂ batch h
      obtain ⟨f₀, id₀⟩ := fp₀
      rcases hcap : assocGet c.storage_read_capabilities id₀ with _ | cap₀
      · rw [releaseStoragePairs, hcap] at h
        obtain ⟨p1, p2, p3, p4, p5, p6⟩ := ih c c₂ batch h
        refine ⟨p1, p2, p3, ?_, ?_, ?_⟩
        · intro id hid
          exact p4 id (fun fp hfp => hid fp (List.mem_cons_of_mem _ hfp))
        · intro pv hpv
          exact List.mem_cons_of_mem _ (p5 pv hpv)
        · intro hnd fp hfp
          simp only [List.map_cons, List.nodup_cons] at hnd
          rcases List.mem_cons.mp hfp with heq | hr
          · subst heq
            constructor
            · intro _
              have hnf : ∀ fq ∈ rest, fq.2 ≠ id₀ := by
                intro fq hfq he
                exact hnd.1 (he ▸ List.mem_map_of_mem Prod.snd hfq)
              refine ⟨by rw [p4 id₀ hnf]; exact hcap, ?_⟩
              intro pv hpv he
              apply hnd.1
              have he₂ : pv.1 = id₀ := he
              rw [← he₂]
              exact p5 pv hpv
            · intro cap hbad
              rw [hcap] at hbad
              cases hbad
          · exact p6 hnd.2 fp hr
      · set cap₂ := cap₀.update f₀ (-1) with hcap₂
        set c₁ : Coordinator := { c with storage_read_capabilities := assocSet c.storage_read_capabilities id₀ cap₂ } with hc₁
        rcases hrec : releaseStoragePairs c₁ rest with ⟨c₃, batch₃⟩
        have hform : releaseStoragePairs c ((f₀, id₀) :: rest) =
            (c₃, (id₀, cap₂.policy) :: batch₃) := by
          simp only [releaseStoragePairs, hcap]
          simp only [← hcap₂, ← hc₁]
          rw [hrec]
        rw [hform] at h
        obtain ⟨rfl, rfl⟩ : c₃ = c₂ ∧ (id₀, cap₂.policy) :: batch₃ = batch := by
          simpa using h
        obtain ⟨p1, p2, p3, p4, p5, p6⟩ := ih c₁ _ _ hrec
        have hc₁get : ∀ id₂, assocGet c₁.storage_read_capabilities id₂ =
            if id₀ = id₂ then some cap₂ else assocGet c.storage_read_capabilities id₂ := by
          intro id₂
          show assocGet (assocSet c.storage_read_capabilities id₀ cap₂) id₂ = _
          rw [assocGet_set]
        refine ⟨p1, p2, p3, ?_, ?_, ?_⟩
        · intro id hid
          have hne : id₀ ≠ id := hid (f₀, id₀) (List.mem_cons_self _ _)
          rw [p4 id (fun fq hfq => hid fq (List.mem_cons_of_mem _ hfq)),
            hc₁get id, if_neg hne]
        · intro pv hpv
          rcases List.mem_cons.mp hpv with heq | hr
          · subst heq
            exact List.mem_cons_self _ _
          · exact List.mem_cons_of_mem _ (p5 pv hr)
        · intro hnd fp hfp
          simp only [List.map_cons, List.nodup_cons] at hnd
          rcases List.mem_cons.mp hfp with heq | hr
          · subst heq
            constructor
            · intro hbad
              rw [hcap] at hbad
              cases hbad
            · intro cap hcapeq
              rw [hcap] at hcapeq
              obtain rfl : cap₀ = cap := by injection hcapeq
              have hnf : ∀ fq ∈ rest, fq.2 ≠ id₀ := by
                intro fq hfq he
                exact hnd.1 (he ▸ List.mem_map_of_mem Prod.snd hfq)
              refine ⟨?_, List.mem_cons_self _ _⟩
              rw [p4 id₀ hnf, hc₁get id₀, if_pos rfl, hcap₂]
          · have hne : id₀ ≠ fp.2 := by
              intro he
              exact hnd.1 (he ▸ List.mem_map_of_mem Prod.snd hr)
            obtain ⟨q1, q2⟩ := p6 hnd.2 fp hr
            constructor
            · intro habs
              have habs₁ : assocGet c₁.storage_read_capabilities fp.2 = none := by
                rw [hc₁get fp.2, if_neg hne]
                exact habs
              obtain ⟨r1, r2⟩ := q1 habs₁
              refine ⟨r1, ?_⟩
              intro pv hpv
              rcases List.mem_cons.mp hpv with heq | hrr
              · subst heq
                exact fun he => hne he
              · exact r2 pv hrr
            · intro cap hcapeq
              have hcap₁ : assocGet c₁.storage_read_capabilities fp.2 = some cap := by
                rw [hc₁get fp.2, if_neg hne]
                exact hcapeq
              obtain ⟨r1, r2⟩ := q2 cap hcap₁
              exact ⟨r1, List.mem_cons_of_mem _ r2⟩

theorem releaseComputePairs_spec :
    ∀ (pairs : List (Nat × Frontier × Nat)) (c c₂ : Coordinator)
      (batch : List ((Nat × Nat) × PolicyVal)),
      releaseComputePairs c pairs = (c₂, batch) →
      c₂.storage_collections = c.storage_collections ∧
      c₂.compute_collections = c.compute_collections ∧
      c₂.storage_read_capabilities = c.storage_read_capabilities ∧
      (∀ id, (∀ fp ∈ pairs, fp.2.2 ≠ id) →
        assocGet c₂.compute_read_capabilities id =
          assocGet c.compute_read_capabilities id) ∧
      (∀ pv ∈ batch, pv.1.2 ∈ pairs.map (fun q => q.2.2)) ∧
      ((pairs.map (fun q => q.2.2)).Nodup → ∀ fp ∈ pairs,
        (assocGet c.compute_read_capabilities fp.2.2 = none →
          assocGet c₂.compute_read_capabilities fp.2.2 = none ∧
          ∀ pv ∈ batch, pv.1.2 ≠ fp.2.2) ∧
        (∀ cap, assocGet c.compute_read_capabilities fp.2.2 = some cap →
          assocGet c₂.compute_read_capabilities fp.2.2 = some (cap.update fp.2.1 (-1)) ∧
          ((fp.1, fp.2.2), (cap.update fp.2.1 (-1)).policy) ∈ batch)) := by
  intro pairs
  induction pairs with
  | nil =>
      intro c c₂ batch h
      obtain ⟨rfl, rfl⟩ : c = c₂ ∧ [] = batch := by
        simpa [releaseComputePairs] using h
      exact ⟨rfl, rfl, rfl, fun _ _ => rfl, by simp, fun _ fp hfp => absurd hfp (by simp)⟩
  | cons fp₀ rest ih =>
      intro c c₂ batch h
      obtain ⟨i₀, f₀, id₀⟩ := fp₀
      rcases hcap : assocGet c.compute_read_capabilities id₀ with _ | cap₀
      · rw [releaseComputePairs, hcap] at h
        obtain ⟨p1, p2, p3, p4, p5, p6⟩ := ih c c₂ batch h
        refine ⟨p1, p2, p3, ?_, ?_, ?_⟩
        · intro id hid
          exact p4 id (fun fp hfp => hid fp (List.mem_cons_of_mem _ hfp))
        · intro pv hpv
          exact List.mem_cons_of_mem _ (p5 pv hpv)
        · intro hnd fp hfp
          simp only [List.map_cons, List.nodup_cons] at hnd
          rcases List.mem_cons.mp hfp with heq | hr
          · subst heq
            constructor
            · intro _
              have hnf : ∀ fq ∈ rest, fq.2.2 ≠ id₀ := by
                intro fq hfq he
                exact hnd.1 (he ▸ List.mem_map_of_mem (fun q => q.2.2) hfq)
              refine ⟨by rw [p4 id₀ hnf]; exact hcap, ?_⟩
              intro pv hpv he
              apply hnd.1
              have he₂ : pv.1.2 = id₀ := he
              rw [← he₂]
              exact p5 pv hpv
            · intro cap hbad
              rw [hcap] at hbad
              cases hbad
          · exact p6 hnd.2 fp hr
      · set cap₂ := cap₀.update f₀ (-1) with hcap₂
        set c₁ : Coordinator := { c with compute_read_capabilities := assocSet c.compute_read_capabilities id₀ cap₂ } with hc₁
        rcases hrec : releaseComputePairs c₁ rest with ⟨c₃, batch₃⟩
        have hform : releaseComputePairs c ((i₀, f₀, id₀) :: rest) =
            (c₃, ((i₀, id₀), cap₂.policy) :: batch₃) := by
          simp only [releaseComputePairs, hcap]
          simp only [← hcap₂, ← hc₁]
          rw [hrec]
        rw [hform] at h
        obtain ⟨rfl, rfl⟩ : c₃ = c₂ ∧ ((i₀, id₀), cap₂.policy) :: batch₃ = batch := by
          simpa using h
        obtain ⟨p1, p2, p3, p4, p5, p6⟩ := ih c₁ _ _ hrec
        have hc₁get : ∀ id₂, assocGet c₁.compute_read_capabilities id₂ =
            if id₀ = id₂ then some cap₂ else assocGet c.compute_read_capabilities id₂ := by
          intro id₂
          show assocGet (assocSet c.compute_read_capabilities id₀ cap₂) id₂ = _
          rw [assocGet_set]
        refine ⟨p1, p2, p3, ?_, ?_, ?_⟩
        · intro id hid
          have hne : id₀ ≠ id := hid (i₀, f₀, id₀) (List.mem_cons_self _ _)
          rw [p4 id (fun fq hfq => hid fq (List.mem_cons_of_mem _ hfq)),
            hc₁get id, if_neg hne]
        · intro pv hpv
          rcases List.mem_cons.mp hpv with heq | hr
          · subst heq
            exact List.mem_cons_self _ _
          · exact List.mem_cons_of_mem _ (p5 pv hr)
        · intro hnd fp hfp
          simp only [List.map_cons, List.nodup_cons] at hnd
          rcases List.mem_cons.mp hfp with heq | hr
          · subst heq
            constructor
            · intro hbad
              rw [hcap] at hbad
              cases hbad
            · intro cap hcapeq
              rw [hcap] at hcapeq
              obtain rfl : cap₀ = cap := by injection hcapeq
              have hnf : ∀ fq ∈ rest, fq.2.2 ≠ id₀ := by
                intro fq hfq he
                exact hnd.1 (he ▸ List.mem_map_of_mem (fun q => q.2.2) hfq)
              refine ⟨?_, List.mem_cons_self _ _⟩
              rw [p4 id₀ hnf, hc₁get id₀, if_pos rfl, hcap₂]
          · have hne : id₀ ≠ fp.2.2 := by
              intro he
              exact hnd.1 (he ▸ List.mem_map_of_mem (fun q => q.2.2) hr)
            obtain ⟨q1, q2⟩ := p6 hnd.2 fp hr
            constructor
            · intro habs
              have habs₁ : assocGet c₁.compute_read_capabilities fp.2.2 = none := by
                rw [hc₁get fp.2.2, if_neg hne]
                exact habs
              obtain ⟨r1, r2⟩ := q1 habs₁
              refine ⟨r1, ?_⟩
              intro pv hpv
              rcases List.mem_cons.mp hpv with heq | hrr
              · subst heq
                exact fun he => hne he
              · exact r2 pv hrr
            · intro cap hcapeq
              have hcap₁ : assocGet c₁.compute_read_capabilities fp.2.2 = some cap := by
                rw [hc₁get fp.2.2, if_neg hne]
                exact hcapeq
              obtain ⟨r1, r2⟩ := q2 cap hcap₁
              exact ⟨r1, List.mem_cons_of_mem _ r2⟩

end Coordinator

/-- C5: for every (frontier, id) pair of the released hold sets, if the id's
`ReadCapability` has already been removed (a concurrent drop), the release of
that id is skipped silently — the capability table keeps no entry for it and
no policy for it enters the pushed batch — and otherwise the id's hold count
at that frontier is decremented by exactly one and the recomputed policy is
included in the batch pushed to the controller.  Ids not released at all keep
their capabilities unchanged.  Ids are assumed not duplicated across the
released pairs, as holds produced by a single acquisition satisfy. -/
theorem claim_C5_release (c : Coordinator) (read_holdses : List ReadHoldsInner)
    (c₂ : Coordinator) (sb : List (Nat × PolicyVal))
    (cb : List ((Nat × Nat) × PolicyVal))
    (hrel : Coordinator.release_read_holds c read_holdses = (c₂, sb, cb))
    (hnds : ((read_holdses.flatMap (fun r => ReadHoldsInner.storagePairs r.holds)).map
      Prod.snd).Nodup)
    (hndc : ((read_holdses.flatMap (fun r => ReadHoldsInner.computePairs r.holds)).map
      (fun q => q.2.2)).Nodup) :
    (∀ fp ∈ read_holdses.flatMap (fun r => ReadHoldsInner.storagePairs r.holds),
      (assocGet c.storage_read_capabilities fp.2 = none →
        assocGet c₂.storage_read_capabilities fp.2 = none ∧
        ∀ pv ∈ sb, pv.1 ≠ fp.2) ∧
      (∀ cap, assocGet c.storage_read_capabilities fp.2 = some cap →
        assocGet c₂.storage_read_capabilities fp.2 = some (cap.update fp.1 (-1)) ∧
        (∀ t, (cap.update fp.1 (-1)).count t =
          cap.count t + (if fp.1 = some t then -1 else 0)) ∧
        (fp.2, (cap.update fp.1 (-1)).policy) ∈ sb)) ∧
    (∀ fp ∈ read_holdses.flatMap (fun r => ReadHoldsInner.computePairs r.holds),
      (assocGet c.compute_read_capabilities fp.2.2 = none →
        assocGet c₂.compute_read_capabilities fp.2.2 = none ∧
        ∀ pv ∈ cb, pv.1.2 ≠ fp.2.2) ∧
      (∀ cap, assocGet c.compute_read_capabilities fp.2.2 = some cap →
        assocGet c₂.compute_read_capabilities fp.2.2 = some (cap.update fp.2.1 (-1)) ∧
        (∀ t, (cap.update fp.2.1 (-1)).count t =
          cap.count t + (if fp.2.1 = some t then -1 else 0)) ∧
        ((fp.1, fp.2.2), (cap.update fp.2.1 (-1)).policy) ∈ cb)) ∧
    (∀ id, (∀ fp ∈ read_holdses.flatMap (fun r => ReadHoldsInner.storagePairs r.holds),
        fp.2 ≠ id) →
      assocGet c₂.storage_read_capabilities id =
        assocGet c.storage_read_capabilities id) ∧
    (∀ id, (∀ fp ∈ read_holdses.flatMap (fun r => ReadHoldsInner.computePairs r.holds),
        fp.2.2 ≠ id) →
      assocGet c₂.compute_read_capabilities id =
        assocGet c.compute_read_capabilities id) := by
  rcases hs : Coordinator.releaseStoragePairs c
      (read_holdses.flatMap (fun r => ReadHoldsInner.storagePairs r.holds)) with ⟨c₁, sb₁⟩
  rcases hc : Coordinator.releaseComputePairs c₁
      (read_holdses.flatMap (fun r => ReadHoldsInner.computePairs r.holds)) with ⟨c₃, cb₁⟩
  have hrel₂ : c₃ = c₂ ∧ sb₁ = sb ∧ cb₁ = cb := by
    rw [Coordinator.release_read_holds] at hrel
    rw [hs] at hrel
    simp only [hc] at hrel
    exact ⟨congrArg Prod.fst hrel,
      congrArg (fun q => q.2.1) hrel, congrArg (fun q => q.2.2) hrel⟩
  obtain ⟨rfl, rfl, rfl⟩ := hrel₂
  obtain ⟨s1, s2, s3, s4, s5, s6⟩ := Coordinator.releaseStoragePairs_spec _ _ _ _ hs
  obtain ⟨t1, t2, t3, t4, t5, t6⟩ := Coordinator.releaseComputePairs_spec _ _ _ _ hc
  refine ⟨?_, ?_, ?_, ?_⟩
  · intro fp hfp
    obtain ⟨q1, q2⟩ := s6 hnds fp hfp
    constructor
    · intro habs
      obtain ⟨r1, r2⟩ := q1 habs
      exact ⟨by rw [t3]; exact r1, r2⟩
    · intro cap hcap
      obtain ⟨r1, r2⟩ := q2 cap hcap
      refine ⟨by rw [t3]; exact r1, ?_, r2⟩
      intro t
      rw [count_update]
  · intro fp hfp
    have hcaps : ∀ id, assocGet c₁.compute_read_capabilities id =
        assocGet c.compute_read_capabilities id := by
      intro id
      rw [s3]
    obtain ⟨q1, q2⟩ := t6 hndc fp hfp
    constructor
    · intro habs
      exact q1 (by rw [hcaps]; exact habs)
    · intro cap hcap
      obtain ⟨r1, r2⟩ := q2 cap (by rw [hcaps]; exact hcap)
      refine ⟨r1, ?_, r2⟩
      intro t
      rw [count_update]
  · intro id hid
    rw [t3, s4 id hid]
  · intro id hid
    rw [t4 id hid, s3]

/-- C5, witness: releasing one hold set with two ids at frontier {8}; id 0
has a capability (hold count 1 at 8), id 1's capability was already removed
by a concurrent drop.  Id 0 is decremented and batched, id 1 is skipped. -/
theorem claim_C5_witness :
    (Coordinator.release_read_holds ⟨[], [], [(0, ⟨[(8, 1)], ReadPolicy.lagWrites 2⟩)], []⟩
        [⟨[(some 8, ⟨[0, 1], []⟩)]⟩] =
      (⟨[], [], [(0, ⟨[(8, 1), (8, -1)], ReadPolicy.lagWrites 2⟩)], []⟩,
        [(0, (Option.none, ReadPolicy.lagWrites 2))], [])) ∧
    (∀ fp ∈ ([⟨[(some 8, ⟨[0, 1], []⟩)]⟩] : List ReadHoldsInner).flatMap
        (fun r => ReadHoldsInner.storagePairs r.holds),
      (assocGet ([(0, ⟨[(8, 1)], ReadPolicy.lagWrites 2⟩)] :
          List (Nat × ReadCapability)) fp.2 = none →
        assocGet ([(0, ⟨[(8, 1), (8, -1)], ReadPolicy.lagWrites 2⟩)] :
          List (Nat × ReadCapability)) fp.2 = none ∧
        ∀ pv ∈ ([(0, (Option.none, ReadPolicy.lagWrites 2))] :
          List (Nat × PolicyVal)), pv.1 ≠ fp.2) ∧
      (∀ cap, assocGet ([(0, ⟨[(8, 1)], ReadPolicy.lagWrites 2⟩)] :
          List (Nat × ReadCapability)) fp.2 = some cap →
        assocGet ([(0, ⟨[(8, 1), (8, -1)], ReadPolicy.lagWrites 2⟩)] :
          List (Nat × ReadCapability)) fp.2 = some (cap.update fp.1 (-1)) ∧
        (∀ t, (cap.update fp.1 (-1)).count t =
          cap.count t + (if fp.1 = some t then -1 else 0)) ∧
        (fp.2, (cap.update fp.1 (-1)).policy) ∈
          ([(0, (Option.none, ReadPolicy.lagWrites 2))] : List (Nat × PolicyVal)))) := by
  have h := claim_C5_release
    ⟨[], [], [(0, ⟨[(8, 1)], ReadPolicy.lagWrites 2⟩)], []⟩
    [⟨[(some 8, ⟨[0, 1], []⟩)]⟩]
    ⟨[], [], [(0, ⟨[(8, 1), (8, -1)], ReadPolicy.lagWrites 2⟩)], []⟩
    [(0, (Option.none, ReadPolicy.lagWrites 2))] [] rfl (by decide) (by decide)
  exact ⟨rfl, h.1⟩

theorem min?_congr (l₁ l₂ : List Nat) (h : ∀ a, a ∈ l₁ ↔ a ∈ l₂) :
    l₁.min? = l₂.min? := by
  rcases h₁ : l₁.min? with _ | a
  · rcases h₂ : l₂.min? with _ | b
    · rfl
    · obtain ⟨hb, -⟩ := List.min?_eq_some_iff'.mp h₂
      rw [List.min?_eq_none_iff] at h₁
      rw [h₁] at h
      exact absurd ((h b).mpr hb) (List.not_mem_nil b)
  · obtain ⟨ha, hmin⟩ := List.min?_eq_some_iff'.mp h₁
    exact (List.min?_eq_some_iff'.mpr
      ⟨(h a).mp ha, fun b hb => hmin b ((h b).mpr hb)⟩).symm

theorem mem_of_count_ne (cap : ReadCapability) (t : Timestamp)
    (h : cap.count t ≠ 0) : t ∈ cap.holds.map Prod.fst := by
  by_contra hmem
  apply h
  have : cap.holds.filter (fun p => decide (p.1 = t)) = [] := by
    rw [List.filter_eq_nil_iff]
    intro p hp
    simp only [decide_eq_true_eq]
    intro he
    exact hmem (he ▸ List.mem_map_of_mem Prod.fst hp)
  rw [ReadCapability.count, this]
  rfl

theorem holdsFrontier_congr (a b : ReadCapability)
    (h : ∀ t, a.count t = b.count t) : a.holdsFrontier = b.holdsFrontier := by
  rw [ReadCapability.holdsFrontier, ReadCapability.holdsFrontier]
  apply min?_congr
  intro t
  constructor
  · intro ht
    obtain ⟨-, hpos⟩ := List.mem_filter.mp ht
    simp only [decide_eq_true_eq] at hpos
    rw [h t] at hpos
    refine List.mem_filter.mpr ⟨?_, by simpa using hpos⟩
    exact mem_of_count_ne b t (by omega)
  · intro ht
    obtain ⟨-, hpos⟩ := List.mem_filter.mp ht
    simp only [decide_eq_true_eq] at hpos
    rw [← h t] at hpos
    refine List.mem_filter.mpr ⟨?_, by simpa using hpos⟩
    exact mem_of_count_ne a t (by omega)

theorem policy_congr (a b : ReadCapability)
    (hc : ∀ t, a.count t = b.count t) (hb : a.base_policy = b.base_policy) :
    a.policy = b.policy := by
  rw [ReadCapability.policy, ReadCapability.policy, holdsFrontier_congr a b hc, hb]

theorem nodup_map_mem_inj {α β : Type} (f : α → β) :
    ∀ (L : List α), (L.map f).Nodup →
      ∀ a ∈ L, ∀ b ∈ L, f a = f b → a = b := by
  intro L
  induction L with
  | nil => intro _ a ha; cases ha
  | cons z rest ih =>
      intro hnd a ha b hb hfab
      simp only [List.map_cons, List.nodup_cons] at hnd
      rcases List.mem_cons.mp ha with rfl | ha₂
      · rcases List.mem_cons.mp hb with rfl | hb₂
        · rfl
        · exact absurd (by rw [hfab]; exact List.mem_map_of_mem f hb₂) hnd.1
      · rcases List.mem_cons.mp hb with rfl | hb₂
        · exact absurd (by rw [← hfab]; exact List.mem_map_of_mem f ha₂) hnd.1
        · exact ih hnd.2 a ha₂ b hb₂ hfab

theorem nodup_map_of_sub {α β : Type} (f : α → β) (l L : List α)
    (hl : l.Nodup) (hsub : ∀ a ∈ l, a ∈ L) (hL : (L.map f).Nodup) :
    (l.map f).Nodup := by
  induction l with
  | nil => simp
  | cons a tl ih =>
      simp only [List.nodup_cons] at hl
      simp only [List.map_cons, List.nodup_cons]
      refine ⟨?_, ih hl.2 (fun x hx => hsub x (List.mem_cons_of_mem _ hx))⟩
      intro hmem
      obtain ⟨b, hb, hfb⟩ := List.mem_map.mp hmem
      have : a = b := nodup_map_mem_inj f L hL a
        (hsub a (List.mem_cons_self _ _)) b
        (hsub b (List.mem_cons_of_mem _ hb)) hfb.symm
      exact hl.1 (this ▸ hb)

theorem assocGet_of_mem_nodup {κ α : Type} [DecidableEq κ] :
    ∀ (m : List (κ × α)), (m.map Prod.fst).Nodup →
      ∀ k v, (k, v) ∈ m → assocGet m k = some v := by
  intro m
  induction m with
  | nil => intro _ k v hv; cases hv
  | cons hd tl ih =>
      intro hnd k v hv
      simp only [List.map_cons, List.nodup_cons] at hnd
      rcases List.mem_cons.mp hv with heq | hr
      · rw [← heq]
        simp [assocGet]
      · rw [assocGet]
        by_cases hk : hd.1 = k
        · exact absurd (hk ▸ List.mem_map_of_mem Prod.fst hr) (by simpa [hk] using hnd.1)
        · rw [if_neg hk]
          exact ih hnd.2 k v hr

theorem insertSet_nodup (l : List Nat) (x : Nat) (h : l.Nodup) :
    (insertSet l x).Nodup := by
  by_cases hm : x ∈ l
  · simpa [insertSet, hm] using h
  · simp [insertSet, hm, List.nodup_append, h]

theorem insertSetP_nodup (l : List (Nat × Nat)) (x : Nat × Nat) (h : l.Nodup) :
    (insertSetP l x).Nodup := by
  by_cases hm : x ∈ l
  · simpa [insertSetP, hm] using h
  · simp [insertSetP, hm, List.nodup_append, h]

theorem assocUpsert_forall {κ α : Type} [DecidableEq κ] (P : α → Prop) :
    ∀ (m : List (κ × α)) (k : κ) (d : α) (g : α → α),
      (∀ kv ∈ m, P kv.2) → (∀ v, P v → P (g v)) → P (g d) →
      ∀ kv ∈ assocUpsert m k d g, P kv.2 := by
  intro m
  induction m with
  | nil =>
      intro k d g _ _ hd kv hkv
      simp only [assocUpsert, List.mem_singleton] at hkv
      rw [hkv]
      exact hd
  | cons hd₀ tl ih =>
      intro k d g hm hg hd kv hkv
      obtain ⟨k₁, v₁⟩ := hd₀
      by_cases hk : k₁ = k
      · subst hk
        simp only [assocUpsert, eq_self_iff_true, if_true] at hkv
        rcases List.mem_cons.mp hkv with heq | hr
        · rw [heq]
          exact hg v₁ (hm (k₁, v₁) (List.mem_cons_self _ _))
        · exact hm kv (List.mem_cons_of_mem _ hr)
      · simp only [assocUpsert, if_neg hk] at hkv
        rcases List.mem_cons.mp hkv with heq | hr
        · rw [heq]
          exact hm (k₁, v₁) (List.mem_cons_self _ _)
        · exact ih k d g (fun q hq => hm q (List.mem_cons_of_mem _ hq)) hg hd kv hr

namespace Coordinator

theorem applyStorageHold_spec (c : Coordinator) (f : Frontier) (id : Nat)
    (c₂ : Coordinator) (pe : Nat × PolicyVal)
    (h : applyStorageHold c f id = some (c₂, pe)) :
    c₂.storage_collections = c.storage_collections ∧
    c₂.compute_collections = c.compute_collections ∧
    c₂.compute_read_capabilities = c.compute_read_capabilities ∧
    (∀ id₂, id₂ ≠ id → assocGet c₂.storage_read_capabilities id₂ =
      assocGet c.storage_read_capabilities id₂) ∧
    (∀ cap, assocGet c.storage_read_capabilities id = some cap →
      assocGet c₂.storage_read_capabilities id = some (cap.update f 1)) := by
  rcases hcap : assocGet c.storage_read_capabilities id with _ | cap₀
  · rcases hlow : assocGet c.storage_collections id with _ | lower
    · rw [applyStorageHold, show ensure_storage_capability c id none = none by
        simp [ensure_storage_capability, hcap, hlow]] at h
      exact absurd h (by simp)
    · set c₁ : Coordinator := { c with storage_read_capabilities := assocSet c.storage_read_capabilities id (ReadCapability.ofPolicy (ReadPolicy.validFrom lower)) } with hc₁
      have hens : ensure_storage_capability c id none = some c₁ := by
        simp [ensure_storage_capability, hcap, hlow, hc₁]
      have hget₁ : assocGet c₁.storage_read_capabilities id =
          some (ReadCapability.ofPolicy (ReadPolicy.validFrom lower)) := by
        show assocGet (assocSet c.storage_read_capabilities id _) id = _
        rw [assocGet_set, if_pos rfl]
      rw [applyStorageHold] at h
      simp only [hens, hget₁] at h
      simp only [Option.some.injEq, Prod.mk.injEq] at h
      obtain ⟨rfl, -⟩ := h
      refine ⟨rfl, rfl, rfl, ?_, ?_⟩
      · intro id₂ hne
        show assocGet (assocSet c₁.storage_read_capabilities id _) id₂ = _
        rw [assocGet_set, if_neg (fun he => hne he.symm), hc₁]
        show assocGet (assocSet c.storage_read_capabilities id _) id₂ = _
        rw [assocGet_set, if_neg (fun he => hne he.symm)]
      · intro cap hbad
        cases hbad
  · have hens : ensure_storage_capability c id none = some c := by
      simp [ensure_storage_capability, hcap]
    rw [applyStorageHold] at h
    simp only [hens, hcap] at h
    simp only [Option.some.injEq, Prod.mk.injEq] at h
    obtain ⟨rfl, -⟩ := h
    refine ⟨rfl, rfl, rfl, ?_, ?_⟩
    · intro id₂ hne
      show assocGet (assocSet c.storage_read_capabilities id _) id₂ = _
      rw [assocGet_set, if_neg (fun he => hne he.symm)]
    · intro cap hcapeq
      obtain rfl : cap₀ = cap := by injection hcapeq
      show assocGet (assocSet c.storage_read_capabilities id _) id = _
      rw [assocGet_set, if_pos rfl]

theorem applyComputeHold_spec (c : Coordinator) (i : Nat) (f : Frontier) (id : Nat)
    (c₂ : Coordinator) (pe : (Nat × Nat) × PolicyVal)
    (h : applyComputeHold c i f id = some (c₂, pe)) :
    c₂.storage_collections = c.storage_collections ∧
    c₂.compute_collections = c.compute_collections ∧
    c₂.storage_read_capabilities = c.storage_read_capabilities ∧
    (∀ id₂, id₂ ≠ id → assocGet c₂.compute_read_capabilities id₂ =
      assocGet c.compute_read_capabilities id₂) ∧
    (∀ cap, assocGet c.compute_read_capabilities id = some cap →
      assocGet c₂.compute_read_capabilities id = some (cap.update f 1)) := by
  rcases hcap : assocGet c.compute_read_capabilities id with _ | cap₀
  · rcases hlow : assocGet c.compute_collections (i, id) with _ | lower
    · rw [applyComputeHold, show ensure_compute_capability c i id none = none by
        simp [ensure_compute_capability, hcap, hlow]] at h
      exact absurd h (by simp)
    · set c₁ : Coordinator := { c with compute_read_capabilities := assocSet c.compute_read_capabilities id (ReadCapability.ofPolicy (ReadPolicy.validFrom lower)) } with hc₁
      have hens : ensure_compute_capability c i id none = some c₁ := by
        simp [ensure_compute_capability, hcap, hlow, hc₁]
      have hget₁ : assocGet c₁.compute_read_capabilities id =
          some (ReadCapability.ofPolicy (ReadPolicy.validFrom lower)) := by
        show assocGet (assocSet c.compute_read_capabilities id _) id = _
        rw [assocGet_set, if_pos rfl]
      rw [applyComputeHold] at h
      simp only [hens, hget₁] at h
      simp only [Option.some.injEq, Prod.mk.injEq] at h
      obtain ⟨rfl, -⟩ := h
      refine ⟨rfl, rfl, rfl, ?_, ?_⟩
      · intro id₂ hne
        show assocGet (assocSet c₁.compute_read_capabilities id _) id₂ = _
        rw [assocGet_set, if_neg (fun he => hne he.symm), hc₁]
        show assocGet (assocSet c.compute_read_capabilities id _) id₂ = _
        rw [assocGet_set, if_neg (fun he => hne he.symm)]
      · intro cap hbad
        cases hbad
  · have hens : ensure_compute_capability c i id none = some c := by
      simp [ensure_compute_capability, hcap]
    rw [applyComputeHold] at h
    simp only [hens, hcap] at h
    simp only [Option.some.injEq, Prod.mk.injEq] at h
    obtain ⟨rfl, -⟩ := h
    refine ⟨rfl, rfl, rfl, ?_, ?_⟩
    · intro id₂ hne
      show assocGet (assocSet c.compute_read_capabilities id _) id₂ = _
      rw [assocGet_set, if_neg (fun he => hne he.symm)]
    · intro cap hcapeq
      obtain rfl : cap₀ = cap := by injection hcapeq
      show assocGet (assocSet c.compute_read_capabilities id _) id = _
      rw [assocGet_set, if_pos rfl]

end Coordinator

namespace Coordinator

theorem applyStorageHolds_spec :
    ∀ (pairs : List (Frontier × Nat)) (c c₂ : Coordinator)
      (batch : List (Nat × PolicyVal)),
      applyStorageHolds c pairs = some (c₂, batch) →
      c₂.storage_collections = c.storage_collections ∧
      c₂.compute_collections = c.compute_collections ∧
      c₂.compute_read_capabilities = c.compute_read_capabilities ∧
      (∀ id, (∀ fp ∈ pairs, fp.2 ≠ id) →
        assocGet c₂.storage_read_capabilities id =
          assocGet c.storage_read_capabilities id) ∧
      ((pairs.map Prod.snd).Nodup → ∀ fp ∈ pairs, ∀ cap,
        assocGet c.storage_read_capabilities fp.2 = some cap →
        assocGet c₂.storage_read_capabilities fp.2 = some (cap.update fp.1 1)) := by
  intro pairs
  induction pairs with
  | nil =>
      intro c c₂ batch h
      obtain ⟨rfl, -⟩ : c = c₂ ∧ [] = batch := by
        simpa [applyStorageHolds] using h
      exact ⟨rfl, rfl, rfl, fun _ _ => rfl, fun _ fp hfp => absurd hfp (by simp)⟩
  | cons fp₀ rest ih =>
      intro c c₂ batch h
      obtain ⟨f₀, id₀⟩ := fp₀
      rcases hstep : applyStorageHold c f₀ id₀ with _ | cpe
      · rw [applyStorageHolds, hstep] at h
        exact absurd h (by simp)
      · obtain ⟨c₁, pe⟩ := cpe
        simp only [applyStorageHolds, hstep] at h
        rcases hrest : applyStorageHolds c₁ rest with _ | cb₂
        · simp only [hrest] at h
          exact absurd h (by simp)
        · obtain ⟨c₃, batch₃⟩ := cb₂
          simp only [hrest] at h
          obtain ⟨rfl, -⟩ : c₃ = c₂ ∧ pe :: batch₃ = batch := by
            simpa using h
          obtain ⟨e1, e2, e3, e4, e5⟩ := applyStorageHold_spec c f₀ id₀ c₁ pe hstep
          obtain ⟨p1, p2, p3, p4, p5⟩ := ih c₁ _ _ hrest
          refine ⟨p1.trans e1, p2.trans e2, p3.trans e3, ?_, ?_⟩
          · intro id hid
            have hne : id₀ ≠ id := hid (f₀, id₀) (List.mem_cons_self _ _)
            rw [p4 id (fun fq hfq => hid fq (List.mem_cons_of_mem _ hfq)), e4 id
              (fun he => hne he.symm)]
          · intro hnd fp hfp cap hcap
            simp only [List.map_cons, List.nodup_cons] at hnd
            rcases List.mem_cons.mp hfp with heq | hr
            · subst heq
              have hnf : ∀ fq ∈ rest, fq.2 ≠ id₀ := by
                intro fq hfq he
                exact hnd.1 (he ▸ List.mem_map_of_mem Prod.snd hfq)
              rw [p4 id₀ hnf]
              exact e5 cap hcap
            · have hne : id₀ ≠ fp.2 := by
                intro he
                exact hnd.1 (he ▸ List.mem_map_of_mem Prod.snd hr)
              refine p5 hnd.2 fp hr cap ?_
              rw [e4 fp.2 (fun he => hne he.symm)]
              exact hcap

theorem applyComputeHolds_spec :
    ∀ (pairs : List (Nat × Frontier × Nat)) (c c₂ : Coordinator)
      (batch : List ((Nat × Nat) × PolicyVal)),
      applyComputeHolds c pairs = some (c₂, batch) →
      c₂.storage_collections = c.storage_collections ∧
      c₂.compute_collections = c.compute_collections ∧
      c₂.storage_read_capabilities = c.storage_read_capabilities ∧
      (∀ id, (∀ fp ∈ pairs, fp.2.2 ≠ id) →
        assocGet c₂.compute_read_capabilities id =
          assocGet c.compute_read_capabilities id) ∧
      ((pairs.map (fun q => q.2.2)).Nodup → ∀ fp ∈ pairs, ∀ cap,
        assocGet c.compute_read_capabilities fp.2.2 = some cap →
        assocGet c₂.compute_read_capabilities fp.2.2 = some (cap.update fp.2.1 1)) := by
  intro pairs
  induction pairs with
  | nil =>
      intro c c₂ batch h
      obtain ⟨rfl, -⟩ : c = c₂ ∧ [] = batch := by
        simpa [applyComputeHolds] using h
      exact ⟨rfl, rfl, rfl, fun _ _ => rfl, fun _ fp hfp => absurd hfp (by simp)⟩
  | cons fp₀ rest ih =>
      intro c c₂ batch h
      obtain ⟨i₀, f₀, id₀⟩ := fp₀
      rcases hstep : applyComputeHold c i₀ f₀ id₀ with _ | cpe
      · rw [applyComputeHolds, hstep] at h
        exact absurd h (by simp)
      · obtain ⟨c₁, pe⟩ := cpe
        simp only [applyComputeHolds, hstep] at h
        rcases hrest : applyComputeHolds c₁ rest with _ | cb₂
        · simp only [hrest] at h
          exact absurd h (by simp)
        · obtain ⟨c₃, batch₃⟩ := cb₂
          simp only [hrest] at h
          obtain ⟨rfl, -⟩ : c₃ = c₂ ∧ pe :: batch₃ = batch := by
            simpa using h
          obtain ⟨e1, e2, e3, e4, e5⟩ := applyComputeHold_spec c i₀ f₀ id₀ c₁ pe hstep
          obtain ⟨p1, p2, p3, p4, p5⟩ := ih c₁ _ _ hrest
          refine ⟨p1.trans e1, p2.trans e2, p3.trans e3, ?_, ?_⟩
          · intro id hid
            have hne : id₀ ≠ id := hid (i₀, f₀, id₀) (List.mem_cons_self _ _)
            rw [p4 id (fun fq hfq => hid fq (List.mem_cons_of_mem _ hfq)), e4 id
              (fun he => hne he.symm)]
          · intro hnd fp hfp cap hcap
            simp only [List.map_cons, List.nodup_cons] at hnd
            rcases List.mem_cons.mp hfp with heq | hr
            · subst heq
              have hnf : ∀ fq ∈ rest, fq.2.2 ≠ id₀ := by
                intro fq hfq he
                exact hnd.1 (he ▸ List.mem_map_of_mem (fun q => q.2.2) hfq)
              rw [p4 id₀ hnf]
              exact e5 cap hcap
            · have hne : id₀ ≠ fp.2.2 := by
                intro he
                exact hnd.1 (he ▸ List.mem_map_of_mem (fun q => q.2.2) hr)
              refine p5 hnd.2 fp hr cap ?_
              rw [e4 fp.2.2 (fun he => hne he.symm)]
              exact hcap

end Coordinator

namespace Coordinator

/-- Inversion: a successful `acquire_read_holds` runs the storage and compute
apply loops on the pairs of the returned hold map. -/
theorem acquire_ok_apply (c : Coordinator) (time : Timestamp)
    (bundle : CollectionIdBundle) (precise : Bool) (c₂ : Coordinator)
    (inner : ReadHoldsInner) (sb : List (Nat × PolicyVal))
    (cb : List ((Nat × Nat) × PolicyVal))
    (h : acquire_read_holds c time bundle precise =
      some (c₂, Except.ok (inner, sb, cb))) :
    ∃ c₁, applyStorageHolds c (ReadHoldsInner.storagePairs inner.holds) = some (c₁, sb) ∧
      applyComputeHolds c₁ (ReadHoldsInner.computePairs inner.holds) = some (c₂, cb) := by
  rcases hb : buildReadHolds c time bundle with _ | m
  · rw [acquire_read_holds, hb] at h
    exact absurd h (by simp)
  · simp only [acquire_read_holds, hb] at h
    by_cases hp : (precise && !(tooLate time m).isEmpty) = true
    · rw [if_pos hp] at h
      simp at h
    · rw [if_neg hp] at h
      rcases ha : applyStorageHolds c (ReadHoldsInner.storagePairs m) with _ | cs
      · rw [ha] at h
        exact absurd h (by simp)
      · obtain ⟨c₁, sb₁⟩ := cs
        simp only [ha] at h
        rcases hb₂ : applyComputeHolds c₁ (ReadHoldsInner.computePairs m) with _ | cc
        · simp only [hb₂] at h
          exact absurd h (by simp)
        · obtain ⟨c₃, cb₁⟩ := cc
          simp only [hb₂, Option.some.injEq, Prod.mk.injEq] at h
          obtain ⟨rfl, h2⟩ := h
          have h3 : (⟨m⟩ : ReadHoldsInner) = inner ∧ sb₁ = sb ∧ cb₁ = cb := by
            have h4 : ((⟨m⟩ : ReadHoldsInner), sb₁, cb₁) = (inner, sb, cb) := by
              injection h2
            exact ⟨congrArg Prod.fst h4, congrArg (fun q => q.2.1) h4,
              congrArg (fun q => q.2.2) h4⟩
          obtain ⟨hi, rfl, rfl⟩ := h3
          rw [← hi]
          exact ⟨c₁, ha, hb₂⟩

theorem storagePairs_mem (m : HoldsMap) (fp : Frontier × Nat) :
    fp ∈ ReadHoldsInner.storagePairs m ↔
      ∃ b, (fp.1, b) ∈ m ∧ fp.2 ∈ b.storage_ids := by
  rw [ReadHoldsInner.storagePairs, List.mem_flatMap]
  constructor
  · rintro ⟨fb, hfb, hmem⟩
    obtain ⟨id, hid, heq⟩ := List.mem_map.mp hmem
    refine ⟨fb.2, ?_, ?_⟩
    · rw [show fp.1 = fb.1 by rw [← heq]]
      exact (show (fb.1, fb.2) ∈ m by simpa using hfb)
    · rw [show fp.2 = id by rw [← heq]]
      exact hid
  · rintro ⟨b, hb, hmem⟩
    exact ⟨(fp.1, b), hb, List.mem_map.mpr ⟨fp.2, hmem, rfl⟩⟩

theorem computePairs_mem (m : HoldsMap) (fp : Nat × Frontier × Nat) :
    fp ∈ ReadHoldsInner.computePairs m ↔
      ∃ b, (fp.2.1, b) ∈ m ∧ (fp.1, fp.2.2) ∈ b.compute_ids := by
  rw [ReadHoldsInner.computePairs, List.mem_flatMap]
  constructor
  · rintro ⟨fb, hfb, hmem⟩
    obtain ⟨p, hp, heq⟩ := List.mem_map.mp hmem
    refine ⟨fb.2, ?_, ?_⟩
    · rw [show fp.2.1 = fb.1 by rw [← heq]]
      exact (show (fb.1, fb.2) ∈ m by simpa using hfb)
    · rw [show fp.1 = p.1 by rw [← heq], show fp.2.2 = p.2 by rw [← heq]]
      exact hp
  · rintro ⟨b, hb, hmem⟩
    exact ⟨(fp.2.1, b), hb, List.mem_map.mpr ⟨(fp.1, fp.2.2), hmem, rfl⟩⟩

theorem buildStorageHolds_pred (c : Coordinator) (ta : Frontier) :
    ∀ (ids : List Nat) (m m₂ : HoldsMap),
      buildStorageHolds c ta m ids = some m₂ →
      (∀ fb ∈ m, fb.2.storage_ids.Nodup ∧ fb.2.compute_ids.Nodup) →
      ∀ fb ∈ m₂, fb.2.storage_ids.Nodup ∧ fb.2.compute_ids.Nodup := by
  intro ids
  induction ids with
  | nil =>
      intro m m₂ h hm
      obtain rfl : m = m₂ := by simpa [buildStorageHolds] using h
      exact hm
  | cons id rest ih =>
      intro m m₂ h hm
      rcases hlow : assocGet c.storage_collections id with _ | lower
      · rw [buildStorageHolds, show insertStorageHold c ta m id = none by
          simp [insertStorageHold, hlow]] at h
        exact absurd h (by simp)
      · rw [buildStorageHolds, show insertStorageHold c ta m id =
            some (assocUpsert m (ta.join lower) CollectionIdBundle.empty
              (fun b => { b with storage_ids := insertSet b.storage_ids id })) by
          simp [insertStorageHold, hlow]] at h
        refine ih _ m₂ h ?_
        refine assocUpsert_forall
          (fun b => b.storage_ids.Nodup ∧ b.compute_ids.Nodup) m _ _ _ hm ?_ ?_
        · intro v hv
          exact ⟨insertSet_nodup _ _ hv.1, hv.2⟩
        · exact ⟨insertSet_nodup _ _ List.nodup_nil, List.nodup_nil⟩

theorem buildComputeHolds_pred (c : Coordinator) (ta : Frontier) :
    ∀ (ps : List (Nat × Nat)) (m m₂ : HoldsMap),
      buildComputeHolds c ta m ps = some m₂ →
      (∀ fb ∈ m, fb.2.storage_ids.Nodup ∧ fb.2.compute_ids.Nodup) →
      ∀ fb ∈ m₂, fb.2.storage_ids.Nodup ∧ fb.2.compute_ids.Nodup := by
  intro ps
  induction ps with
  | nil =>
      intro m m₂ h hm
      obtain rfl : m = m₂ := by simpa [buildComputeHolds] using h
      exact hm
  | cons p rest ih =>
      intro m m₂ h hm
      rcases hlow : assocGet c.compute_collections p with _ | lower
      · rw [buildComputeHolds, show insertComputeHold c ta m p = none by
          simp [insertComputeHold, hlow]] at h
        exact absurd h (by simp)
      · rw [buildComputeHolds, show insertComputeHold c ta m p =
            some (assocUpsert m (ta.join lower) CollectionIdBundle.empty
              (fun b => { b with compute_ids := insertSetP b.compute_ids p })) by
          simp [insertComputeHold, hlow]] at h
        refine ih _ m₂ h ?_
        refine assocUpsert_forall
          (fun b => b.storage_ids.Nodup ∧ b.compute_ids.Nodup) m _ _ _ hm ?_ ?_
        · intro v hv
          exact ⟨hv.1, insertSetP_nodup _ _ hv.2⟩
        · exact ⟨List.nodup_nil, insertSetP_nodup _ _ List.nodup_nil⟩

theorem buildReadHolds_bundles_nodup (c : Coordinator) (time : Timestamp)
    (bundle : CollectionIdBundle) (m : HoldsMap)
    (h : buildReadHolds c time bundle = some m) :
    ∀ fb ∈ m, fb.2.storage_ids.Nodup ∧ fb.2.compute_ids.Nodup := by
  rcases hs : buildStorageHolds c (Frontier.fromElem time) [] bundle.storage_ids with _ | m₀
  · rw [buildReadHolds, hs] at h
    exact absurd h (by simp)
  · rw [buildReadHolds, hs] at h
    exact buildComputeHolds_pred c _ bundle.compute_ids m₀ m h
      (buildStorageHolds_pred c _ bundle.storage_ids [] m₀ hs (by simp))

end Coordinator

namespace Coordinator

theorem storagePairs_map_snd :
    ∀ (m : HoldsMap), (ReadHoldsInner.storagePairs m).map Prod.snd
      = m.flatMap (fun fb => fb.2.storage_ids) := by
  intro m
  induction m with
  | nil => rfl
  | cons fb tl ih =>
      rw [ReadHoldsInner.storagePairs, List.flatMap_cons, List.map_append,
        List.map_map]
      rw [ReadHoldsInner.storagePairs] at ih
      rw [ih, List.flatMap_cons]
      congr 1
      simp [Function.comp]

theorem computePairs_map_snd :
    ∀ (m : HoldsMap), (ReadHoldsInner.computePairs m).map (fun q => q.2.2)
      = m.flatMap (fun fb => fb.2.compute_ids.map Prod.snd) := by
  intro m
  induction m with
  | nil => rfl
  | cons fb tl ih =>
      rw [ReadHoldsInner.computePairs, List.flatMap_cons, List.map_append,
        List.map_map]
      rw [ReadHoldsInner.computePairs] at ih
      rw [ih, List.flatMap_cons]
      congr 1

theorem mem_bundleAt (m : HoldsMap) (hkeys : (m.map Prod.fst).Nodup)
    (fb : Frontier × CollectionIdBundle) (hfb : fb ∈ m) :
    bundleAt m fb.1 = fb.2 := by
  have hg : assocGet m fb.1 = some fb.2 :=
    assocGet_of_mem_nodup m hkeys fb.1 fb.2 hfb
  rw [bundleAt, hg]
  rfl

/-- Every storage pair of a built hold map comes from a collection of the
requested bundle, held at its effective frontier. -/
theorem storagePairs_char (c : Coordinator) (time : Timestamp)
    (bundle : CollectionIdBundle) (m : HoldsMap)
    (h : buildReadHolds c time bundle = some m)
    (fp : Frontier × Nat) (hfp : fp ∈ ReadHoldsInner.storagePairs m) :
    fp.2 ∈ bundle.storage_ids ∧ ∃ lower,
      assocGet c.storage_collections fp.2 = some lower ∧
      (Frontier.fromElem time).join lower = fp.1 := by
  obtain ⟨s1, -, -, hkeys⟩ := buildReadHolds_spec c time bundle m h
  obtain ⟨b, hb, hmem⟩ := (storagePairs_mem m fp).mp hfp
  have hba : bundleAt m fp.1 = b := mem_bundleAt m hkeys (fp.1, b) hb
  exact (s1 fp.1 fp.2).mp (by rw [hba]; exact hmem)

/-- Every compute pair of a built hold map comes from a collection of the
requested bundle, held at its effective frontier. -/
theorem computePairs_char (c : Coordinator) (time : Timestamp)
    (bundle : CollectionIdBundle) (m : HoldsMap)
    (h : buildReadHolds c time bundle = some m)
    (fp : Nat × Frontier × Nat) (hfp : fp ∈ ReadHoldsInner.computePairs m) :
    (fp.1, fp.2.2) ∈ bundle.compute_ids ∧ ∃ lower,
      assocGet c.compute_collections (fp.1, fp.2.2) = some lower ∧
      (Frontier.fromElem time).join lower = fp.2.1 := by
  obtain ⟨-, c2, -, hkeys⟩ := buildReadHolds_spec c time bundle m h
  obtain ⟨b, hb, hmem⟩ := (computePairs_mem m fp).mp hfp
  have hba : bundleAt m fp.2.1 = b := mem_bundleAt m hkeys (fp.2.1, b) hb
  exact (c2 fp.2.1 (fp.1, fp.2.2)).mp (by rw [hba]; exact hmem)

/-- No storage id occurs twice among the storage pairs of a built hold map. -/
theorem storagePairs_snd_nodup (c : Coordinator) (time : Timestamp)
    (bundle : CollectionIdBundle) (m : HoldsMap)
    (h : buildReadHolds c time bundle = some m) :
    ((ReadHoldsInner.storagePairs m).map Prod.snd).Nodup := by
  obtain ⟨s1, -, -, hkeys⟩ := buildReadHolds_spec c time bundle m h
  have hbn := buildReadHolds_bundles_nodup c time bundle m h
  rw [storagePairs_map_snd, List.nodup_flatMap]
  refine ⟨fun fb hfb => (hbn fb hfb).1, ?_⟩
  have hpw : m.Pairwise (fun a b => a.1 ≠ b.1) := List.pairwise_map.mp hkeys
  refine hpw.imp_of_mem ?_
  intro a b ha hb hne
  intro x hxa hxb
  have h₁ : x ∈ (bundleAt m a.1).storage_ids := by
    rw [mem_bundleAt m hkeys a ha]; exact hxa
  have h₂ : x ∈ (bundleAt m b.1).storage_ids := by
    rw [mem_bundleAt m hkeys b hb]; exact hxb
  obtain ⟨-, lower₁, hl₁, hj₁⟩ := (s1 a.1 x).mp h₁
  obtain ⟨-, lower₂, hl₂, hj₂⟩ := (s1 b.1 x).mp h₂
  obtain rfl : lower₁ = lower₂ := by
    rw [hl₁] at hl₂
    exact Option.some.inj hl₂
  exact hne (hj₁.symm.trans hj₂)

/-- No compute collection id occurs twice among the compute pairs of a built
hold map, provided the requested bundle lists each compute id once. -/
theorem computePairs_snd_nodup (c : Coordinator) (time : Timestamp)
    (bundle : CollectionIdBundle) (m : HoldsMap)
    (h : buildReadHolds c time bundle = some m)
    (hndc : (bundle.compute_ids.map Prod.snd).Nodup) :
    ((ReadHoldsInner.computePairs m).map (fun q => q.2.2)).Nodup := by
  obtain ⟨-, c2, -, hkeys⟩ := buildReadHolds_spec c time bundle m h
  have hbn := buildReadHolds_bundles_nodup c time bundle m h
  rw [computePairs_map_snd, List.nodup_flatMap]
  have hsub : ∀ fb ∈ m, ∀ p ∈ fb.2.compute_ids, p ∈ bundle.compute_ids ∧
      ∃ lower, assocGet c.compute_collections p = some lower ∧
        (Frontier.fromElem time).join lower = fb.1 := by
    intro fb hfb p hp
    have hba : bundleAt m fb.1 = fb.2 := mem_bundleAt m hkeys fb hfb
    exact (c2 fb.1 p).mp (by rw [hba]; exact hp)
  refine ⟨?_, ?_⟩
  · intro fb hfb
    exact nodup_map_of_sub Prod.snd fb.2.compute_ids bundle.compute_ids
      (hbn fb hfb).2 (fun p hp => (hsub fb hfb p hp).1) hndc
  · have hpw : m.Pairwise (fun a b => a.1 ≠ b.1) := List.pairwise_map.mp hkeys
    refine hpw.imp_of_mem ?_
    intro a b ha hb hne
    intro x hxa hxb
    obtain ⟨p, hp, hpx⟩ := List.mem_map.mp hxa
    obtain ⟨q, hq, hqx⟩ := List.mem_map.mp hxb
    obtain ⟨hpb, lower₁, hl₁, hj₁⟩ := hsub a ha p hp
    obtain ⟨hqb, lower₂, hl₂, hj₂⟩ := hsub b hb q hq
    obtain rfl : p = q :=
      nodup_map_mem_inj Prod.snd bundle.compute_ids hndc p hpb q hqb
        (hpx.trans hqx.symm)
    obtain rfl : lower₁ = lower₂ := by
      rw [hl₁] at hl₂
      exact Option.some.inj hl₂
    exact hne (hj₁.symm.trans hj₂)

end Coordinator

/-- C8: acquire-then-immediately-release (same returned holds), with no
interleaved operation.  For every collection that holds a `ReadCapability`
before the acquisition — every reachable collection does — the capability
entry after the release has the same base policy, the same net hold count at
every time (the +1 at the effective frontier recorded by the acquisition is
cancelled by the -1 of the release), and hence the same derived `policy()`
value as before the acquisition; the controller-side collection frontiers are
untouched.  Compute ids are assumed listed once in the bundle, as
`BTreeMap<_, BTreeSet<_>>` guarantees. -/
theorem claim_C8_acquire_release_roundtrip (c : Coordinator) (time : Timestamp)
    (bundle : CollectionIdBundle) (precise : Bool) (c₂ c₃ : Coordinator)
    (inner : ReadHoldsInner) (sb : List (Nat × PolicyVal))
    (cb : List ((Nat × Nat) × PolicyVal))
    (sb₂ : List (Nat × PolicyVal)) (cb₂ : List ((Nat × Nat) × PolicyVal))
    (hacq : Coordinator.acquire_read_holds c time bundle precise =
      some (c₂, Except.ok (inner, sb, cb)))
    (hrel : Coordinator.release_read_holds c₂ [inner] = (c₃, sb₂, cb₂))
    (hndc : (bundle.compute_ids.map Prod.snd).Nodup) :
    c₃.storage_collections = c.storage_collections ∧
    c₃.compute_collections = c.compute_collections ∧
    (∀ id cap, assocGet c.storage_read_capabilities id = some cap →
      ∃ cap₂, assocGet c₃.storage_read_capabilities id = some cap₂ ∧
        cap₂.base_policy = cap.base_policy ∧
        (∀ t, cap₂.count t = cap.count t) ∧
        cap₂.policy = cap.policy) ∧
    (∀ id cap, assocGet c.compute_read_capabilities id = some cap →
      ∃ cap₂, assocGet c₃.compute_read_capabilities id = some cap₂ ∧
        cap₂.base_policy = cap.base_policy ∧
        (∀ t, cap₂.count t = cap.count t) ∧
        cap₂.policy = cap.policy) := by
  have hb := Coordinator.acquire_ok_build c time bundle precise c₂ inner sb cb hacq
  have hnds := Coordinator.storagePairs_snd_nodup c time bundle inner.holds hb
  have hndc₂ := Coordinator.computePairs_snd_nodup c time bundle inner.holds hb hndc
  obtain ⟨c₁, hA, hB⟩ :=
    Coordinator.acquire_ok_apply c time bundle precise c₂ inner sb cb hacq
  obtain ⟨a1, a2, a3, a4, a5⟩ := Coordinator.applyStorageHolds_spec _ _ _ _ hA
  obtain ⟨b1, b2, b3, b4, b5⟩ := Coordinator.applyComputeHolds_spec _ _ _ _ hB
  rcases hs : Coordinator.releaseStoragePairs c₂
      (ReadHoldsInner.storagePairs inner.holds) with ⟨c₄, sb₁⟩
  rcases hc₅ : Coordinator.releaseComputePairs c₄
      (ReadHoldsInner.computePairs inner.holds) with ⟨c₅, cb₁⟩
  have hrel₂ : c₅ = c₃ ∧ sb₁ = sb₂ ∧ cb₁ = cb₂ := by
    rw [Coordinator.release_read_holds] at hrel
    simp only [List.flatMap_cons, List.flatMap_nil, List.append_nil] at hrel
    rw [hs] at hrel
    simp only [hc₅] at hrel
    exact ⟨congrArg Prod.fst hrel, congrArg (fun q => q.2.1) hrel,
      congrArg (fun q => q.2.2) hrel⟩
  obtain ⟨rfl, rfl, rfl⟩ := hrel₂
  obtain ⟨s1, s2, s3, s4, s5, s6⟩ := Coordinator.releaseStoragePairs_spec _ _ _ _ hs
  obtain ⟨t1, t2, t3, t4, t5, t6⟩ := Coordinator.releaseComputePairs_spec _ _ _ _ hc₅
  refine ⟨?_, ?_, ?_, ?_⟩
  · rw [t1, s1, b1, a1]
  · rw [t2, s2, b2, a2]
  · intro id cap hcap
    by_cases hmem : ∀ fp ∈ ReadHoldsInner.storagePairs inner.holds, fp.2 ≠ id
    · refine ⟨cap, ?_, rfl, fun _ => rfl, rfl⟩
      rw [t3, s4 id hmem, b3, a4 id hmem]
      exact hcap
    · push_neg at hmem
      obtain ⟨fp, hfp, hfpid⟩ := hmem
      subst hfpid
      have h₁ : assocGet c₁.storage_read_capabilities fp.2 =
          some (cap.update fp.1 1) := a5 hnds fp hfp cap hcap
      have h₂ : assocGet c₂.storage_read_capabilities fp.2 =
          some (cap.update fp.1 1) := by
        rw [b3]
        exact h₁
      obtain ⟨-, hq⟩ := s6 hnds fp hfp
      obtain ⟨h₃, -⟩ := hq (cap.update fp.1 1) h₂
      refine ⟨(cap.update fp.1 1).update fp.1 (-1), ?_, rfl, ?_, ?_⟩
      · rw [t3]
        exact h₃
      · intro t
        rw [count_update, count_update]
        by_cases hft : fp.1 = some t <;> simp [hft]
      · refine policy_congr _ _ ?_ rfl
        intro t
        rw [count_update, count_update]
        by_cases hft : fp.1 = some t <;> simp [hft]
  · intro id cap hcap
    by_cases hmem : ∀ fp ∈ ReadHoldsInner.computePairs inner.holds, fp.2.2 ≠ id
    · refine ⟨cap, ?_, rfl, fun _ => rfl, rfl⟩
      rw [t4 id hmem, s3, b4 id hmem, a3]
      exact hcap
    · push_neg at hmem
      obtain ⟨fp, hfp, hfpid⟩ := hmem
      subst hfpid
      have h₀ : assocGet c₁.compute_read_capabilities fp.2.2 = some cap := by
        rw [a3]
        exact hcap
      have h₁ : assocGet c₂.compute_read_capabilities fp.2.2 =
          some (cap.update fp.2.1 1) := b5 hndc₂ fp hfp cap h₀
      have h₂ : assocGet c₄.compute_read_capabilities fp.2.2 =
          some (cap.update fp.2.1 1) := by
        rw [s3]
        exact h₁
      obtain ⟨-, hq⟩ := t6 hndc₂ fp hfp
      obtain ⟨h₃, -⟩ := hq (cap.update fp.2.1 1) h₂
      refine ⟨(cap.update fp.2.1 1).update fp.2.1 (-1), h₃, rfl, ?_, ?_⟩
      · intro t
        rw [count_update, count_update]
        by_cases hft : fp.2.1 = some t <;> simp [hft]
      · refine policy_congr _ _ ?_ rfl
        intro t
        rw [count_update, count_update]
        by_cases hft : fp.2.1 = some t <;> simp [hft]

/-- C8, witness: one storage collection (lower {5}, implied hold at 5,
ValidFrom base policy), acquire at time 10 then release the returned hold:
the capability returns to net count 1 at 5 and 0 at 10, and `policy()` is
({5}, ValidFrom {5}) before and after. -/
theorem claim_C8_witness :
    (Coordinator.acquire_read_holds
        ⟨[(0, some 5)], [], [(0, ⟨[(5, 1)], ReadPolicy.validFrom (some 5)⟩)], []⟩ 10
        ⟨[0], []⟩ false =
      some (⟨[(0, some 5)], [],
          [(0, ⟨[(5, 1), (10, 1)], ReadPolicy.validFrom (some 5)⟩)], []⟩,
        Except.ok (⟨[(some 10, ⟨[0], []⟩)]⟩,
          [(0, (some 5, ReadPolicy.validFrom (some 5)))], []))) ∧
    (Coordinator.release_read_holds
        ⟨[(0, some 5)], [],
          [(0, ⟨[(5, 1), (10, 1)], ReadPolicy.validFrom (some 5)⟩)], []⟩
        [⟨[(some 10, ⟨[0], []⟩)]⟩] =
      (⟨[(0, some 5)], [],
          [(0, ⟨[(5, 1), (10, 1), (10, -1)], ReadPolicy.validFrom (some 5)⟩)], []⟩,
        [(0, (some 5, ReadPolicy.validFrom (some 5)))], [])) ∧
    ((([] : List (Nat × Nat)).map Prod.snd).Nodup) ∧
    (∀ id cap, assocGet ([(0, ⟨[(5, 1)], ReadPolicy.validFrom (some 5)⟩)] :
        List (Nat × ReadCapability)) id = some cap →
      ∃ cap₂, assocGet ([(0, ⟨[(5, 1), (10, 1), (10, -1)],
          ReadPolicy.validFrom (some 5)⟩)] : List (Nat × ReadCapability)) id =
            some cap₂ ∧
        cap₂.base_policy = cap.base_policy ∧
        (∀ t, cap₂.count t = cap.count t) ∧
        cap₂.policy = cap.policy) :=
  ⟨rfl, rfl, by decide,
    (claim_C8_acquire_release_roundtrip
      ⟨[(0, some 5)], [], [(0, ⟨[(5, 1)], ReadPolicy.validFrom (some 5)⟩)], []⟩ 10
      ⟨[0], []⟩ false
      ⟨[(0, some 5)], [],
        [(0, ⟨[(5, 1), (10, 1)], ReadPolicy.validFrom (some 5)⟩)], []⟩
      ⟨[(0, some 5)], [],
        [(0, ⟨[(5, 1), (10, 1), (10, -1)], ReadPolicy.validFrom (some 5)⟩)], []⟩
      ⟨[(some 10, ⟨[0], []⟩)]⟩
      [(0, (some 5, ReadPolicy.validFrom (some 5)))] []
      [(0, (some 5, ReadPolicy.validFrom (some 5)))] []
      rfl rfl (by decide)).2.2.1⟩
